import Mathlib

/-!
MersenneTwister_C: the integer generator and the state text codec.

A shallow embedding of `MT_random.c` / `MT_random.h`.

Conventions of the embedding.

* A C `int` is an `Int` in `[-2^31, 2^31)`; `i32`/`u32` are the conversions to
  `int` and to `unsigned int` (reduction modulo `2^32`).
* A `long int` word of the twister state and the raw bits of a `double` are
  represented by their 64-bit pattern, a `Nat` below `2^64`; `i64` gives the
  signed value of a pattern and `u64` the pattern of a signed value.  Unsigned
  64-bit arithmetic is arithmetic on `Nat` followed by `% 2^64`.
* `long int mtstate[MTSTATESIZE]` is a `List Nat`; every subscript goes
  through `rd` / `wr`, which fail (`none`) outside `0 .. MTSTATESIZE-1`.
  A function returns `none` exactly when it would index out of bounds, write
  outside an allocated block, read an indeterminate byte, or call `abort()`.
  The one exception is `next_random_lint_object`, a second reading of
  `next_random_lint` in which the subscript `-1` is resolved over the object
  representation of the structure.
* A C string is the `List Char` of its characters before the terminating NUL.
* The operations on `double` are parameters of the embedding (`FloatOps`,
  `Libm`); `exactOps` is the instance with exact rational arithmetic on the
  values of finite `double`s.  A loop that need not terminate takes a bound
  `fuel` on its iterations.
-/

namespace MT

/-! ## Machine integers -/

/-- Conversion of an integer value to `unsigned long` (64 bits). -/
def u64 (x : Int) : Nat := (x % 2 ^ 64).toNat

/-- Conversion of a 64-bit pattern to `long int` (two's complement). -/
def i64 (n : Nat) : Int :=
  if n % 2 ^ 64 < 2 ^ 63 then ((n % 2 ^ 64 : Nat) : Int) else ((n % 2 ^ 64 : Nat) : Int) - 2 ^ 64

/-- Conversion of an integer value to `unsigned int` (32 bits). -/
def u32 (x : Int) : Nat := (x % 2 ^ 32).toNat

/-- Conversion of a 32-bit pattern to `int` (two's complement). -/
def i32 (n : Nat) : Int :=
  if n % 2 ^ 32 < 2 ^ 31 then ((n % 2 ^ 32 : Nat) : Int) else ((n % 2 ^ 32 : Nat) : Int) - 2 ^ 32

/-! ## Constants of `MT_random.h` and `MT_random.c` -/

/-- `#define MTSTATESIZE 312` -/
def MTSTATESIZE : Nat := 312

/-- `#define NN (MTSTATESIZE)` -/
def NN : Nat := MTSTATESIZE

/-- `#define MM 0x000000000000009C` -/
def MM : Nat := 0x9C

/-- `#define UM 0xFFFFFFFF80000000` -/
def UM : Nat := 0xFFFFFFFF80000000

/-- `#define LM 0x000000007FFFFFFF` -/
def LM : Nat := 0x7FFFFFFF

/-- `const long int mag[2]`, as 64-bit patterns. -/
def mag : List Nat := [0x0000000000000000, 0xB5026F5AA96619E9]

/-! ## Data model -/

/-- `rng_int_type`: the seed, the index of the word used last, and the
312 state words (64-bit patterns of the `long int` entries). -/
structure rng_int_type where
  seed : Int
  mtidx : Int
  mtstate : List Nat
deriving DecidableEq

/-- `rng_uniform_type`: the bounds as raw 64-bit patterns of the two
`double`s, and the embedded integer generator. -/
structure rng_uniform_type where
  lower : Nat
  upper : Nat
  rng_int : rng_int_type
deriving DecidableEq

/-- Subscript read `mtstate[i]`; `none` when `i` is outside the array. -/
def rd (a : List Nat) (i : Int) : Option Nat :=
  if 0 ≤ i ∧ i < (MTSTATESIZE : Int) then a[i.toNat]? else none

/-- Subscript write `mtstate[i] = v`; `none` when `i` is outside the array. -/
def wr (a : List Nat) (i : Int) (v : Nat) : Option (List Nat) :=
  if 0 ≤ i ∧ i < (MTSTATESIZE : Int) ∧ i.toNat < a.length then some (a.set i.toNat v) else none

/-- Auxiliary for `forRange`: `n` iterations starting at counter `i`. -/
def forRangeAux {σ : Type} (body : Nat → σ → Option σ) : Nat → Nat → σ → Option σ
  | 0, _, s => some s
  | n + 1, i, s =>
    match body i s with
    | none => none
    | some s1 => forRangeAux body n (i + 1) s1

/-- The loop `for (int i = lo; i < hi; i++) body`. -/
def forRange {σ : Type} (lo hi : Nat) (body : Nat → σ → Option σ) (s : σ) : Option σ :=
  forRangeAux body (hi - lo) lo s

/-! ## Seeding and drawing -/

/-- The body of the seeding loop:
`mtstate[i] = 0x5851F42D4C957F2D * (mtstate[i-1] ^ ((unsigned long) mtstate[i-1] >> 62)) + i`
in unsigned 64-bit arithmetic. -/
def init_step (i : Nat) (st : List Nat) : Option (List Nat) := do
  let p ← rd st ((i : Int) - 1)
  wr st i ((0x5851F42D4C957F2D * (p ^^^ (p >>> 62)) + i) % 2 ^ 64)

/-- `init_rng_int`.  The argument `rng_int` is the indeterminate initial
content of the local variable of the same name, which the function fills. -/
def init_rng_int (rng_int : rng_int_type) (seed : Int) : Option rng_int_type := do
  let st ← wr rng_int.mtstate 0 (u64 seed)
  let st ← forRange 1 NN init_step st
  some { seed := seed, mtidx := (NN : Int) + 1, mtstate := st }

/-- One step of the first refill loop (`i` in `0 .. NN-MM-1`). -/
def twist_lo (i : Nat) (st : List Nat) : Option (List Nat) := do
  let a ← rd st i
  let b ← rd st ((i : Int) + 1)
  let rng := (a &&& UM) ^^^ (b &&& LM)
  let c ← rd st ((i : Int) + MM)
  let m ← mag[rng &&& 1]?
  wr st i ((c ^^^ (rng >>> 1)) ^^^ m)

/-- One step of the second refill loop (`i` in `NN-MM .. NN-2`). -/
def twist_hi (i : Nat) (st : List Nat) : Option (List Nat) := do
  let a ← rd st i
  let b ← rd st ((i : Int) + 1)
  let rng := (a &&& UM) ^^^ (b &&& LM)
  let c ← rd st ((i : Int) + MM - NN)
  let m ← mag[rng &&& 1]?
  wr st i ((c ^^^ (rng >>> 1)) ^^^ m)

/-- The statements after the two refill loops: the word `NN-1`. -/
def twist_last (st : List Nat) : Option (List Nat) := do
  let a ← rd st ((NN : Int) - 1)
  let b ← rd st 0
  let rng := (a &&& UM) ^^^ (b &&& LM)
  let c ← rd st ((MM : Int) - 1)
  let m ← mag[rng &&& 1]?
  wr st ((NN : Int) - 1) ((c ^^^ (rng >>> 1)) ^^^ m)

/-- The body of `if (rng_int->mtidx > NN-2) { ... }`. -/
def refill (rng_int : rng_int_type) : Option rng_int_type := do
  let st ← forRange 0 (NN - MM) twist_lo rng_int.mtstate
  let st ← forRange (NN - MM) (NN - 1) twist_hi st
  let st ← twist_last st
  some { rng_int with mtstate := st, mtidx := -1 }

/-- `next_random_lint`: the returned `long int` and the generator after the
call. -/
def next_random_lint (rng_int : rng_int_type) : Option (Int × rng_int_type) := do
  let g ← (if rng_int.mtidx > (NN : Int) - 2 then refill rng_int else some rng_int)
  let g := { g with mtidx := g.mtidx + 1 }
  let rng ← rd g.mtstate g.mtidx
  let rng := rng ^^^ ((rng >>> 29) &&& 0x5555555555555555)
  let rng := rng ^^^ (((rng <<< 17) % 2 ^ 64) &&& 0x71d67fffeda60000)
  let rng := rng ^^^ (((rng <<< 37) % 2 ^ 64) &&& 0xfff7eee000000000)
  let rng := rng ^^^ (rng >>> 43)
  some (i64 rng, g)

/-- `next_random_int`: the returned `int` and the generator after the call. -/
def next_random_int (rng_int : rng_int_type) : Option (Int × rng_int_type) := do
  let (r, g) ← next_random_lint rng_int
  some (i32 (u64 r >>> 32), g)

/-- The generator after `n` successive calls of `next_random_lint`. -/
def draws : Nat → rng_int_type → Option rng_int_type
  | 0, g => some g
  | n + 1, g =>
    match next_random_lint g with
    | none => none
    | some (_, g1) => draws n g1

/-- The values returned by `n` successive calls of `next_random_lint`, first
call first, and the generator after them. -/
def drawList : Nat → rng_int_type → Option (List Int × rng_int_type)
  | 0, g => some ([], g)
  | n + 1, g =>
    match next_random_lint g with
    | none => none
    | some (v, g1) =>
      match drawList n g1 with
      | none => none
      | some (vs, g2) => some (v :: vs, g2)

/-- Well-formed integer generator: `seed` and `mtidx` are C `int`s, there are
`MTSTATESIZE` state words and each is a 64-bit pattern. -/
def rng_int_type.WF (g : rng_int_type) : Prop :=
  -2 ^ 31 ≤ g.seed ∧ g.seed < 2 ^ 31 ∧ -2 ^ 31 ≤ g.mtidx ∧ g.mtidx < 2 ^ 31 ∧
  g.mtstate.length = MTSTATESIZE ∧ ∀ w ∈ g.mtstate, w < 2 ^ 64

/-! ## Reference definitions taken from the specification -/

/-- The seeding recurrence as the specification words it: word `0` is the
seed sign-extended to 64 bits, word `i` is
`C * (prev XOR (prev >> 62)) + i` modulo `2^64`. -/
def seedWord (seed : Int) : Nat → Nat
  | 0 => u64 seed
  | i + 1 =>
    (0x5851F42D4C957F2D * (seedWord seed i ^^^ (seedWord seed i / 2 ^ 62)) + (i + 1)) % 2 ^ 64

/-- One word of the reference MT19937-64 twist: `x` is the OR of the upper
33 bits of `a` and the lower 31 bits of `b`; the result is
`c XOR (x >> 1) XOR (A if x is odd else 0)`. -/
def twistWord (a b c : Nat) : Nat :=
  let x := (a &&& 0xFFFFFFFF80000000) ||| (b &&& 0x7FFFFFFF)
  c ^^^ (x / 2) ^^^ (if x % 2 = 1 then 0xB5026F5AA96619E9 else 0)

/-- The four-step tempering `T` on 64-bit words, as the specification words
it; right shifts are logical, left shifts are truncated to 64 bits. -/
def temper (w : Nat) : Nat :=
  let w1 := w ^^^ ((w / 2 ^ 29) &&& 0x5555555555555555)
  let w2 := w1 ^^^ ((w1 * 2 ^ 17 % 2 ^ 64) &&& 0x71D67FFFEDA60000)
  let w3 := w2 ^^^ ((w2 * 2 ^ 37 % 2 ^ 64) &&& 0xFFF7EEE000000000)
  w3 ^^^ (w3 / 2 ^ 43)

/-! ## Text formatting (`sprintf`) -/

/-- `#define INT_STATELENGTH (1+2*9+312*17+1)` -/
def INT_STATELENGTH : Nat := 1 + 2 * 9 + 312 * 17 + 1

/-- `#define UNIFORM_STATELENGTH (1+2*17+1+INT_STATELENGTH)` -/
def UNIFORM_STATELENGTH : Nat := 1 + 2 * 17 + 1 + INT_STATELENGTH

/-- The terminating character of a C string. -/
def NUL : Char := Char.ofNat 0

/-- The digit characters of the `x` conversion of `printf`: `0` to `9`, then
`a` to `f`. -/
def hexChar (d : Nat) : Char :=
  if d < 10 then Char.ofNat (48 + d) else Char.ofNat (87 + d)

/-- The hexadecimal digits of `n`, most significant first, without leading
zeros (`"0"` for zero), for a value of a type with at most `k` hexadecimal
digits (`n < 16^k`). -/
def toHex : Nat → Nat → List Char
  | 0, _ => []
  | k + 1, n => if n < 16 then [hexChar n] else toHex k (n / 16) ++ [hexChar (n % 16)]

/-- Right-justification in a field of minimum width `width`, padding with
spaces on the left. -/
def padLeft (width : Nat) (ds : List Char) : List Char :=
  List.replicate (width - ds.length) ' ' ++ ds

/-- The conversion `%<width>x` of `printf` applied to an `unsigned int`. -/
def fmt_x (width : Nat) (v : Nat) : List Char := padLeft width (toHex 8 (v % 2 ^ 32))

/-- The conversion `%<width>lx` of `printf` applied to an `unsigned long`. -/
def fmt_lx (width : Nat) (v : Nat) : List Char := padLeft width (toHex 16 (v % 2 ^ 64))

/-! ## Allocated blocks and C strings

A block returned by `malloc` is a list of bytes, each either written
(`some c`) or still indeterminate (`none`). -/

/-- `malloc(n * sizeof(char))`: `n` indeterminate bytes. -/
def malloc (n : Nat) : List (Option Char) := List.replicate n none

/-- Writing the characters `text` and a terminating NUL at offset `off` of a
block, as `sprintf(block + off, ...)` and `strcpy(block + off, ...)` do;
`none` when the write does not fit in the block. -/
def store_str (block : List (Option Char)) (off : Nat) (text : List Char) :
    Option (List (Option Char)) :=
  if off + text.length + 1 ≤ block.length then
    some (block.take off ++ (text.map some ++ some NUL :: block.drop (off + text.length + 1)))
  else none

/-- Auxiliary for `cstr`: `acc` holds the characters passed so far, last
first. -/
def cstrAux : List (Option Char) → List Char → Option (List Char)
  | [], _ => none
  | none :: _, _ => none
  | some c :: rest, acc => if c = NUL then some acc.reverse else cstrAux rest (c :: acc)

/-- The C string that starts at the beginning of a block: the characters
before the first NUL; `none` when an indeterminate byte or the end of the
block comes first. -/
def cstr (block : List (Option Char)) : Option (List Char) := cstrAux block []

/-! ## Text scanning (`sscanf`), following glibc

The input of a conversion is the list of characters from the current
pointer up to the terminating NUL; a pointer moved past the terminator sees
the empty input. -/

/-- The predicate `isspace` of the C locale. -/
def isspace (c : Char) : Bool :=
  c.toNat = 32 || (9 ≤ c.toNat && c.toNat ≤ 13)

/-- Skipping leading white space. -/
def skip_space : List Char → List Char
  | [] => []
  | c :: s => if isspace c then skip_space s else c :: s

/-- The value of a hexadecimal digit character, `none` for other characters. -/
def xdigit (c : Char) : Option Nat :=
  if 48 ≤ c.toNat ∧ c.toNat ≤ 57 then some (c.toNat - 48)
  else if 97 ≤ c.toNat ∧ c.toNat ≤ 102 then some (c.toNat - 87)
  else if 65 ≤ c.toNat ∧ c.toNat ≤ 70 then some (c.toNat - 55)
  else none

/-- An optional sign; it counts against the field width.  Returns whether
the sign was `-`, the width left and the unread input. -/
def scan_sign (width : Nat) : List Char → Bool × Nat × List Char
  | [] => (false, width, [])
  | c :: s =>
    if c = '-' then (true, width - 1, s)
    else if c = '+' then (false, width - 1, s)
    else (false, width, c :: s)

/-- After a leading `0`: an `x` or `X` is taken when the field width allows.
Returns `true` (a `0` was taken), the width left and the unread input. -/
def scan_x_mark (width : Nat) : List Char → Bool × Nat × List Char
  | [] => (true, width, [])
  | d :: t =>
    if width ≠ 0 ∧ (d = 'x' ∨ d = 'X') then (true, width - 1, t) else (true, width, d :: t)

/-- An optional leading `0`, itself optionally followed by `x` or `X`, as far
as the field width allows.  Returns whether a `0` was taken, the width left
and the unread input. -/
def scan_lead (width : Nat) : List Char → Bool × Nat × List Char
  | [] => (false, width, [])
  | c :: t => if width ≠ 0 ∧ c = '0' then scan_x_mark (width - 1) t else (false, width, c :: t)

/-- Hexadecimal digits, at most `width` of them.  Returns how many were
taken, the accumulated value and the unread input. -/
def scan_digits : Nat → List Char → Nat → Nat → Nat × Nat × List Char
  | 0, s, cnt, acc => (cnt, acc, s)
  | _ + 1, [], cnt, acc => (cnt, acc, [])
  | w + 1, c :: s, cnt, acc =>
    match xdigit c with
    | some d => scan_digits w s (cnt + 1) (16 * acc + d)
    | none => (cnt, acc, c :: s)

/-- The result of `strtoul` on a sign and a magnitude: `ULONG_MAX` on
overflow, otherwise the magnitude, negated modulo `2^64` after a `-`. -/
def strtoul_value (neg : Bool) (acc : Nat) : Nat :=
  if 2 ^ 64 ≤ acc then 2 ^ 64 - 1
  else if neg then (2 ^ 64 - acc) % 2 ^ 64
  else acc

/-- The conversion `%<width>lx` of `scanf`: the `unsigned long` read and the
unread input, or `none` when the conversion fails (end of input or no
digits), in which case nothing is stored. -/
def scan_lx (width : Nat) (s : List Char) : Option (Nat × List Char) :=
  match skip_space s with
  | [] => none
  | c :: t =>
    match scan_sign width (c :: t) with
    | (neg, w1, s1) =>
      match scan_lead w1 s1 with
      | (zero, w2, s2) =>
        match scan_digits w2 s2 0 0 with
        | (cnt, acc, s3) =>
          if zero = false ∧ cnt = 0 then none else some (strtoul_value neg acc, s3)

/-- The conversion `%<width>x` of `scanf`: as `%lx`, the value stored being
truncated to `unsigned int`. -/
def scan_x (width : Nat) (s : List Char) : Option (Nat × List Char) :=
  match scan_lx width s with
  | none => none
  | some (v, rest) => some (v % 2 ^ 32, rest)

/-! ## Saving a state to text -/

/-- The body of the loop of `get_random_state_int`; the loop state is the
block and the offset `tmpchar`. -/
def get_int_step (rng_int : rng_int_type) (i : Nat) (st : List (Option Char) × Nat) :
    Option (List (Option Char) × Nat) := do
  let w ← rd rng_int.mtstate i
  let block ← store_str st.1 st.2 (fmt_lx 17 w)
  some (block, st.2 + 17)

/-- `get_random_state_int`: the block the returned pointer points to; `tmpchar`
is the offset of the write pointer in the block. -/
def get_random_state_int (rng_int : rng_int_type) : Option (List (Option Char)) := do
  let intstate := malloc INT_STATELENGTH
  let tmpchar := 0
  let intstate ← store_str intstate tmpchar
    (['I', ' '] ++ fmt_x 8 (u32 rng_int.seed) ++ [' '] ++ fmt_x 8 (u32 rng_int.mtidx))
  let tmpchar := tmpchar + 19
  let st ← forRange 0 MTSTATESIZE (get_int_step rng_int) (intstate, tmpchar)
  some st.1

/-- `get_random_state_uniform`: the block the returned pointer points to.
`strcpy` reads the string of the block returned by `get_random_state_int`. -/
def get_random_state_uniform (rng_uniform : rng_uniform_type) :
    Option (List (Option Char)) := do
  let unistate := malloc UNIFORM_STATELENGTH
  let tmpchar := 0
  let unistate ← store_str unistate tmpchar (['U'] ++ fmt_lx 17 rng_uniform.lower)
  let tmpchar := tmpchar + 18
  let unistate ← store_str unistate tmpchar (fmt_lx 17 rng_uniform.upper ++ [' '])
  let tmpchar := tmpchar + 17
  let intstate ← get_random_state_int rng_uniform.rng_int
  let tmpchar := tmpchar + 1
  let text ← cstr intstate
  store_str unistate tmpchar text

/-! ## Restoring a state from text

The locals of the restore functions are not initialised in the source; their
indeterminate initial contents are the `frame` arguments. -/

/-- The locals of `restore_rng_state_int` on entry. -/
structure int_frame where
  rng_int : rng_int_type
  rngt : Char

/-- The locals of `restore_rng_state_uniform` on entry, and those of its
call of `restore_rng_state_int`. -/
structure uniform_frame where
  rng_uniform : rng_uniform_type
  rngt : Char
  callee : int_frame

/-- `sscanf(s, "%c", &rngt)`: the first character, `rngt` unchanged at the end
of input. -/
def sscanf_c (s : List Char) (rngt : Char) : Char :=
  match s with
  | [] => rngt
  | c :: _ => c

/-- `sscanf(s, " %8x %8x", &seed, &mtidx)`: the two `int` objects after the
call; a failed conversion ends the call and leaves its object and the
following one unchanged. -/
def sscanf_x_x (s : List Char) (seed mtidx : Int) : Int × Int :=
  match scan_x 8 (skip_space s) with
  | none => (seed, mtidx)
  | some (v, rest) =>
    match scan_x 8 (skip_space rest) with
    | none => (i32 v, mtidx)
    | some (v2, _) => (i32 v, i32 v2)

/-- `sscanf(s, "%<width>lx", &x)`: the object after the call. -/
def sscanf_lx (width : Nat) (s : List Char) (x : Nat) : Nat :=
  match scan_lx width s with
  | none => x
  | some (v, _) => v

/-- The body of the loop of `restore_rng_state_int`; the loop state is the
array `mtstate` and the pointer `intstate`. -/
def restore_int_step (i : Nat) (st : List Nat × List Char) : Option (List Nat × List Char) := do
  let old ← rd st.1 i
  let mtstate ← wr st.1 i (sscanf_lx 17 st.2 old)
  some (mtstate, st.2.drop 17)

/-- `restore_rng_state_int`.  The result is `none` when the function calls
`abort()` (and, in this model only, when the array of the frame does not
have `MTSTATESIZE` entries). -/
def restore_rng_state_int (frame : int_frame) (intstate : List Char) : Option rng_int_type :=
  let rngt := sscanf_c intstate frame.rngt
  if rngt ≠ 'I' then none
  else
    let intstate := intstate.drop 2
    let si := sscanf_x_x intstate frame.rng_int.seed frame.rng_int.mtidx
    let intstate := intstate.drop 18
    match forRange 0 MTSTATESIZE restore_int_step (frame.rng_int.mtstate, intstate) with
    | none => none
    | some st => some { seed := si.1, mtidx := si.2, mtstate := st.1 }

/-- `restore_rng_state_uniform`.  The result is `none` when the function or
its call of `restore_rng_state_int` calls `abort()`. -/
def restore_rng_state_uniform (frame : uniform_frame) (uniformstate : List Char) :
    Option rng_uniform_type :=
  let rngt := sscanf_c uniformstate frame.rngt
  if rngt ≠ 'U' then none
  else
    let uniformstate := uniformstate.drop 1
    let lower := sscanf_lx 17 uniformstate frame.rng_uniform.lower
    let uniformstate := uniformstate.drop 17
    let upper := sscanf_lx 17 uniformstate frame.rng_uniform.upper
    let uniformstate := uniformstate.drop 17
    let uniformstate := uniformstate.drop 1
    match restore_rng_state_int frame.callee uniformstate with
    | none => none
    | some rng_int => some { lower := lower, upper := upper, rng_int := rng_int }

/-! ## Auxiliary definitions used in the statements and proofs -/

/-- The value of a list of hexadecimal digits, most significant first,
starting from `acc`. -/
def hexValue (acc : Nat) (ds : List Nat) : Nat := ds.foldl (fun a d => 16 * a + d) acc

/-- The text of consecutive `%17lx` fields, one per word. -/
def fields : List Nat → List Char
  | [] => []
  | w :: ws => fmt_lx 17 w ++ fields ws

/-- The text written by `get_random_state_int`. -/
def int_text (g : rng_int_type) : List Char :=
  ['I', ' '] ++ fmt_x 8 (u32 g.seed) ++ [' '] ++ fmt_x 8 (u32 g.mtidx) ++ fields g.mtstate

/-- The text written by `get_random_state_uniform`. -/
def uniform_text (u : rng_uniform_type) : List Char :=
  ['U'] ++ fmt_lx 17 u.lower ++ (fmt_lx 17 u.upper ++ [' ']) ++ int_text u.rng_int

/-- A block that holds the string `t`, its terminating NUL, and then `m`
indeterminate bytes. -/
def block_of (t : List Char) (m : Nat) : List (Option Char) :=
  t.map some ++ some NUL :: List.replicate m none

/-- An input on which a numeric conversion stops: the end, or a space. -/
def Stops (rest : List Char) : Prop := rest = [] ∨ ∃ r, rest = ' ' :: r

/-- Well-formed uniform generator: the bounds are 64-bit patterns and the
embedded integer generator is well formed. -/
def rng_uniform_type.WF (u : rng_uniform_type) : Prop :=
  u.lower < 2 ^ 64 ∧ u.upper < 2 ^ 64 ∧ u.rng_int.WF

/-! ## The Gaussian layer: data and state text

`bool generated` occupies one byte and is followed by seven padding bytes
before the 8-aligned member `rng_uniform` (LP64, little endian).  The source
reads four bytes and writes eight bytes at the address of `generated`, so the
padding bytes are part of the model. -/

/-- `rng_gaussian_type`: the four `double`s as raw 64-bit patterns, the flag,
the seven padding bytes after the flag (as a little-endian number), and the
embedded uniform generator. -/
structure rng_gaussian_type where
  mean : Nat
  stddev : Nat
  z1 : Nat
  z2 : Nat
  generated : Bool
  pad : Nat
  rng_uniform : rng_uniform_type
deriving DecidableEq

/-- `#define GAUSS_STATELENGTH (1+4*17+9+1+(UNIFORM_STATELENGTH))` -/
def GAUSS_STATELENGTH : Nat := 1 + 4 * 17 + 9 + 1 + UNIFORM_STATELENGTH

/-- The eight bytes at the address of `generated`, as an `unsigned long`:
the byte of the flag (`1` for true, `0` for false), then the padding. -/
def flag_bytes (g : rng_gaussian_type) : Nat :=
  (if g.generated then 1 else 0) + 256 * g.pad

/-- `get_random_state_gaussian`: the block the returned pointer points to.
`*((unsigned int*)v)` reads the first four of the bytes at `generated`. -/
def get_random_state_gaussian (rng_gaussian : rng_gaussian_type) :
    Option (List (Option Char)) := do
  let gaussstate := malloc GAUSS_STATELENGTH
  let tmpchar := 0
  let gaussstate ← store_str gaussstate tmpchar (['G'] ++ fmt_lx 17 rng_gaussian.mean)
  let tmpchar := tmpchar + 18
  let gaussstate ← store_str gaussstate tmpchar (fmt_lx 17 rng_gaussian.stddev)
  let tmpchar := tmpchar + 17
  let gaussstate ← store_str gaussstate tmpchar (fmt_lx 17 rng_gaussian.z1)
  let tmpchar := tmpchar + 17
  let gaussstate ← store_str gaussstate tmpchar (fmt_lx 17 rng_gaussian.z2)
  let tmpchar := tmpchar + 17
  let gaussstate ← store_str gaussstate tmpchar
    (fmt_x 9 (flag_bytes rng_gaussian % 2 ^ 32) ++ [' '])
  let tmpchar := tmpchar + 10
  let unistate ← get_random_state_uniform rng_gaussian.rng_uniform
  let text ← cstr unistate
  store_str gaussstate tmpchar text

/-- The locals of `restore_rng_state_gaussian` on entry, and those of its
call of `restore_rng_state_uniform`. -/
structure gaussian_frame where
  rng_gaussian : rng_gaussian_type
  rngt : Char
  callee : uniform_frame

/-- `restore_rng_state_gaussian`.  The result is `none` when the function or
one of the nested restore functions calls `abort()`.  The conversion `%9lx`
stores an `unsigned long` at the address of `generated`: its lowest byte
becomes the byte of the flag (a byte other than `0` reads as true), the other
seven bytes become the padding. -/
def restore_rng_state_gaussian (frame : gaussian_frame) (gaussianstate : List Char) :
    Option rng_gaussian_type :=
  let rngt := sscanf_c gaussianstate frame.rngt
  if rngt ≠ 'G' then none
  else
    let gaussianstate := gaussianstate.drop 1
    let mean := sscanf_lx 17 gaussianstate frame.rng_gaussian.mean
    let gaussianstate := gaussianstate.drop 17
    let stddev := sscanf_lx 17 gaussianstate frame.rng_gaussian.stddev
    let gaussianstate := gaussianstate.drop 17
    let z1 := sscanf_lx 17 gaussianstate frame.rng_gaussian.z1
    let gaussianstate := gaussianstate.drop 17
    let z2 := sscanf_lx 17 gaussianstate frame.rng_gaussian.z2
    let gaussianstate := gaussianstate.drop 17
    let flag := sscanf_lx 9 gaussianstate (flag_bytes frame.rng_gaussian)
    let gaussianstate := gaussianstate.drop 9
    let gaussianstate := gaussianstate.drop 1
    match restore_rng_state_uniform frame.callee gaussianstate with
    | none => none
    | some rng_uniform =>
      some { mean := mean, stddev := stddev, z1 := z1, z2 := z2,
             generated := decide (flag % 256 ≠ 0), pad := flag / 256,
             rng_uniform := rng_uniform }

/-- The text written by `get_random_state_gaussian`. -/
def gaussian_text (g : rng_gaussian_type) : List Char :=
  ['G'] ++ fmt_lx 17 g.mean ++ fmt_lx 17 g.stddev ++ fmt_lx 17 g.z1 ++ fmt_lx 17 g.z2
    ++ (fmt_x 9 (flag_bytes g % 2 ^ 32) ++ [' ']) ++ uniform_text g.rng_uniform

/-- Well-formed Gaussian generator: the four `double`s are 64-bit patterns
and the embedded uniform generator is well formed. -/
def rng_gaussian_type.WF (g : rng_gaussian_type) : Prop :=
  g.mean < 2 ^ 64 ∧ g.stddev < 2 ^ 64 ∧ g.z1 < 2 ^ 64 ∧ g.z2 < 2 ^ 64 ∧ g.rng_uniform.WF

/-! ## Floating point

The operations on `double` are parameters of the embedding: `FloatOps D`
gives the arithmetic and `Libm D` the library functions, for a type `D` of
values of `double`.  Structures keep a `double` as its 64-bit pattern;
`of_bits` and `to_bits` are the reinterpretation of the object
representation.  `exactOps` is the instance in which a finite `double` is the
rational number it denotes and arithmetic is exact. -/

/-- The arithmetic on `double` used by the source. -/
structure FloatOps (D : Type) where
  of_bits : Nat → D
  of_nat : Nat → D
  add : D → D → D
  sub : D → D → D
  mul : D → D → D
  div : D → D → D
  le : D → D → Bool

/-- The functions of `math.h` used by the source, and the object
representation of a computed `double`. -/
structure Libm (D : Type) where
  sqrt : D → D
  log : D → D
  cos : D → D
  sin : D → D
  to_bits : D → Nat

/-- `#define INV2POW53MIN1 (1.0/((double)0x001FFFFFFFFFFFFF))` -/
def INV2POW53MIN1 {D : Type} (F : FloatOps D) : D :=
  F.div (F.of_bits 0x3FF0000000000000) (F.of_nat 0x001FFFFFFFFFFFFF)

/-- `const double twopi = 6.28318530717958647692528676655900559`, as the
pattern of the nearest `double`. -/
def twopi : Nat := 0x401921FB54442D18

/-- `__DBL_EPSILON__`, the pattern of `2^-52`. -/
def DBL_EPSILON : Nat := 0x3CB0000000000000

/-- `init_rng_uniform`; `rng_uniform` and `rng_int` are the indeterminate
initial contents of the local and of the local of `init_rng_int`. -/
def init_rng_uniform (rng_uniform : rng_uniform_type) (rng_int : rng_int_type)
    (seed : Int) (lower upper : Nat) : Option rng_uniform_type := do
  let g ← init_rng_int rng_int seed
  let rng_uniform := { rng_uniform with rng_int := g }
  let rng_uniform := { rng_uniform with lower := lower }
  let rng_uniform := { rng_uniform with upper := upper }
  some rng_uniform

/-- `init_rng_gaussian`; the first three arguments are the indeterminate
initial contents of the locals of the three nested functions.  The padding
after `generated` is not written. -/
def init_rng_gaussian (rng_gaussian : rng_gaussian_type) (rng_uniform : rng_uniform_type)
    (rng_int : rng_int_type) (seed : Int) (mean stddev : Nat) : Option rng_gaussian_type := do
  let u ← init_rng_uniform rng_uniform rng_int seed 0x0000000000000000 0x3FF0000000000000
  some { rng_gaussian with
    rng_uniform := u, mean := mean, stddev := stddev, z1 := 0, z2 := 0, generated := false }

/-- `next_random_uniform`: the returned `double` and the generator after the
call. -/
def next_random_uniform {D : Type} (F : FloatOps D) (rng_uniform : rng_uniform_type) :
    Option (D × rng_uniform_type) :=
  match next_random_lint rng_uniform.rng_int with
  | none => none
  | some (r, g) =>
    let irng := u64 r
    let randnum := F.mul (INV2POW53MIN1 F) (F.of_nat (irng >>> 11))
    let randnum := F.mul randnum (F.sub (F.of_bits rng_uniform.upper) (F.of_bits rng_uniform.lower))
    let randnum := F.add randnum (F.of_bits rng_uniform.lower)
    some (randnum, { rng_uniform with rng_int := g })

/-- The loop `while (u1 <= __DBL_EPSILON__) { u1 = ...; u2 = ...; }` of
`next_random_gaussian`, run for at most `fuel` iterations; the result is
`u1`, `u2` and the uniform generator on leaving the loop, and `none` when a
draw fails or the loop has not ended after `fuel` iterations. -/
def gaussian_reject {D : Type} (F : FloatOps D) :
    Nat → D → D → rng_uniform_type → Option (D × D × rng_uniform_type)
  | 0, u1, u2, st => if F.le u1 (F.of_bits DBL_EPSILON) = true then none else some (u1, u2, st)
  | fuel + 1, u1, u2, st =>
    if F.le u1 (F.of_bits DBL_EPSILON) = true then
      match next_random_uniform F st with
      | none => none
      | some (v1, st1) =>
        match next_random_uniform F st1 with
        | none => none
        | some (v2, st2) => gaussian_reject F fuel v1 v2 st2
    else some (u1, u2, st)

/-- `next_random_gaussian`: the returned `double` and the generator after the
call; `fuel` bounds the number of iterations of the rejection loop. -/
def next_random_gaussian {D : Type} (F : FloatOps D) (L : Libm D) (fuel : Nat)
    (rng_gaussian : rng_gaussian_type) : Option (D × rng_gaussian_type) :=
  if rng_gaussian.generated = true then
    let g := { rng_gaussian with generated := false }
    some (F.add (F.mul (F.of_bits g.z2) (F.of_bits g.stddev)) (F.of_bits g.mean), g)
  else
    match next_random_uniform F rng_gaussian.rng_uniform with
    | none => none
    | some (u1, st1) =>
      match next_random_uniform F st1 with
      | none => none
      | some (u2, st2) =>
        match gaussian_reject F fuel u1 u2 st2 with
        | none => none
        | some (u1, u2, st) =>
          let tmp1 := L.sqrt (F.mul (F.of_bits 0xC000000000000000) (L.log u1))
          let tmp2 := F.mul (F.of_bits twopi) u2
          let g := { rng_gaussian with rng_uniform := st }
          let g := { g with z1 := L.to_bits (F.mul tmp1 (L.cos tmp2)) }
          let g := { g with z2 := L.to_bits (F.mul tmp1 (L.sin tmp2)) }
          let g := { g with generated := true }
          some (F.add (F.mul (F.of_bits g.z1) (F.of_bits g.stddev)) (F.of_bits g.mean), g)

/-- The rational number denoted by the 64-bit pattern of a finite `double`
(sign, 11-bit biased exponent, 52-bit fraction).  Infinities and NaNs denote
no number; they are given the value `0` here. -/
def double_val (bits : Nat) : ℚ :=
  let s : Nat := bits / 2 ^ 63 % 2
  let e : Nat := bits / 2 ^ 52 % 2 ^ 11
  let m : Nat := bits % 2 ^ 52
  let magnitude : ℚ :=
    if e = 2047 then 0
    else if e = 0 then (m : ℚ) / 2 ^ 1074
    else if 1075 ≤ e then ((2 ^ 52 + m : Nat) : ℚ) * 2 ^ (e - 1075)
    else ((2 ^ 52 + m : Nat) : ℚ) / 2 ^ (1075 - e)
  if s = 1 then -magnitude else magnitude

/-- Exact arithmetic on the rational values of `double`s: no rounding. -/
def exactOps : FloatOps ℚ where
  of_bits := double_val
  of_nat := fun n => (n : ℚ)
  add := fun a b => a + b
  sub := fun a b => a - b
  mul := fun a b => a * b
  div := fun a b => a / b
  le := fun a b => decide (a ≤ b)

/-- An arbitrary instance of the library functions over the rationals, for
statements in which the values of these functions play no role. -/
def sampleLibm : Libm ℚ where
  sqrt := fun x => x
  log := fun x => x
  cos := fun x => x
  sin := fun x => x
  to_bits := fun _ => 0

/-- The uniform draw with exact arithmetic, as the specification words it:
`frac = (raw >> 11) / (2^53 - 1)`, `x = frac * (upper - lower) + lower`. -/
def uniform_exact (lower upper : ℚ) (raw : Nat) : ℚ :=
  ((raw / 2 ^ 11 : Nat) : ℚ) / (2 ^ 53 - 1) * (upper - lower) + lower

/-- The uniform generator after `n` successive calls of
`next_random_uniform`. -/
def uniform_draws {D : Type} (F : FloatOps D) : Nat → rng_uniform_type → Option rng_uniform_type
  | 0, u => some u
  | n + 1, u =>
    match next_random_uniform F u with
    | none => none
    | some (_, u1) => uniform_draws F n u1

/-! ## Sample states -/

/-- A state word whose tempering is `2^64 - 1`. -/
def all_ones_word : Nat := 0x03A9803FEAA40155

/-- A uniform generator on `[2.0, 5.0]` whose next integer draw is `2^64 - 1`. -/
def top_uniform : rng_uniform_type :=
  { lower := 0x4000000000000000, upper := 0x4014000000000000,
    rng_int := { seed := 0, mtidx := 0, mtstate := List.replicate 312 all_ones_word } }

/-- A Gaussian generator (bounds `0.0` and `1.0`, flag clear) whose next four
integer draws are `0`, `0`, `2^64 - 1`, `0`: its first `u1` is exactly `0.0`. -/
def rejecting_gaussian : rng_gaussian_type :=
  { mean := 0, stddev := 0x3FF0000000000000, z1 := 0, z2 := 0, generated := false, pad := 0,
    rng_uniform :=
      { lower := 0, upper := 0x3FF0000000000000,
        rng_int := { seed := 0, mtidx := 0,
                     mtstate := [0, 0, 0, all_ones_word] ++ List.replicate 308 0 } } }

/-- A Gaussian generator (bounds `0.0` and `1.0`, flag clear) whose next
integer draws are all `2^64 - 1`: its first `u1` is `1.0`. -/
def accepting_gaussian : rng_gaussian_type :=
  { mean := 0, stddev := 0x3FF0000000000000, z1 := 0, z2 := 0, generated := false, pad := 0,
    rng_uniform :=
      { lower := 0, upper := 0x3FF0000000000000,
        rng_int := { seed := 0, mtidx := 0, mtstate := List.replicate 312 all_ones_word } } }

/-! ## The first part of a draw, and the inverse of the tempering -/

/-- The statements of `next_random_lint` before the subscript
`rng_int->mtstate[rng_int->mtidx]`: the refill when the pool is drained, then
`rng_int->mtidx += 1`.  The result is the generator at the moment of that
subscript. -/
def next_random_lint_advance (rng_int : rng_int_type) : Option rng_int_type := do
  let g ← (if rng_int.mtidx > (NN : Int) - 2 then refill rng_int else some rng_int)
  some { g with mtidx := g.mtidx + 1 }

/-- The first tempering step of `next_random_lint`:
`rng ^ ((rng >> 29) & 0x5555555555555555)`. -/
def temper1 (w : Nat) : Nat := w ^^^ ((w / 2 ^ 29) &&& 0x5555555555555555)

/-- The second tempering step: `rng ^ ((rng << 17) & 0x71d67fffeda60000)`. -/
def temper2 (w : Nat) : Nat := w ^^^ ((w * 2 ^ 17 % 2 ^ 64) &&& 0x71D67FFFEDA60000)

/-- The third tempering step: `rng ^ ((rng << 37) & 0xfff7eee000000000)`. -/
def temper3 (w : Nat) : Nat := w ^^^ ((w * 2 ^ 37 % 2 ^ 64) &&& 0xFFF7EEE000000000)

/-- The fourth tempering step: `rng ^ (rng >> 43)`. -/
def temper4 (w : Nat) : Nat := w ^^^ (w / 2 ^ 43)

/-- Undoing `temper1`: the top 29 bits of `y` are those of the argument, and
each round recovers 29 more bits. -/
def untemper1 (y : Nat) : Nat :=
  let a := y ^^^ ((y / 2 ^ 29) &&& 0x5555555555555555)
  y ^^^ ((a / 2 ^ 29) &&& 0x5555555555555555)

/-- Undoing `temper2`: the low 17 bits of `y` are those of the argument, and
each round recovers 17 more bits. -/
def untemper2 (y : Nat) : Nat :=
  let a := y ^^^ ((y * 2 ^ 17 % 2 ^ 64) &&& 0x71D67FFFEDA60000)
  let b := y ^^^ ((a * 2 ^ 17 % 2 ^ 64) &&& 0x71D67FFFEDA60000)
  y ^^^ ((b * 2 ^ 17 % 2 ^ 64) &&& 0x71D67FFFEDA60000)

/-- Undoing `temper3`: one round, since `2 * 37 ≥ 64`. -/
def untemper3 (y : Nat) : Nat := y ^^^ ((y * 2 ^ 37 % 2 ^ 64) &&& 0xFFF7EEE000000000)

/-- Undoing `temper4`: one round, since `2 * 43 ≥ 64`. -/
def untemper4 (y : Nat) : Nat := y ^^^ (y / 2 ^ 43)

/-- The inverse `T_inv` of the tempering on 64-bit words. -/
def untemper (y : Nat) : Nat := untemper1 (untemper2 (untemper3 (untemper4 y)))


/-! ## The pairs of the rejection loop, and the object representation -/

/-- The first value of pair number `j` (counted from `0`) of the uniform draws
made from `u`, that is the value of draw number `2 * j`: the `u1` that the
rejection loop of `next_random_gaussian` tests after `j` rejected pairs. -/
def pair_u1 {D : Type} (F : FloatOps D) (j : Nat) (u : rng_uniform_type) : Option D :=
  match uniform_draws F (2 * j) u with
  | none => none
  | some s => (next_random_uniform F s).map Prod.fst

/-- The word that the subscript `rng_int->mtstate[i]` denotes in the object
representation of `rng_int_type` on an LP64 little-endian target: `int seed`
is at offset 0, `int mtidx` at offset 4 and `mtstate` at offset 8, so
`mtstate[-1]` is the eight bytes of the two `int` fields, `seed` in the low
half.  Positions below `-1` and from `312` on lie outside the object. -/
def rd_object (g : rng_int_type) (i : Int) : Option Nat :=
  if i = -1 then some (u32 g.seed + 2 ^ 32 * u32 g.mtidx) else rd g.mtstate i

/-- `next_random_lint` with the final subscript resolved over the object
representation (`rd_object`).  The C standard leaves a subscript outside
`0..311` undefined and `next_random_lint` has no result there; this is what
the function computes on such a target when the subscript is `-1`. -/
def next_random_lint_object (rng_int : rng_int_type) : Option (Int × rng_int_type) := do
  let g ← (if rng_int.mtidx > (NN : Int) - 2 then refill rng_int else some rng_int)
  let g := { g with mtidx := g.mtidx + 1 }
  let rng ← rd_object g g.mtidx
  let rng := rng ^^^ ((rng >>> 29) &&& 0x5555555555555555)
  let rng := rng ^^^ (((rng <<< 17) % 2 ^ 64) &&& 0x71d67fffeda60000)
  let rng := rng ^^^ (((rng <<< 37) % 2 ^ 64) &&& 0xfff7eee000000000)
  let rng := rng ^^^ (rng >>> 43)
  some (i64 rng, g)

/-! ## Loops and subscripts -/

theorem forRangeAux_inv {σ : Type} (body : Nat → σ → Option σ) (P : Nat → σ → Prop) :
    ∀ (n i : Nat) (s : σ), P i s →
      (∀ j t, i ≤ j → j < i + n → P j t → ∃ t1, body j t = some t1 ∧ P (j + 1) t1) →
      ∃ s1, forRangeAux body n i s = some s1 ∧ P (i + n) s1 := by
  intro n
  induction n with
  | zero => intro i s h _; exact ⟨s, rfl, by simpa using h⟩
  | succ n ih =>
    intro i s h step
    obtain ⟨t1, ht1, hP⟩ := step i s (Nat.le_refl i) (by omega) h
    obtain ⟨s1, hs1, hP1⟩ := ih (i + 1) t1 hP
      (fun j t hj1 hj2 hPj => step j t (by omega) (by omega) hPj)
    refine ⟨s1, ?_, ?_⟩
    · simp only [forRangeAux, ht1]; exact hs1
    · have : i + (n + 1) = i + 1 + n := by omega
      rw [this]; exact hP1

theorem forRange_inv {σ : Type} (body : Nat → σ → Option σ) (P : Nat → σ → Prop)
    (lo hi : Nat) (hle : lo ≤ hi) (s : σ) (h0 : P lo s)
    (step : ∀ j t, lo ≤ j → j < hi → P j t → ∃ t1, body j t = some t1 ∧ P (j + 1) t1) :
    ∃ s1, forRange lo hi body s = some s1 ∧ P hi s1 := by
  obtain ⟨s1, h1, h2⟩ := forRangeAux_inv body P (hi - lo) lo s h0
    (fun j t hj1 hj2 hP => step j t hj1 (by omega) hP)
  refine ⟨s1, h1, ?_⟩
  have : lo + (hi - lo) = hi := by omega
  rw [this] at h2; exact h2

theorem rd_of_eq (a : List Nat) (i : Int) (j : Nat) (h : i = (j : Int)) (hj : j < 312) :
    rd a i = a[j]? := by
  subst h
  have h1 : (0 : Int) ≤ (j : Int) ∧ (j : Int) < ((MTSTATESIZE : Nat) : Int) := by
    constructor
    · omega
    · simp only [MTSTATESIZE]; omega
  simp only [rd, h1, and_self, if_true, Int.toNat_ofNat]

theorem wr_of_eq (a : List Nat) (i : Int) (j : Nat) (v : Nat) (h : i = (j : Int))
    (hj : j < 312) (hl : a.length = 312) : wr a i v = some (a.set j v) := by
  subst h
  have h1 : (0 : Int) ≤ (j : Int) ∧ (j : Int) < ((MTSTATESIZE : Nat) : Int) ∧
      (j : Int).toNat < a.length := by
    refine ⟨by omega, ?_, ?_⟩
    · simp only [MTSTATESIZE]; omega
    · simp only [Int.toNat_ofNat]; omega
  unfold wr
  rw [if_pos h1]
  simp only [Int.toNat_ofNat]

theorem rd_some_bounds (a : List Nat) (i : Int) (w : Nat) (h : rd a i = some w) :
    0 ≤ i ∧ i < 312 := by
  unfold rd at h
  split at h
  · rename_i hc; simpa [MTSTATESIZE] using hc
  · simp at h

/-! ## Seeding -/

theorem init_rng_int_spec (g0 : rng_int_type) (seed : Int) (hl : g0.mtstate.length = 312) :
    ∃ st, init_rng_int g0 seed = some { seed := seed, mtidx := 313, mtstate := st } ∧
      st.length = 312 ∧ ∀ j, j < 312 → st[j]? = some (seedWord seed j) := by
  have h0 : wr g0.mtstate 0 (u64 seed) = some (g0.mtstate.set 0 (u64 seed)) :=
    wr_of_eq _ _ 0 _ rfl (by omega) hl
  obtain ⟨st, hst, hlen, hw⟩ := forRange_inv init_step
    (fun k st => st.length = 312 ∧ ∀ j, j < k → st[j]? = some (seedWord seed j))
    1 NN (by decide) (g0.mtstate.set 0 (u64 seed))
    ⟨by simp [hl], by
      intro j hj
      have : j = 0 := by omega
      subst this
      rw [List.getElem?_set_self (by omega)]
      rfl⟩
    (by
      intro j t hj1 hj2 hP
      obtain ⟨htl, htw⟩ := hP
      have hj3 : j < 312 := hj2
      have hr : rd t ((j : Int) - 1) = some (seedWord seed (j - 1)) := by
        rw [rd_of_eq t _ (j - 1) (by omega) (by omega)]
        exact htw (j - 1) (by omega)
      refine ⟨t.set j ((0x5851F42D4C957F2D *
        (seedWord seed (j - 1) ^^^ (seedWord seed (j - 1) >>> 62)) + j) % 2 ^ 64), ?_, ?_, ?_⟩
      · simp only [init_step, hr, Option.bind_eq_bind, Option.some_bind]
        exact wr_of_eq _ _ j _ rfl hj3 htl
      · simp [htl]
      · intro k hk
        by_cases hkj : k = j
        · subst hkj
          rw [List.getElem?_set_self (by omega)]
          obtain ⟨m, rfl⟩ : ∃ m, k = m + 1 := ⟨k - 1, by omega⟩
          simp only [Nat.add_sub_cancel, seedWord, Nat.shiftRight_eq_div_pow]
        · rw [List.getElem?_set_ne (by omega)]
          exact htw k (by omega))
  refine ⟨st, ?_, hlen, hw⟩
  simp only [init_rng_int, h0, hst, Option.bind_eq_bind, Option.some_bind]
  simp [NN, MTSTATESIZE]

/-! ## The refill -/

theorem masked_xor_eq_or (a b : Nat) :
    (a &&& UM) ^^^ (b &&& LM) = (a &&& 0xFFFFFFFF80000000) ||| (b &&& 0x7FFFFFFF) := by
  have hLM : ∀ i, Nat.testBit LM i = decide (i < 31) := by
    intro i
    have : LM = 2 ^ 31 - 1 := by decide
    rw [this, Nat.testBit_two_pow_sub_one]
  have hUM : ∀ i, i < 31 → Nat.testBit UM i = false := by
    intro i hi
    have : UM = (2 ^ 33 - 1) <<< 31 := by decide
    rw [this, Nat.testBit_shiftLeft]
    simp only [Bool.and_eq_false_imp, decide_eq_true_eq]
    intro h; omega
  apply Nat.eq_of_testBit_eq
  intro i
  show Nat.testBit ((a &&& UM) ^^^ (b &&& LM)) i = Nat.testBit ((a &&& UM) ||| (b &&& LM)) i
  rw [Nat.testBit_xor, Nat.testBit_or, Nat.testBit_and, Nat.testBit_and, hLM]
  by_cases hi : i < 31
  · rw [hUM i hi]; simp
  · simp [hi]

theorem twist_value (a b c : Nat) :
    ∃ m, mag[((a &&& UM) ^^^ (b &&& LM)) &&& 1]? = some m ∧
      (c ^^^ (((a &&& UM) ^^^ (b &&& LM)) >>> 1)) ^^^ m = twistWord a b c := by
  rw [masked_xor_eq_or, Nat.and_one_is_mod]
  simp only [twistWord, Nat.shiftRight_eq_div_pow, pow_one]
  rcases Nat.mod_two_eq_zero_or_one
    ((a &&& 0xFFFFFFFF80000000) ||| (b &&& 0x7FFFFFFF)) with h | h
  · rw [h]; exact ⟨0, rfl, by simp⟩
  · rw [h]; exact ⟨0xB5026F5AA96619E9, rfl, by simp⟩

theorem twist_lo_eq (st : List Nat) (i : Nat) (a b c : Nat) (hi : i < 312)
    (hl : st.length = 312) (ha : rd st i = some a) (hb : rd st ((i : Int) + 1) = some b)
    (hc : rd st ((i : Int) + MM) = some c) :
    twist_lo i st = some (st.set i (twistWord a b c)) := by
  obtain ⟨m, hm, hv⟩ := twist_value a b c
  simp only [twist_lo, ha, hb, hc, hm, Option.bind_eq_bind, Option.some_bind, hv]
  exact wr_of_eq _ _ i _ rfl hi hl

theorem twist_hi_eq (st : List Nat) (i : Nat) (a b c : Nat) (hi : i < 312)
    (hl : st.length = 312) (ha : rd st i = some a) (hb : rd st ((i : Int) + 1) = some b)
    (hc : rd st ((i : Int) + MM - NN) = some c) :
    twist_hi i st = some (st.set i (twistWord a b c)) := by
  obtain ⟨m, hm, hv⟩ := twist_value a b c
  simp only [twist_hi, ha, hb, hc, hm, Option.bind_eq_bind, Option.some_bind, hv]
  exact wr_of_eq _ _ i _ rfl hi hl

theorem twist_last_eq (st : List Nat) (a b c : Nat)
    (hl : st.length = 312) (ha : rd st ((NN : Int) - 1) = some a) (hb : rd st 0 = some b)
    (hc : rd st ((MM : Int) - 1) = some c) :
    twist_last st = some (st.set 311 (twistWord a b c)) := by
  obtain ⟨m, hm, hv⟩ := twist_value a b c
  simp only [twist_last, ha, hb, hc, hm, Option.bind_eq_bind, Option.some_bind, hv]
  exact wr_of_eq _ _ 311 _ (by simp [NN, MTSTATESIZE]) (by omega) hl

theorem getElem?_getD_of_lt (s : List Nat) (j : Nat) (h : j < s.length) :
    s[j]? = some (s.getD j 0) := by
  simp [List.getElem?_eq_getElem h]

/-- What the refill loops compute, word by word. -/
theorem refill_words (s : List Nat) (hl : s.length = 312) :
    ∃ st, (forRange 0 (NN - MM) twist_lo s).bind
        (fun t => (forRange (NN - MM) (NN - 1) twist_hi t).bind twist_last) = some st ∧
      st.length = 312 ∧
      (∀ j, j < 156 →
        st[j]? = some (twistWord (s.getD j 0) (s.getD (j + 1) 0) (s.getD (j + 156) 0))) ∧
      (∀ j, 156 ≤ j → j < 311 →
        st[j]? = some (twistWord (s.getD j 0) (s.getD (j + 1) 0) (st.getD (j - 156) 0))) ∧
      st[311]? = some (twistWord (s.getD 311 0) (st.getD 0 0) (st.getD 155 0)) := by
  have hs : ∀ j, j < 312 → s[j]? = some (s.getD j 0) :=
    fun j hj => getElem?_getD_of_lt s j (by omega)
  -- first loop
  obtain ⟨t1, ht1, hl1, hnew1, hold1⟩ := forRange_inv twist_lo
    (fun k st => st.length = 312 ∧
      (∀ j, j < k →
        st[j]? = some (twistWord (s.getD j 0) (s.getD (j + 1) 0) (s.getD (j + 156) 0))) ∧
      (∀ j, k ≤ j → st[j]? = s[j]?))
    0 (NN - MM) (by decide) s
    ⟨hl, fun j hj => absurd hj (Nat.not_lt_zero j), fun _ _ => rfl⟩
    (by
      intro j t _ hj2 hP
      obtain ⟨htl, hnew, hold⟩ := hP
      have hj3 : j < 156 := hj2
      refine ⟨t.set j (twistWord (s.getD j 0) (s.getD (j + 1) 0) (s.getD (j + 156) 0)),
        ?_, ?_, ?_, ?_⟩
      · apply twist_lo_eq t j _ _ _ (by omega) htl
        · rw [rd_of_eq t _ j rfl (by omega), hold j (Nat.le_refl j)]; exact hs j (by omega)
        · rw [rd_of_eq t _ (j + 1) (by push_cast; rfl) (by omega), hold (j + 1) (by omega)]
          exact hs (j + 1) (by omega)
        · rw [rd_of_eq t _ (j + 156) (by simp [MM]) (by omega), hold (j + 156) (by omega)]
          exact hs (j + 156) (by omega)
      · simp [htl]
      · intro k hk
        by_cases hkj : k = j
        · subst hkj; rw [List.getElem?_set_self (by omega)]
        · rw [List.getElem?_set_ne (by omega)]; exact hnew k (by omega)
      · intro k hk
        rw [List.getElem?_set_ne (by omega)]; exact hold k (by omega))
  have h1D : ∀ j, j < 156 →
      t1.getD j 0 = twistWord (s.getD j 0) (s.getD (j + 1) 0) (s.getD (j + 156) 0) := by
    intro j hj
    simp [hnew1 j hj]
  -- second loop
  obtain ⟨t2, ht2, hl2, hlow2, hnew2, hold2⟩ := forRange_inv twist_hi
    (fun k st => st.length = 312 ∧ (∀ j, j < 156 → st[j]? = t1[j]?) ∧
      (∀ j, 156 ≤ j → j < k →
        st[j]? = some (twistWord (s.getD j 0) (s.getD (j + 1) 0) (t1.getD (j - 156) 0))) ∧
      (∀ j, k ≤ j → st[j]? = s[j]?))
    (NN - MM) (NN - 1) (by decide) t1
    ⟨hl1, fun _ _ => rfl, fun j hj1 hj2 => by
        have : j < 156 := hj2
        omega,
      fun j hj => hold1 j hj⟩
    (by
      intro j t hj1 hj2 hP
      obtain ⟨htl, hlow, hnew, hold⟩ := hP
      have hj3 : 156 ≤ j := hj1
      have hj4 : j < 311 := hj2
      refine ⟨t.set j (twistWord (s.getD j 0) (s.getD (j + 1) 0) (t1.getD (j - 156) 0)),
        ?_, ?_, ?_, ?_, ?_⟩
      · apply twist_hi_eq t j _ _ _ (by omega) htl
        · rw [rd_of_eq t _ j rfl (by omega), hold j (Nat.le_refl j)]; exact hs j (by omega)
        · rw [rd_of_eq t _ (j + 1) (by push_cast; rfl) (by omega), hold (j + 1) (by omega)]
          exact hs (j + 1) (by omega)
        · rw [rd_of_eq t _ (j - 156) (by simp [MM, NN, MTSTATESIZE]; omega) (by omega),
            hlow (j - 156) (by omega)]
          exact getElem?_getD_of_lt t1 _ (by omega)
      · simp [htl]
      · intro k hk
        rw [List.getElem?_set_ne (by omega)]; exact hlow k hk
      · intro k hk1 hk2
        by_cases hkj : k = j
        · subst hkj; rw [List.getElem?_set_self (by omega)]
        · rw [List.getElem?_set_ne (by omega)]; exact hnew k hk1 (by omega)
      · intro k hk
        rw [List.getElem?_set_ne (by omega)]; exact hold k (by omega))
  have h2D : ∀ j, j < 156 → t2.getD j 0 = t1.getD j 0 := by
    intro j hj
    simp [hlow2 j hj]
  -- last word
  have h3 : twist_last t2 =
      some (t2.set 311 (twistWord (s.getD 311 0) (t2.getD 0 0) (t2.getD 155 0))) := by
    apply twist_last_eq t2 _ _ _ hl2
    · rw [rd_of_eq t2 _ 311 (by simp [NN, MTSTATESIZE]) (by omega), hold2 311 (by decide)]
      exact hs 311 (by omega)
    · rw [rd_of_eq t2 0 0 (by simp) (by omega)]
      exact getElem?_getD_of_lt t2 _ (by omega)
    · rw [rd_of_eq t2 _ 155 (by simp [MM]) (by omega)]
      exact getElem?_getD_of_lt t2 _ (by omega)
  have hset : ∀ j, j < 311 →
      (t2.set 311 (twistWord (s.getD 311 0) (t2.getD 0 0) (t2.getD 155 0))).getD j 0
        = t2.getD j 0 := by
    intro j hj
    simp [List.getElem?_set_ne (show 311 ≠ j by omega)]
  refine ⟨t2.set 311 (twistWord (s.getD 311 0) (t2.getD 0 0) (t2.getD 155 0)),
    ?_, ?_, ?_, ?_, ?_⟩
  · simp only [ht1, ht2, h3, Option.some_bind]
  · simp [hl2]
  · intro j hj
    rw [List.getElem?_set_ne (by omega), hlow2 j hj]
    exact hnew1 j hj
  · intro j hj1 hj2
    have hj3 : j < NN - 1 := hj2
    rw [List.getElem?_set_ne (by omega), hnew2 j hj1 hj3, hset (j - 156) (by omega),
      h2D (j - 156) (by omega)]
  · rw [List.getElem?_set_self (by omega), hset 0 (by omega), hset 155 (by omega)]

theorem refill_eq (g : rng_int_type) :
    refill g = ((forRange 0 (NN - MM) twist_lo g.mtstate).bind
        (fun t => (forRange (NN - MM) (NN - 1) twist_hi t).bind twist_last)).map
      (fun st => { g with mtstate := st, mtidx := -1 }) := by
  unfold refill
  cases forRange 0 (NN - MM) twist_lo g.mtstate with
  | none => rfl
  | some t =>
    simp only [Option.bind_eq_bind, Option.some_bind]
    cases forRange (NN - MM) (NN - 1) twist_hi t with
    | none => rfl
    | some t2 =>
      simp only [Option.some_bind]
      cases twist_last t2 <;> rfl

/-! ## One draw -/

theorem temper_code_eq (w : Nat) :
    (let rng := w ^^^ ((w >>> 29) &&& 0x5555555555555555)
     let rng := rng ^^^ (((rng <<< 17) % 2 ^ 64) &&& 0x71d67fffeda60000)
     let rng := rng ^^^ (((rng <<< 37) % 2 ^ 64) &&& 0xfff7eee000000000)
     rng ^^^ (rng >>> 43)) = temper w := by
  simp only [temper, Nat.shiftLeft_eq, Nat.shiftRight_eq_div_pow]

theorem next_random_lint_of_rd (g g1 : rng_int_type) (w : Nat)
    (hg : (if g.mtidx > (NN : Int) - 2 then refill g else some g) = some g1)
    (hw : rd g1.mtstate (g1.mtidx + 1) = some w) :
    next_random_lint g = some (i64 (temper w), { g1 with mtidx := g1.mtidx + 1 }) := by
  unfold next_random_lint
  rw [hg]
  simp only [Option.bind_eq_bind, Option.some_bind, hw]
  rw [← temper_code_eq w]

/-- A draw that does not refill: only the index moves. -/
theorem next_random_lint_plain (g : rng_int_type) (hl : g.mtstate.length = 312)
    (h1 : -1 ≤ g.mtidx) (h2 : g.mtidx ≤ 310) :
    ∃ w, g.mtstate[(g.mtidx + 1).toNat]? = some w ∧
      next_random_lint g = some (i64 (temper w), { g with mtidx := g.mtidx + 1 }) := by
  have hlt : (g.mtidx + 1).toNat < g.mtstate.length := by omega
  refine ⟨g.mtstate.getD (g.mtidx + 1).toNat 0, getElem?_getD_of_lt _ _ hlt, ?_⟩
  apply next_random_lint_of_rd g g
  · have : ¬ g.mtidx > (NN : Int) - 2 := by simp only [NN, MTSTATESIZE]; omega
    rw [if_neg this]
  · rw [rd_of_eq _ _ (g.mtidx + 1).toNat (by omega) (by omega)]
    exact getElem?_getD_of_lt _ _ hlt

/-- A draw that refills: the state is twisted and word `0` is used. -/
theorem next_random_lint_refill (g : rng_int_type) (hl : g.mtstate.length = 312)
    (h1 : 310 < g.mtidx) :
    ∃ st w, next_random_lint g = some (i64 (temper w), { g with mtstate := st, mtidx := 0 }) ∧
      st[0]? = some w ∧ st.length = 312 ∧
      (∀ j, j < 156 → st[j]? = some (twistWord (g.mtstate.getD j 0)
        (g.mtstate.getD (j + 1) 0) (g.mtstate.getD (j + 156) 0))) ∧
      (∀ j, 156 ≤ j → j < 311 → st[j]? = some (twistWord (g.mtstate.getD j 0)
        (g.mtstate.getD (j + 1) 0) (st.getD (j - 156) 0))) ∧
      st[311]? = some (twistWord (g.mtstate.getD 311 0) (st.getD 0 0) (st.getD 155 0)) := by
  obtain ⟨st, hst, hlen, hA, hB, hC⟩ := refill_words g.mtstate hl
  have hw : st[0]? = some (st.getD 0 0) := getElem?_getD_of_lt _ _ (by omega)
  refine ⟨st, st.getD 0 0, ?_, hw, hlen, hA, hB, hC⟩
  have hr : (if g.mtidx > (NN : Int) - 2 then refill g else some g)
      = some { g with mtstate := st, mtidx := -1 } := by
    have : g.mtidx > (NN : Int) - 2 := by simp only [NN, MTSTATESIZE]; omega
    rw [if_pos this, refill_eq, hst]
    rfl
  have := next_random_lint_of_rd g _ (st.getD 0 0) hr
    (by
      show rd st (-1 + 1) = _
      rw [rd_of_eq st _ 0 (by simp) (by omega)]
      exact hw)
  rw [this]
  rfl

theorem i64_u64 (x : Int) (h1 : -2 ^ 63 ≤ x) (h2 : x < 2 ^ 63) : i64 (u64 x) = x := by
  unfold i64 u64
  have hm : ((x % 2 ^ 64).toNat) % 2 ^ 64 = (x % 2 ^ 64).toNat := by
    apply Nat.mod_eq_of_lt
    omega
  rw [hm]
  split <;> omega

theorem u64_lt (x : Int) : u64 x < 2 ^ 64 := by
  unfold u64
  omega

theorem u64_i64 (n : Nat) (h : n < 2 ^ 64) : u64 (i64 n) = n := by
  unfold i64 u64
  rw [Nat.mod_eq_of_lt h]
  split <;> omega

theorem i32_bounds (n : Nat) : -2 ^ 31 ≤ i32 n ∧ i32 n < 2 ^ 31 := by
  unfold i32
  split <;> omega

theorem u32_i32 (n : Nat) : u32 (i32 n) = n % 2 ^ 32 := by
  unfold i32 u32
  split <;> omega

theorem i32_u32 (x : Int) (h1 : -2 ^ 31 ≤ x) (h2 : x < 2 ^ 31) : i32 (u32 x) = x := by
  unfold i32 u32
  have hm : ((x % 2 ^ 32).toNat) % 2 ^ 32 = (x % 2 ^ 32).toNat := by
    apply Nat.mod_eq_of_lt
    omega
  rw [hm]
  split <;> omega

/-- Any draw from a state with index at least `-1` succeeds and leaves the
index in `0 .. 311`. -/
theorem next_random_lint_index (g : rng_int_type) (hl : g.mtstate.length = 312)
    (h1 : -1 ≤ g.mtidx) :
    ∃ v g1, next_random_lint g = some (v, g1) ∧ g1.mtstate.length = 312 ∧
      0 ≤ g1.mtidx ∧ g1.mtidx ≤ 311 ∧ g1.seed = g.seed := by
  by_cases h2 : g.mtidx ≤ 310
  · obtain ⟨w, _, hn⟩ := next_random_lint_plain g hl h1 h2
    exact ⟨_, _, hn, hl, by simp only; omega, by simp only; omega, rfl⟩
  · obtain ⟨st, w, hn, _, hlen, _⟩ := next_random_lint_refill g hl (by omega)
    exact ⟨_, _, hn, hlen, by simp, by simp, rfl⟩

theorem draws_index (n : Nat) : ∀ (g : rng_int_type), g.mtstate.length = 312 → -1 ≤ g.mtidx →
    ∃ g1, draws (n + 1) g = some g1 ∧ g1.mtstate.length = 312 ∧
      0 ≤ g1.mtidx ∧ g1.mtidx ≤ 311 := by
  induction n with
  | zero =>
    intro g hl h1
    obtain ⟨v, g1, hn, hl1, ha, hb, _⟩ := next_random_lint_index g hl h1
    exact ⟨g1, by simp only [draws, hn], hl1, ha, hb⟩
  | succ n ih =>
    intro g hl h1
    obtain ⟨v, g1, hn, hl1, ha, hb, _⟩ := next_random_lint_index g hl h1
    obtain ⟨g2, hd, hl2, hc, hd2⟩ := ih g1 hl1 (by omega)
    refine ⟨g2, ?_, hl2, hc, hd2⟩
    rw [draws, hn]
    exact hd

theorem drawList_some (n : Nat) : ∀ (g : rng_int_type), g.mtstate.length = 312 →
    -1 ≤ g.mtidx → ∃ vs g1, drawList n g = some (vs, g1) ∧ vs.length = n := by
  induction n with
  | zero => intro g _ _; exact ⟨[], g, rfl, rfl⟩
  | succ n ih =>
    intro g hl h1
    obtain ⟨v, g1, hn, hl1, ha, hb, _⟩ := next_random_lint_index g hl h1
    obtain ⟨vs, g2, hd, hlen⟩ := ih g1 hl1 (by omega)
    refine ⟨v :: vs, g2, ?_, by simp [hlen]⟩
    simp only [drawList, hn, hd]

/-! ## Formatting and scanning of one field -/

theorem xdigit_hexChar (d : Nat) (h : d < 16) : xdigit (hexChar d) = some d := by
  interval_cases d <;> rfl

theorem hexChar_props (d : Nat) (h : d < 16) :
    hexChar d ≠ 'x' ∧ hexChar d ≠ 'X' ∧ hexChar d ≠ '-' ∧ hexChar d ≠ '+' ∧
      isspace (hexChar d) = false ∧ hexChar d ≠ NUL ∧ (hexChar d = '0' → d = 0) := by
  interval_cases d <;> decide

theorem toHex_digits : ∀ (k n : Nat), 1 ≤ k → n < 16 ^ k →
    ∃ ds : List Nat, toHex k n = ds.map hexChar ∧ (∀ d ∈ ds, d < 16) ∧
      1 ≤ ds.length ∧ ds.length ≤ k ∧ hexValue 0 ds = n := by
  intro k
  induction k with
  | zero =>
    intro n hk _
    omega
  | succ k ih =>
    intro n _ hn
    by_cases h16 : n < 16
    · refine ⟨[n], ?_, ?_, ?_, ?_, ?_⟩
      · simp [toHex, h16]
      · intro d hd
        simp only [List.mem_singleton] at hd
        omega
      · simp
      · simp
      · simp [hexValue]
    · have hq : n / 16 < 16 ^ k := by
        rw [Nat.div_lt_iff_lt_mul (by decide)]
        rw [pow_succ] at hn
        exact hn
      have hk1 : 1 ≤ k := by
        rcases Nat.eq_zero_or_pos k with hk0 | hk0
        · subst hk0
          simp at hq
          omega
        · exact hk0
      obtain ⟨ds, hds, hlt, hlen1, hlen2, hval⟩ := ih (n / 16) hk1 hq
      refine ⟨ds ++ [n % 16], ?_, ?_, ?_, ?_, ?_⟩
      · simp [toHex, h16, hds]
      · intro d hd
        rw [List.mem_append] at hd
        rcases hd with hd | hd
        · exact hlt d hd
        · simp only [List.mem_singleton] at hd
          omega
      · simp
      · simp only [List.length_append, List.length_singleton]
        omega
      · unfold hexValue at hval ⊢
        rw [List.foldl_append, hval]
        simp only [List.foldl_cons, List.foldl_nil]
        omega

theorem skip_space_replicate (m : Nat) (s : List Char) :
    skip_space (List.replicate m ' ' ++ s) = skip_space s := by
  induction m with
  | zero => rfl
  | succ m ih =>
    rw [List.replicate_succ, List.cons_append, skip_space]
    have : isspace ' ' = true := by decide
    rw [if_pos this]
    exact ih

theorem skip_space_hexChar (d : Nat) (h : d < 16) (s : List Char) :
    skip_space (hexChar d :: s) = hexChar d :: s := by
  rw [skip_space]
  have := (hexChar_props d h).2.2.2.2.1
  simp [this]

theorem scan_digits_hex : ∀ (ds : List Nat) (w cnt acc : Nat) (rest : List Char),
    (∀ d ∈ ds, d < 16) → ds.length ≤ w → Stops rest →
    scan_digits w (ds.map hexChar ++ rest) cnt acc
      = (cnt + ds.length, hexValue acc ds, rest) := by
  intro ds
  induction ds with
  | nil =>
    intro w cnt acc rest _ _ hstop
    cases w with
    | zero => simp [scan_digits, hexValue]
    | succ w =>
      rcases hstop with h | ⟨r, h⟩
      · subst h
        simp [scan_digits, hexValue]
      · subst h
        have : xdigit ' ' = none := by decide
        simp [scan_digits, hexValue, this]
  | cons d ds ih =>
    intro w cnt acc rest hlt hlen hstop
    cases w with
    | zero => simp at hlen
    | succ w =>
      have hd : d < 16 := hlt d (List.mem_cons_self d ds)
      rw [List.map_cons, List.cons_append, scan_digits, xdigit_hexChar d hd]
      simp only
      rw [ih w (cnt + 1) (16 * acc + d) rest
        (fun x hx => hlt x (List.mem_cons_of_mem d hx))
        (by simpa using hlen) hstop]
      simp only [List.length_cons, hexValue, List.foldl_cons]
      congr 1
      omega

theorem scan_lead_hex (d : Nat) (ds : List Nat) (w : Nat) (rest : List Char)
    (hlt : ∀ x ∈ d :: ds, x < 16) (hlen : (d :: ds).length ≤ w) (hstop : Stops rest) :
    ∃ zero w2 s2, scan_lead w ((d :: ds).map hexChar ++ rest) = (zero, w2, s2) ∧
      (zero = true ∨ (scan_digits w2 s2 0 0).1 ≠ 0) ∧
      (scan_digits w2 s2 0 0).2 = (hexValue 0 (d :: ds), rest) := by
  have hd : d < 16 := hlt d (List.mem_cons_self d ds)
  have hds : ∀ x ∈ ds, x < 16 := fun x hx => hlt x (List.mem_cons_of_mem d hx)
  obtain ⟨w1, rfl⟩ : ∃ w1, w = w1 + 1 := ⟨w - 1, by simp at hlen; omega⟩
  have hlen1 : ds.length ≤ w1 := by simpa using hlen
  have hw : w1 + 1 ≠ 0 := by omega
  by_cases h0 : hexChar d = '0'
  · have hd0 : d = 0 := (hexChar_props d hd).2.2.2.2.2.2 h0
    subst hd0
    have hval : hexValue 0 (0 :: ds) = hexValue 0 ds := by simp [hexValue]
    have hpre : scan_lead (w1 + 1) ((0 :: ds).map hexChar ++ rest)
        = scan_x_mark w1 (ds.map hexChar ++ rest) := by
      rw [List.map_cons, List.cons_append, scan_lead, if_pos ⟨hw, h0⟩]
      rfl
    have hmark : scan_x_mark w1 (ds.map hexChar ++ rest)
        = (true, w1, ds.map hexChar ++ rest) := by
      cases ds with
      | nil =>
        rcases hstop with h | ⟨r, h⟩
        · subst h; rfl
        · subst h
          have : ¬ (w1 ≠ 0 ∧ ((' ' : Char) = 'x' ∨ (' ' : Char) = 'X')) := by
            rintro ⟨_, h⟩
            revert h
            decide
          rw [List.map_nil, List.nil_append, scan_x_mark, if_neg this]
      | cons e es =>
        have he : e < 16 := hds e (List.mem_cons_self e es)
        have : ¬ (w1 ≠ 0 ∧ (hexChar e = 'x' ∨ hexChar e = 'X')) := by
          have := hexChar_props e he
          tauto
        rw [List.map_cons, List.cons_append, scan_x_mark, if_neg this]
    refine ⟨true, w1, ds.map hexChar ++ rest, by rw [hpre, hmark], Or.inl rfl, ?_⟩
    rw [scan_digits_hex ds w1 0 0 rest hds hlen1 hstop, hval]
  · have hc : ¬ (w1 + 1 ≠ 0 ∧ hexChar d = '0') := fun h => h0 h.2
    refine ⟨false, w1 + 1, (d :: ds).map hexChar ++ rest, ?_, Or.inr ?_, ?_⟩
    · rw [List.map_cons, List.cons_append, scan_lead, if_neg hc]
    · rw [scan_digits_hex (d :: ds) (w1 + 1) 0 0 rest hlt hlen hstop]
      simp
    · rw [scan_digits_hex (d :: ds) (w1 + 1) 0 0 rest hlt hlen hstop]

/-- Scanning a right-justified hexadecimal number that is followed by the end
of the input or by a space gives back the number. -/
theorem scan_lx_digits (w m : Nat) (ds : List Nat) (rest : List Char)
    (hlt : ∀ x ∈ ds, x < 16) (hlen1 : 1 ≤ ds.length) (hlen : ds.length ≤ w)
    (hval : hexValue 0 ds < 2 ^ 64) (hstop : Stops rest) :
    scan_lx w (List.replicate m ' ' ++ (ds.map hexChar ++ rest))
      = some (hexValue 0 ds, rest) := by
  cases ds with
  | nil => simp at hlen1
  | cons d ds =>
    have hd : d < 16 := hlt d (List.mem_cons_self d ds)
    obtain ⟨zero, w2, s2, hp, hz, hv⟩ := scan_lead_hex d ds w rest hlt hlen hstop
    have hsk : skip_space (List.replicate m ' ' ++ ((d :: ds).map hexChar ++ rest))
        = hexChar d :: (ds.map hexChar ++ rest) := by
      rw [skip_space_replicate, List.map_cons, List.cons_append, skip_space_hexChar d hd]
    have hsg : scan_sign w (hexChar d :: (ds.map hexChar ++ rest))
        = (false, w, (d :: ds).map hexChar ++ rest) := by
      have := hexChar_props d hd
      rw [scan_sign, if_neg this.2.2.1, if_neg this.2.2.2.1]
      rfl
    unfold scan_lx
    rw [hsk]
    simp only [hsg, hp]
    rcases hscan : scan_digits w2 s2 0 0 with ⟨cnt, acc, s3⟩
    rw [hscan] at hz hv
    simp only [Prod.mk.injEq] at hv
    obtain ⟨hacc, hs3⟩ := hv
    subst hacc hs3
    simp only at hz
    have hcond : ¬ (zero = false ∧ cnt = 0) := by
      rintro ⟨h1, h2⟩
      rcases hz with hz | hz
      · rw [h1] at hz; exact Bool.noConfusion hz
      · exact hz h2
    rw [if_neg hcond]
    have : strtoul_value false (hexValue 0 (d :: ds)) = hexValue 0 (d :: ds) := by
      unfold strtoul_value
      rw [if_neg (by omega)]
      simp
    rw [this]

theorem scan_lx_toHex (w k m n : Nat) (rest : List Char) (hk1 : 1 ≤ k) (hn : n < 16 ^ k)
    (hk : k ≤ w)
    (hk64 : 16 ^ k ≤ 2 ^ 64) (hstop : Stops rest) :
    scan_lx w (List.replicate m ' ' ++ (toHex k n ++ rest)) = some (n, rest) := by
  obtain ⟨ds, hds, hlt, hlen1, hlenk, hval⟩ := toHex_digits k n hk1 hn
  rw [hds]
  have := scan_lx_digits w m ds rest hlt hlen1 (by omega) (by omega) hstop
  rw [hval] at this
  exact this

theorem toHex_length (k n : Nat) (hk1 : 1 ≤ k) (hn : n < 16 ^ k) :
    1 ≤ (toHex k n).length ∧ (toHex k n).length ≤ k := by
  obtain ⟨ds, hds, _, hlen1, hlenk, _⟩ := toHex_digits k n hk1 hn
  rw [hds, List.length_map]
  exact ⟨hlen1, hlenk⟩

theorem toHex_no_NUL (k n : Nat) (hk1 : 1 ≤ k) (hn : n < 16 ^ k) : ∀ c ∈ toHex k n, c ≠ NUL := by
  obtain ⟨ds, hds, hlt, _⟩ := toHex_digits k n hk1 hn
  rw [hds]
  intro c hc
  rw [List.mem_map] at hc
  obtain ⟨d, hd, rfl⟩ := hc
  exact (hexChar_props d (hlt d hd)).2.2.2.2.2.1

/-! ## Fields of the state text -/

theorem fmt_lx_17_form (v : Nat) :
    ∃ m, fmt_lx 17 v = ' ' :: (List.replicate m ' ' ++ toHex 16 (v % 2 ^ 64)) ∧
      (fmt_lx 17 v).length = 17 := by
  have hv : v % 2 ^ 64 < 16 ^ 16 := Nat.mod_lt _ (by decide)
  obtain ⟨h1, h2⟩ := toHex_length 16 (v % 2 ^ 64) (by decide) hv
  refine ⟨16 - (toHex 16 (v % 2 ^ 64)).length, ?_, ?_⟩
  · unfold fmt_lx padLeft
    have : 17 - (toHex 16 (v % 2 ^ 64)).length
        = (16 - (toHex 16 (v % 2 ^ 64)).length) + 1 := by omega
    rw [this, List.replicate_succ, List.cons_append]
  · unfold fmt_lx padLeft
    rw [List.length_append, List.length_replicate]
    omega

theorem fmt_x_8_form (v : Nat) :
    ∃ m, fmt_x 8 v = List.replicate m ' ' ++ toHex 8 (v % 2 ^ 32) ∧
      (fmt_x 8 v).length = 8 := by
  have hv : v % 2 ^ 32 < 16 ^ 8 := Nat.mod_lt _ (by decide)
  obtain ⟨h1, h2⟩ := toHex_length 8 (v % 2 ^ 32) (by decide) hv
  refine ⟨8 - (toHex 8 (v % 2 ^ 32)).length, rfl, ?_⟩
  unfold fmt_x padLeft
  rw [List.length_append, List.length_replicate]
  omega

theorem space_ne_NUL : (' ' : Char) ≠ NUL := by decide

theorem padLeft_no_NUL (w : Nat) (ds : List Char) (h : ∀ c ∈ ds, c ≠ NUL) :
    ∀ c ∈ padLeft w ds, c ≠ NUL := by
  intro c hc
  unfold padLeft at hc
  rw [List.mem_append] at hc
  rcases hc with hc | hc
  · rw [(List.mem_replicate.mp hc).2]
    exact space_ne_NUL
  · exact h c hc

theorem fmt_lx_no_NUL (w v : Nat) : ∀ c ∈ fmt_lx w v, c ≠ NUL :=
  padLeft_no_NUL w _ (toHex_no_NUL 16 _ (by decide) (Nat.mod_lt _ (by decide)))

theorem fmt_x_no_NUL (w v : Nat) : ∀ c ∈ fmt_x w v, c ≠ NUL :=
  padLeft_no_NUL w _ (toHex_no_NUL 8 _ (by decide) (Nat.mod_lt _ (by decide)))

theorem fields_append (a b : List Nat) : fields (a ++ b) = fields a ++ fields b := by
  induction a with
  | nil => rfl
  | cons w ws ih =>
    rw [List.cons_append, fields, fields, ih, List.append_assoc]

theorem fields_length (ws : List Nat) : (fields ws).length = 17 * ws.length := by
  induction ws with
  | nil => rfl
  | cons w ws ih =>
    simp only [fields, List.length_append, List.length_cons, ih, (fmt_lx_17_form w).choose_spec.2]
    omega

theorem fields_no_NUL (ws : List Nat) : ∀ c ∈ fields ws, c ≠ NUL := by
  induction ws with
  | nil => intro c hc; simp [fields] at hc
  | cons w ws ih =>
    intro c hc
    simp only [fields, List.mem_append] at hc
    rcases hc with hc | hc
    · exact fmt_lx_no_NUL 17 w c hc
    · exact ih c hc

theorem fields_stops (ws : List Nat) : Stops (fields ws) := by
  cases ws with
  | nil => exact Or.inl rfl
  | cons w ws =>
    obtain ⟨m, hm, _⟩ := fmt_lx_17_form w
    right
    exact ⟨_, by rw [fields, hm, List.cons_append]⟩

theorem int_text_no_NUL (g : rng_int_type) : ∀ c ∈ int_text g, c ≠ NUL := by
  intro c hc
  simp only [int_text, List.mem_append, List.mem_cons, List.mem_singleton,
    List.not_mem_nil, or_false] at hc
  rcases hc with (((hc | hc) | hc) | hc) | hc
  · rcases hc with hc | hc
    · rw [hc]; decide
    · rw [hc]; exact space_ne_NUL
  · exact fmt_x_no_NUL 8 _ c hc
  · rw [hc]; exact space_ne_NUL
  · exact fmt_x_no_NUL 8 _ c hc
  · exact fields_no_NUL _ c hc

theorem int_text_length (g : rng_int_type) :
    (int_text g).length = 19 + 17 * g.mtstate.length := by
  simp only [int_text, List.length_append, List.length_cons, List.length_nil,
    (fmt_x_8_form _).choose_spec.2, fields_length]

/-! ## Blocks -/

theorem block_of_length (t : List Char) (m : Nat) :
    (block_of t m).length = t.length + 1 + m := by
  simp [block_of]
  omega

theorem store_str_malloc (n : Nat) (t : List Char) (h : t.length + 1 ≤ n) :
    store_str (malloc n) 0 t = some (block_of t (n - t.length - 1)) := by
  unfold store_str malloc
  rw [if_pos (by simpa using h)]
  simp only [List.take_zero, List.nil_append, Nat.zero_add, List.drop_replicate, block_of]
  rfl

theorem store_str_block_of (t f : List Char) (m : Nat) (h : f.length ≤ m) :
    store_str (block_of t m) t.length f = some (block_of (t ++ f) (m - f.length)) := by
  unfold store_str
  rw [if_pos (by rw [block_of_length]; omega)]
  have htake : (block_of t m).take t.length = t.map some := by
    unfold block_of
    rw [List.take_append_of_le_length (by simp)]
    rw [List.take_of_length_le (by simp)]
  have hdrop : (block_of t m).drop (t.length + f.length + 1)
      = List.replicate (m - f.length) none := by
    unfold block_of
    have : t.length + f.length + 1 = (t.map some).length + (f.length + 1) := by simp; omega
    rw [this, List.drop_append, List.drop_succ_cons, List.drop_replicate]
  rw [htake, hdrop]
  simp [block_of]

theorem cstrAux_block : ∀ (t : List Char) (rest : List (Option Char)) (acc : List Char),
    (∀ c ∈ t, c ≠ NUL) → cstrAux (t.map some ++ some NUL :: rest) acc = some (acc.reverse ++ t) := by
  intro t
  induction t with
  | nil => intro rest acc _; simp [cstrAux]
  | cons c t ih =>
    intro rest acc h
    have hc : c ≠ NUL := h c (List.mem_cons_self c t)
    rw [List.map_cons, List.cons_append, cstrAux, if_neg hc,
      ih rest (c :: acc) (fun x hx => h x (List.mem_cons_of_mem c hx))]
    simp

theorem cstr_block_of (t : List Char) (m : Nat) (h : ∀ c ∈ t, c ≠ NUL) :
    cstr (block_of t m) = some t := by
  unfold cstr block_of
  rw [cstrAux_block t _ [] h]
  rfl

/-! ## Saving -/

theorem get_random_state_int_eq (g : rng_int_type) (hl : g.mtstate.length = 312) :
    get_random_state_int g = some (block_of (int_text g) 0) := by
  have hhdr : (['I', ' '] ++ fmt_x 8 (u32 g.seed) ++ [' '] ++ fmt_x 8 (u32 g.mtidx)).length
      = 19 := by
    simp only [List.length_append, List.length_cons, List.length_nil,
      (fmt_x_8_form _).choose_spec.2]
  have h0 : store_str (malloc INT_STATELENGTH) 0
      (['I', ' '] ++ fmt_x 8 (u32 g.seed) ++ [' '] ++ fmt_x 8 (u32 g.mtidx))
      = some (block_of
          (['I', ' '] ++ fmt_x 8 (u32 g.seed) ++ [' '] ++ fmt_x 8 (u32 g.mtidx)) 5304) := by
    rw [store_str_malloc _ _ (by rw [hhdr]; decide), hhdr]
    rfl
  obtain ⟨st, hst, hP⟩ := forRange_inv (get_int_step g)
    (fun k st => st = (block_of
      (['I', ' '] ++ fmt_x 8 (u32 g.seed) ++ [' '] ++ fmt_x 8 (u32 g.mtidx)
        ++ fields (g.mtstate.take k)) (5304 - 17 * k), 19 + 17 * k))
    0 MTSTATESIZE (by decide)
    (block_of (['I', ' '] ++ fmt_x 8 (u32 g.seed) ++ [' '] ++ fmt_x 8 (u32 g.mtidx)) 5304, 19)
    (by simp [fields])
    (by
      intro j t _ hj2 hP
      have hj : j < 312 := hj2
      subst hP
      have hr : rd g.mtstate (j : Int) = some (g.mtstate.getD j 0) := by
        rw [rd_of_eq _ _ j rfl hj]
        exact getElem?_getD_of_lt _ _ (by omega)
      have hlen : (['I', ' '] ++ fmt_x 8 (u32 g.seed) ++ [' '] ++ fmt_x 8 (u32 g.mtidx)
          ++ fields (g.mtstate.take j)).length = 19 + 17 * j := by
        rw [List.length_append, hhdr, fields_length, List.length_take]
        have : min j g.mtstate.length = j := by omega
        rw [this]
      have hst := store_str_block_of
        (['I', ' '] ++ fmt_x 8 (u32 g.seed) ++ [' '] ++ fmt_x 8 (u32 g.mtidx)
          ++ fields (g.mtstate.take j)) (fmt_lx 17 (g.mtstate.getD j 0)) (5304 - 17 * j)
        (by rw [(fmt_lx_17_form _).choose_spec.2]; omega)
      rw [hlen, (fmt_lx_17_form _).choose_spec.2] at hst
      refine ⟨_, ?_, rfl⟩
      simp only [get_int_step, hr, Option.bind_eq_bind, Option.some_bind, hst]
      have htake : g.mtstate.take (j + 1) = g.mtstate.take j ++ [g.mtstate.getD j 0] := by
        rw [List.take_succ, getElem?_getD_of_lt _ _ (by omega)]
        rfl
      rw [htake, fields_append]
      have : 5304 - 17 * j - 17 = 5304 - 17 * (j + 1) := by omega
      rw [this]
      simp only [fields, List.append_nil, List.append_assoc]
      have : 19 + 17 * j + 17 = 19 + 17 * (j + 1) := by omega
      rw [this])
  subst hP
  unfold get_random_state_int
  simp only [h0, hst, Option.bind_eq_bind, Option.some_bind]
  have : g.mtstate.take MTSTATESIZE = g.mtstate := by
    rw [List.take_of_length_le (by rw [hl]; decide)]
  rw [this]
  rfl

/-! ## Restoring -/

theorem skip_space_idem (s : List Char) : skip_space (skip_space s) = skip_space s := by
  induction s with
  | nil => rfl
  | cons c s ih =>
    by_cases hc : isspace c = true
    · simp only [skip_space, hc, if_true]; exact ih
    · have h1 : skip_space (c :: s) = c :: s := by simp only [skip_space, hc]; rfl
      rw [h1, h1]

theorem scan_lx_skip_space (w : Nat) (s : List Char) :
    scan_lx w (skip_space s) = scan_lx w s := by
  unfold scan_lx
  rw [skip_space_idem]

theorem scan_x_skip_space (w : Nat) (s : List Char) :
    scan_x w (skip_space s) = scan_x w s := by
  unfold scan_x
  rw [scan_lx_skip_space]

theorem scan_x_8_field (v : Nat) (m : Nat) (rest : List Char) (hstop : Stops rest) :
    scan_x 8 (List.replicate m ' ' ++ (fmt_x 8 v ++ rest)) = some (v % 2 ^ 32, rest) := by
  obtain ⟨k, hk, _⟩ := fmt_x_8_form v
  have hv : v % 2 ^ 32 < 16 ^ 8 := Nat.mod_lt _ (by decide)
  have : List.replicate m ' ' ++ (fmt_x 8 v ++ rest)
      = List.replicate (m + k) ' ' ++ (toHex 8 (v % 2 ^ 32) ++ rest) := by
    rw [hk, List.replicate_add]
    simp only [List.append_assoc]
  unfold scan_x
  rw [this, scan_lx_toHex 8 8 (m + k) (v % 2 ^ 32) rest (by decide) hv (by decide) (by decide)
    hstop]
  simp only [Nat.mod_mod]

theorem sscanf_lx_17_field (v x : Nat) (rest : List Char) (hv : v < 2 ^ 64)
    (hstop : Stops rest) : sscanf_lx 17 (fmt_lx 17 v ++ rest) x = v := by
  obtain ⟨m, hm, _⟩ := fmt_lx_17_form v
  have h16 : v % 2 ^ 64 < 16 ^ 16 := Nat.mod_lt _ (by decide)
  have : fmt_lx 17 v ++ rest
      = List.replicate (m + 1) ' ' ++ (toHex 16 (v % 2 ^ 64) ++ rest) := by
    rw [hm, List.replicate_succ]
    simp only [List.append_assoc, List.cons_append]
  unfold sscanf_lx
  rw [this, scan_lx_toHex 17 16 (m + 1) (v % 2 ^ 64) rest (by decide) h16 (by decide)
    (by decide) hstop]
  exact Nat.mod_eq_of_lt hv

theorem sscanf_lx_17_field_tail (v x : Nat) (rest : List Char) (hv : v < 2 ^ 64)
    (hstop : Stops rest) : sscanf_lx 17 ((fmt_lx 17 v ++ rest).drop 1) x = v := by
  obtain ⟨m, hm, _⟩ := fmt_lx_17_form v
  have h16 : v % 2 ^ 64 < 16 ^ 16 := Nat.mod_lt _ (by decide)
  have : (fmt_lx 17 v ++ rest).drop 1
      = List.replicate m ' ' ++ (toHex 16 (v % 2 ^ 64) ++ rest) := by
    rw [hm]
    simp only [List.cons_append, List.drop_succ_cons, List.drop_zero, List.append_assoc]
  unfold sscanf_lx
  rw [this, scan_lx_toHex 17 16 m (v % 2 ^ 64) rest (by decide) h16 (by decide)
    (by decide) hstop]
  exact Nat.mod_eq_of_lt hv

theorem sscanf_x_x_fields (a b : Int) (s0 i0 : Int) (rest : List Char)
    (ha1 : -2 ^ 31 ≤ a) (ha2 : a < 2 ^ 31) (hb1 : -2 ^ 31 ≤ b) (hb2 : b < 2 ^ 31)
    (hstop : Stops rest) :
    sscanf_x_x (fmt_x 8 (u32 a) ++ [' '] ++ fmt_x 8 (u32 b) ++ rest) s0 i0 = (a, b) := by
  have h1 : scan_x 8 (skip_space (fmt_x 8 (u32 a) ++ [' '] ++ fmt_x 8 (u32 b) ++ rest))
      = some (u32 a % 2 ^ 32, ' ' :: (fmt_x 8 (u32 b) ++ rest)) := by
    rw [scan_x_skip_space]
    have := scan_x_8_field (u32 a) 0 (' ' :: (fmt_x 8 (u32 b) ++ rest)) (Or.inr ⟨_, rfl⟩)
    simpa using this
  have h2 : scan_x 8 (skip_space (' ' :: (fmt_x 8 (u32 b) ++ rest)))
      = some (u32 b % 2 ^ 32, rest) := by
    rw [scan_x_skip_space]
    exact scan_x_8_field (u32 b) 1 rest hstop
  unfold sscanf_x_x
  rw [h1]
  simp only [h2]
  have e1 : i32 (u32 a % 2 ^ 32) = a := by
    have : u32 a % 2 ^ 32 = u32 a := Nat.mod_eq_of_lt (by unfold u32; omega)
    rw [this, i32_u32 a ha1 ha2]
  have e2 : i32 (u32 b % 2 ^ 32) = b := by
    have : u32 b % 2 ^ 32 = u32 b := Nat.mod_eq_of_lt (by unfold u32; omega)
    rw [this, i32_u32 b hb1 hb2]
  rw [e1, e2]

theorem drop_eq_getD_cons (l : List Nat) (j : Nat) (h : j < l.length) :
    l.drop j = l.getD j 0 :: l.drop (j + 1) := by
  rw [List.drop_eq_getElem_cons h]
  simp [List.getElem?_eq_getElem h]

theorem getD_mem (l : List Nat) (j : Nat) (h : j < l.length) : l.getD j 0 ∈ l := by
  have : l.getD j 0 = l[j] := by simp [List.getElem?_eq_getElem h]
  rw [this]
  exact List.getElem_mem _

theorem restore_words (ws garbage : List Nat) (hws : ws.length = 312)
    (hw : ∀ w ∈ ws, w < 2 ^ 64) (hg : garbage.length = 312) :
    ∃ p, forRange 0 MTSTATESIZE restore_int_step (garbage, (fields ws).drop 1)
      = some (ws, p) := by
  obtain ⟨st, hst, hl, hval, hptr⟩ := forRange_inv restore_int_step
    (fun k st => st.1.length = 312 ∧ (∀ j, j < k → st.1[j]? = ws[j]?) ∧
      st.2 = (fields (ws.drop k)).drop 1)
    0 MTSTATESIZE (by decide) (garbage, (fields ws).drop 1)
    ⟨hg, fun j hj => absurd hj (Nat.not_lt_zero j), rfl⟩
    (by
      intro j t _ hj2 hP
      obtain ⟨htl, htv, htp⟩ := hP
      have hj : j < 312 := hj2
      have hr : rd t.1 (j : Int) = some (t.1.getD j 0) := by
        rw [rd_of_eq _ _ j rfl hj]
        exact getElem?_getD_of_lt _ _ (by omega)
      have hdrop : ws.drop j = ws.getD j 0 :: ws.drop (j + 1) :=
        drop_eq_getD_cons ws j (by omega)
      have hwj : ws.getD j 0 < 2 ^ 64 := hw _ (getD_mem ws j (by omega))
      have hscan : sscanf_lx 17 t.2 (t.1.getD j 0) = ws.getD j 0 := by
        rw [htp, hdrop, fields]
        exact sscanf_lx_17_field_tail _ _ _ hwj (fields_stops _)
      have hnext : t.2.drop 17 = (fields (ws.drop (j + 1))).drop 1 := by
        rw [htp, hdrop, fields, List.drop_drop]
        have : 1 + 17 = 17 + 1 := rfl
        rw [this, ← List.drop_drop, List.drop_left' (fmt_lx_17_form _).choose_spec.2]
      refine ⟨(t.1.set j (ws.getD j 0), (fields (ws.drop (j + 1))).drop 1), ?_, ?_, ?_, rfl⟩
      · simp only [restore_int_step, hr, Option.bind_eq_bind, Option.some_bind, hscan, hnext]
        rw [wr_of_eq _ _ j _ rfl hj htl]
        rfl
      · simp [htl]
      · intro k hk
        by_cases hkj : k = j
        · subst hkj
          show (t.1.set k (ws.getD k 0))[k]? = ws[k]?
          rw [List.getElem?_set_self (by omega), getElem?_getD_of_lt ws k (by omega)]
        · show (t.1.set j (ws.getD j 0))[k]? = ws[k]?
          rw [List.getElem?_set_ne (by omega)]
          exact htv k (by omega))
  have heq : st.1 = ws := by
    apply List.ext_getElem?
    intro j
    by_cases hj : j < 312
    · exact hval j hj
    · rw [List.getElem?_eq_none (by omega), List.getElem?_eq_none (by omega)]
  refine ⟨st.2, ?_⟩
  rw [hst, ← heq]

theorem restore_rng_state_int_text (frame : int_frame) (g : rng_int_type) (hg : g.WF)
    (hf : frame.rng_int.mtstate.length = 312) :
    restore_rng_state_int frame (int_text g) = some g := by
  obtain ⟨hs1, hs2, hi1, hi2, hlen, hwords⟩ := hg
  have hlen312 : g.mtstate.length = 312 := hlen
  have htext : int_text g = 'I' :: ' ' ::
      (fmt_x 8 (u32 g.seed) ++ [' '] ++ fmt_x 8 (u32 g.mtidx) ++ fields g.mtstate) := by
    simp only [int_text, List.cons_append, List.nil_append, List.append_assoc]
  have hdrop18 : (fmt_x 8 (u32 g.seed) ++ [' '] ++ fmt_x 8 (u32 g.mtidx)
      ++ fields g.mtstate).drop 18 = (fields g.mtstate).drop 1 := by
    have : 18 = 17 + 1 := rfl
    rw [this, ← List.drop_drop]
    rw [List.drop_left' (by
      simp only [List.length_append, List.length_cons, List.length_nil,
        (fmt_x_8_form _).choose_spec.2])]
  obtain ⟨p, hp⟩ := restore_words g.mtstate frame.rng_int.mtstate hlen312 hwords hf
  unfold restore_rng_state_int
  simp only [htext, sscanf_c, List.drop_succ_cons, List.drop_zero, ne_eq, not_true_eq_false,
    if_false, hdrop18, hp,
    sscanf_x_x_fields g.seed g.mtidx _ _ _ hs1 hs2 hi1 hi2 (fields_stops _)]

/-! ## The uniform layer -/

theorem uniform_text_no_NUL (u : rng_uniform_type) : ∀ c ∈ uniform_text u, c ≠ NUL := by
  intro c hc
  simp only [uniform_text, List.mem_append, List.mem_cons, List.mem_singleton,
    List.not_mem_nil, or_false] at hc
  rcases hc with ((hc | hc) | (hc | hc)) | hc
  · rw [hc]; decide
  · exact fmt_lx_no_NUL 17 _ c hc
  · exact fmt_lx_no_NUL 17 _ c hc
  · rw [hc]; exact space_ne_NUL
  · exact int_text_no_NUL _ c hc

theorem get_random_state_uniform_eq (u : rng_uniform_type)
    (hl : u.rng_int.mtstate.length = 312) :
    get_random_state_uniform u = some (block_of (uniform_text u) 0) := by
  have hlo : (fmt_lx 17 u.lower).length = 17 := (fmt_lx_17_form _).choose_spec.2
  have hup : (fmt_lx 17 u.upper).length = 17 := (fmt_lx_17_form _).choose_spec.2
  have h1 : store_str (malloc UNIFORM_STATELENGTH) 0 (['U'] ++ fmt_lx 17 u.lower)
      = some (block_of (['U'] ++ fmt_lx 17 u.lower) 5341) := by
    have hlen : (['U'] ++ fmt_lx 17 u.lower).length = 18 := by
      rw [List.length_append, hlo]; rfl
    rw [store_str_malloc _ _ (by rw [hlen]; decide), hlen]
    rfl
  have h2 : store_str (block_of (['U'] ++ fmt_lx 17 u.lower) 5341) 18
      (fmt_lx 17 u.upper ++ [' '])
      = some (block_of (['U'] ++ fmt_lx 17 u.lower ++ (fmt_lx 17 u.upper ++ [' '])) 5323) := by
    have hlen : (['U'] ++ fmt_lx 17 u.lower).length = 18 := by
      rw [List.length_append, hlo]; rfl
    have hlen2 : (fmt_lx 17 u.upper ++ [' ']).length = 18 := by
      rw [List.length_append, hup]; rfl
    have := store_str_block_of (['U'] ++ fmt_lx 17 u.lower) (fmt_lx 17 u.upper ++ [' '])
      5341 (by rw [hlen2]; decide)
    rw [hlen, hlen2] at this
    exact this
  have h3 : store_str
      (block_of (['U'] ++ fmt_lx 17 u.lower ++ (fmt_lx 17 u.upper ++ [' '])) 5323)
      (18 + 17 + 1) (int_text u.rng_int) = some (block_of (uniform_text u) 0) := by
    have hlen : (['U'] ++ fmt_lx 17 u.lower ++ (fmt_lx 17 u.upper ++ [' '])).length
        = 18 + 17 + 1 := by
      simp only [List.length_append, hlo, hup, List.length_cons, List.length_nil]
    have hlen2 : (int_text u.rng_int).length = 5323 := by
      rw [int_text_length, hl]
    have := store_str_block_of (['U'] ++ fmt_lx 17 u.lower ++ (fmt_lx 17 u.upper ++ [' ']))
      (int_text u.rng_int) 5323 (by rw [hlen2])
    rw [hlen, hlen2] at this
    exact this
  unfold get_random_state_uniform
  simp only [h1, h2, get_random_state_int_eq u.rng_int hl,
    cstr_block_of _ 0 (int_text_no_NUL u.rng_int), h3, Option.bind_eq_bind, Option.some_bind]

theorem restore_rng_state_uniform_text (frame : uniform_frame) (u : rng_uniform_type)
    (hu : u.WF) (hf : frame.callee.rng_int.mtstate.length = 312) :
    restore_rng_state_uniform frame (uniform_text u) = some u := by
  obtain ⟨hlo, hup, hint⟩ := hu
  have hl17 : (fmt_lx 17 u.lower).length = 17 := (fmt_lx_17_form _).choose_spec.2
  have hu17 : (fmt_lx 17 u.upper).length = 17 := (fmt_lx_17_form _).choose_spec.2
  have htext : uniform_text u = 'U' ::
      (fmt_lx 17 u.lower ++ (fmt_lx 17 u.upper ++ ' ' :: int_text u.rng_int)) := by
    simp only [uniform_text, List.cons_append, List.nil_append, List.append_assoc]
  have hstop1 : Stops (fmt_lx 17 u.upper ++ ' ' :: int_text u.rng_int) := by
    obtain ⟨m, hm, _⟩ := fmt_lx_17_form u.upper
    right
    exact ⟨_, by rw [hm, List.cons_append]⟩
  have hstop2 : Stops (' ' :: int_text u.rng_int) := Or.inr ⟨_, rfl⟩
  have hd1 : (fmt_lx 17 u.lower ++ (fmt_lx 17 u.upper ++ ' ' :: int_text u.rng_int)).drop 17
      = fmt_lx 17 u.upper ++ ' ' :: int_text u.rng_int := List.drop_left' hl17
  have hd2 : (fmt_lx 17 u.upper ++ ' ' :: int_text u.rng_int).drop 17
      = ' ' :: int_text u.rng_int := List.drop_left' hu17
  unfold restore_rng_state_uniform
  simp only [htext, sscanf_c, List.drop_succ_cons, List.drop_zero, ne_eq, not_true_eq_false,
    if_false, hd1, hd2, sscanf_lx_17_field _ _ _ hlo hstop1,
    sscanf_lx_17_field _ _ _ hup hstop2, restore_rng_state_int_text frame.callee u.rng_int hint hf]

theorem WF_replicate (s i : Int) (a : Nat) (hs1 : -2 ^ 31 ≤ s) (hs2 : s < 2 ^ 31)
    (hi1 : -2 ^ 31 ≤ i) (hi2 : i < 2 ^ 31) (ha : a < 2 ^ 64) :
    rng_int_type.WF ⟨s, i, List.replicate 312 a⟩ := by
  refine ⟨hs1, hs2, hi1, hi2, List.length_replicate 312 a, ?_⟩
  intro w hw
  rw [(List.mem_replicate.mp hw).2]
  exact ha

/-! ## The claims -/

/-- C1 (integer-layer round trip): for every integer-generator state `g` (any
32-bit seed, any 32-bit index, any 312 64-bit words) and whatever the locals
of the decoder held before, `get_random_state_int g` succeeds, its result is
a C string, and `restore_rng_state_int` applied to that string returns `g`
itself: same seed, same index, same 312 state words; hence the same results
of all subsequent `next_random_lint` calls. -/
theorem C1_int_round_trip (g : rng_int_type) (frame : int_frame) (hg : g.WF)
    (hf : frame.rng_int.mtstate.length = MTSTATESIZE) :
    ∃ block text, get_random_state_int g = some block ∧ cstr block = some text ∧
      restore_rng_state_int frame text = some g ∧
      ∀ n, (restore_rng_state_int frame text).bind (drawList n) = drawList n g := by
  have hl : g.mtstate.length = 312 := hg.2.2.2.2.1
  have hr := restore_rng_state_int_text frame g hg hf
  exact ⟨_, _, get_random_state_int_eq g hl, cstr_block_of _ 0 (int_text_no_NUL g), hr,
    fun n => by rw [hr]; rfl⟩

/-- Witness for C1: a state with a negative seed and index `313`. -/
theorem C1_int_round_trip_witness :
    rng_int_type.WF ⟨-42, 313, List.replicate 312 7⟩ ∧
    (List.replicate 312 0).length = MTSTATESIZE ∧
    ∃ block text, get_random_state_int ⟨-42, 313, List.replicate 312 7⟩ = some block ∧
      cstr block = some text ∧
      restore_rng_state_int ⟨⟨0, 0, List.replicate 312 0⟩, 'x'⟩ text
        = some ⟨-42, 313, List.replicate 312 7⟩ ∧
      ∀ n, (restore_rng_state_int ⟨⟨0, 0, List.replicate 312 0⟩, 'x'⟩ text).bind (drawList n)
        = drawList n ⟨-42, 313, List.replicate 312 7⟩ :=
  ⟨WF_replicate _ _ _ (by decide) (by decide) (by decide) (by decide) (by decide),
    List.length_replicate 312 _,
    C1_int_round_trip ⟨-42, 313, List.replicate 312 7⟩ ⟨⟨0, 0, List.replicate 312 0⟩, 'x'⟩
      (WF_replicate _ _ _ (by decide) (by decide) (by decide) (by decide) (by decide))
      (List.length_replicate 312 _)⟩

/-- C2 (seeding recurrence): for every 32-bit signed `seed`, whatever the
local variable held before, `init_rng_int seed` succeeds, stores `seed` in the
seed field, sets word `0` to the 64-bit pattern whose signed value is `seed`
(sign extension), and for every `i` in `1 .. 311` sets word `i` to
`(0x5851F42D4C957F2D * (p XOR (p >> 62)) + i) mod 2^64` where `p` is word
`i-1` and the shift is logical. -/
theorem C2_init_rng_int_seeding (g0 : rng_int_type) (seed : Int)
    (hg0 : g0.mtstate.length = MTSTATESIZE) (hlo : -2 ^ 31 ≤ seed) (hhi : seed < 2 ^ 31) :
    ∃ g, init_rng_int g0 seed = some g ∧ g.seed = seed ∧ g.mtstate.length = 312 ∧
      (∃ w0, g.mtstate[0]? = some w0 ∧ w0 < 2 ^ 64 ∧ i64 w0 = seed) ∧
      ∀ i, 1 ≤ i → i ≤ 311 → ∃ p, g.mtstate[i - 1]? = some p ∧
        g.mtstate[i]? = some ((0x5851F42D4C957F2D * (p ^^^ (p / 2 ^ 62)) + i) % 2 ^ 64) := by
  obtain ⟨st, hst, hlen, hw⟩ := init_rng_int_spec g0 seed hg0
  refine ⟨_, hst, rfl, hlen, ⟨u64 seed, hw 0 (by omega), u64_lt seed,
    i64_u64 seed (by omega) (by omega)⟩, ?_⟩
  intro i h1 h2
  refine ⟨seedWord seed (i - 1), hw (i - 1) (by omega), ?_⟩
  obtain ⟨m, rfl⟩ : ∃ m, i = m + 1 := ⟨i - 1, by omega⟩
  have := hw (m + 1) (by omega)
  simpa [seedWord] using this

/-- Witness for C2: seed `-42` on a zero-filled local. -/
theorem C2_init_rng_int_seeding_witness :
    (List.replicate 312 0).length = MTSTATESIZE ∧ (-2 ^ 31 : Int) ≤ -42 ∧ (-42 : Int) < 2 ^ 31 ∧
    ∃ g, init_rng_int ⟨0, 0, List.replicate 312 0⟩ (-42) = some g ∧ g.seed = -42 ∧
      g.mtstate.length = 312 ∧
      (∃ w0, g.mtstate[0]? = some w0 ∧ w0 < 2 ^ 64 ∧ i64 w0 = -42) ∧
      ∀ i, 1 ≤ i → i ≤ 311 → ∃ p, g.mtstate[i - 1]? = some p ∧
        g.mtstate[i]? = some ((0x5851F42D4C957F2D * (p ^^^ (p / 2 ^ 62)) + i) % 2 ^ 64) :=
  ⟨List.length_replicate 312 _, by decide, by decide,
    C2_init_rng_int_seeding ⟨0, 0, List.replicate 312 0⟩ (-42) (List.length_replicate 312 _)
      (by decide) (by decide)⟩

/-- C3 (refill equals the reference twist): whenever `next_random_lint` is
called with index above `310`, the call succeeds and the new state words `s1`
are, with `twistWord a b c = c XOR (x >> 1) XOR (A if x odd else 0)` for
`x = (a AND UM) OR (b AND LM)`: `s1[i] = twistWord s[i] s[i+1] s[i+156]` for
`i < 156`, `s1[i] = twistWord s[i] s[i+1] s1[i-156]` for `156 ≤ i < 311`, and
`s1[311] = twistWord s[311] s1[0] s1[155]`; moreover the XOR of the masked
halves used by the code equals their OR for all inputs, and the right shift
is division by two. -/
theorem C3_refill_is_reference_twist (g : rng_int_type)
    (hl : g.mtstate.length = MTSTATESIZE) (hi : 310 < g.mtidx) :
    (∃ v g1, next_random_lint g = some (v, g1) ∧ g1.mtstate.length = 312 ∧
      (∀ i, i < 156 → g1.mtstate[i]? = some (twistWord (g.mtstate.getD i 0)
        (g.mtstate.getD (i + 1) 0) (g.mtstate.getD (i + 156) 0))) ∧
      (∀ i, 156 ≤ i → i < 311 → g1.mtstate[i]? = some (twistWord (g.mtstate.getD i 0)
        (g.mtstate.getD (i + 1) 0) (g1.mtstate.getD (i - 156) 0))) ∧
      g1.mtstate[311]? = some (twistWord (g.mtstate.getD 311 0)
        (g1.mtstate.getD 0 0) (g1.mtstate.getD 155 0))) ∧
    (∀ a b : Nat, (a &&& UM) ^^^ (b &&& LM) = (a &&& UM) ||| (b &&& LM)) ∧
    (∀ x : Nat, x >>> 1 = x / 2) := by
  refine ⟨?_, fun a b => masked_xor_eq_or a b, fun x => by
    simp [Nat.shiftRight_eq_div_pow]⟩
  obtain ⟨st, w, hn, _, hlen, hA, hB, hC⟩ := next_random_lint_refill g hl hi
  exact ⟨_, _, hn, hlen, hA, hB, hC⟩

/-- Witness for C3: the all-zero state with index `311`. -/
theorem C3_refill_is_reference_twist_witness :
    (List.replicate 312 0).length = MTSTATESIZE ∧ (310 : Int) < 311 ∧
    ((∃ v g1, next_random_lint ⟨0, 311, List.replicate 312 0⟩ = some (v, g1) ∧
      g1.mtstate.length = 312 ∧
      (∀ i, i < 156 → g1.mtstate[i]? = some (twistWord ((List.replicate 312 0).getD i 0)
        ((List.replicate 312 0).getD (i + 1) 0) ((List.replicate 312 0).getD (i + 156) 0))) ∧
      (∀ i, 156 ≤ i → i < 311 → g1.mtstate[i]? = some (twistWord
        ((List.replicate 312 0).getD i 0)
        ((List.replicate 312 0).getD (i + 1) 0) (g1.mtstate.getD (i - 156) 0))) ∧
      g1.mtstate[311]? = some (twistWord ((List.replicate 312 0).getD 311 0)
        (g1.mtstate.getD 0 0) (g1.mtstate.getD 155 0))) ∧
    (∀ a b : Nat, (a &&& UM) ^^^ (b &&& LM) = (a &&& UM) ||| (b &&& LM)) ∧
    (∀ x : Nat, x >>> 1 = x / 2)) :=
  ⟨List.length_replicate 312 _, by decide,
    C3_refill_is_reference_twist ⟨0, 311, List.replicate 312 0⟩ (List.length_replicate 312 _)
      (by decide)⟩

/-- C4 (draw output): for every state with index at least `-1`,
`next_random_lint` succeeds and returns `T(s1[j])` read as a signed 64-bit
integer, where `s1` and `j` are the state words and the index after the call,
`j = 0` after a refill (index above `310`) and `j = old index + 1` otherwise,
and `T` is the four-step tempering `temper`. -/
theorem C4_draw_output (g : rng_int_type) (hl : g.mtstate.length = MTSTATESIZE)
    (hi : -1 ≤ g.mtidx) :
    ∃ v g1 w, next_random_lint g = some (v, g1) ∧
      g1.mtidx = (if 310 < g.mtidx then 0 else g.mtidx + 1) ∧
      0 ≤ g1.mtidx ∧ g1.mtstate[g1.mtidx.toNat]? = some w ∧ v = i64 (temper w) := by
  by_cases h2 : g.mtidx ≤ 310
  · obtain ⟨w, hw, hn⟩ := next_random_lint_plain g hl hi h2
    refine ⟨_, _, w, hn, ?_, ?_, hw, rfl⟩
    · have : ¬ 310 < g.mtidx := by omega
      simp only [this, if_false]
    · simp only; omega
  · obtain ⟨st, w, hn, hw, _⟩ := next_random_lint_refill g hl (by omega)
    refine ⟨_, _, w, hn, ?_, ?_, hw, rfl⟩
    · have : 310 < g.mtidx := by omega
      simp only [this, if_true]
    · simp

/-- Witness for C4: the all-zero state with index `-1`. -/
theorem C4_draw_output_witness :
    (List.replicate 312 0).length = MTSTATESIZE ∧ (-1 : Int) ≤ -1 ∧
    ∃ v g1 w, next_random_lint ⟨0, -1, List.replicate 312 0⟩ = some (v, g1) ∧
      g1.mtidx = (if (310 : Int) < -1 then 0 else -1 + 1) ∧
      0 ≤ g1.mtidx ∧ g1.mtstate[g1.mtidx.toNat]? = some w ∧ v = i64 (temper w) :=
  ⟨List.length_replicate 312 _, by decide,
    C4_draw_output ⟨0, -1, List.replicate 312 0⟩ (List.length_replicate 312 _) (by decide)⟩

/-- C5 as stated fails: seeding with `0` leaves the index at `313`, not
`312`. -/
theorem C5_index_is_not_312 :
    (init_rng_int ⟨0, 0, List.replicate 312 0⟩ 0).map rng_int_type.mtidx ≠ some 312 := by
  obtain ⟨st, hst, _⟩ := init_rng_int_spec ⟨0, 0, List.replicate 312 0⟩ 0
    (List.length_replicate 312 _)
  rw [hst]
  simp

/-- C5 (amended): for every seed, `init_rng_int seed` returns a generator
whose index field equals `313`, that is `NN + 1`. -/
theorem C5_initial_index_is_313 (g0 : rng_int_type) (seed : Int)
    (hg0 : g0.mtstate.length = MTSTATESIZE) :
    ∃ g, init_rng_int g0 seed = some g ∧ g.mtidx = 313 ∧ g.mtidx = (NN : Int) + 1 := by
  obtain ⟨st, hst, _⟩ := init_rng_int_spec g0 seed hg0
  exact ⟨_, hst, rfl, by simp [NN, MTSTATESIZE]⟩

/-- Witness for C5 (amended): seed `7` on a zero-filled local. -/
theorem C5_initial_index_is_313_witness :
    (List.replicate 312 0).length = MTSTATESIZE ∧
    ∃ g, init_rng_int ⟨0, 0, List.replicate 312 0⟩ 7 = some g ∧ g.mtidx = 313 ∧
      g.mtidx = (NN : Int) + 1 :=
  ⟨List.length_replicate 312 _,
    C5_initial_index_is_313 ⟨0, 0, List.replicate 312 0⟩ 7 (List.length_replicate 312 _)⟩

/-- C6 (index invariant): for every seed and every `n ≥ 1`, seeding and then
calling `next_random_lint` `n` times succeeds (so every subscript used was in
`0 .. 311`) and leaves the index in `[0, 311]`; and from any state whose
index is in `[0, 311]` a further draw succeeds and leaves the index in
`[0, 311]` again. -/
theorem C6_index_invariant (g0 : rng_int_type) (seed : Int) (n : Nat)
    (hg0 : g0.mtstate.length = MTSTATESIZE) (hn : 1 ≤ n) :
    (∃ g gn, init_rng_int g0 seed = some g ∧ draws n g = some gn ∧
      0 ≤ gn.mtidx ∧ gn.mtidx ≤ 311 ∧ gn.mtstate.length = MTSTATESIZE) ∧
    (∀ g : rng_int_type, g.mtstate.length = MTSTATESIZE → 0 ≤ g.mtidx → g.mtidx ≤ 311 →
      ∃ v g1, next_random_lint g = some (v, g1) ∧ 0 ≤ g1.mtidx ∧ g1.mtidx ≤ 311 ∧
        g1.mtstate.length = MTSTATESIZE) := by
  constructor
  · obtain ⟨st, hst, hlen, _⟩ := init_rng_int_spec g0 seed hg0
    obtain ⟨m, rfl⟩ : ∃ m, n = m + 1 := ⟨n - 1, by omega⟩
    obtain ⟨gn, hd, hl, ha, hb⟩ := draws_index m
      { seed := seed, mtidx := 313, mtstate := st } hlen (by simp)
    exact ⟨_, gn, hst, hd, ha, hb, hl⟩
  · intro g hl h1 _
    obtain ⟨v, g1, hn1, hl1, ha, hb, _⟩ := next_random_lint_index g hl (by omega)
    exact ⟨v, g1, hn1, ha, hb, hl1⟩

/-- Witness for C6: seed `42`, three draws. -/
theorem C6_index_invariant_witness :
    (List.replicate 312 0).length = MTSTATESIZE ∧ 1 ≤ 3 ∧
    ((∃ g gn, init_rng_int ⟨0, 0, List.replicate 312 0⟩ 42 = some g ∧ draws 3 g = some gn ∧
      0 ≤ gn.mtidx ∧ gn.mtidx ≤ 311 ∧ gn.mtstate.length = MTSTATESIZE) ∧
    (∀ g : rng_int_type, g.mtstate.length = MTSTATESIZE → 0 ≤ g.mtidx → g.mtidx ≤ 311 →
      ∃ v g1, next_random_lint g = some (v, g1) ∧ 0 ≤ g1.mtidx ∧ g1.mtidx ≤ 311 ∧
        g1.mtstate.length = MTSTATESIZE)) :=
  ⟨List.length_replicate 312 _, by decide,
    C6_index_invariant ⟨0, 0, List.replicate 312 0⟩ 42 3 (List.length_replicate 312 _) (by decide)⟩

/-- C7 (32-bit draw): for every state with index at least `-1`,
`next_random_int` succeeds, leaves the generator exactly as `next_random_lint`
leaves it, and returns the signed 32-bit integer whose bit pattern is bits
`63 .. 32` of the unsigned 64-bit value of what `next_random_lint` returns. -/
theorem C7_next_random_int_high_bits (g : rng_int_type)
    (hl : g.mtstate.length = MTSTATESIZE) (hi : -1 ≤ g.mtidx) :
    ∃ v r g1, next_random_lint g = some (v, g1) ∧ next_random_int g = some (r, g1) ∧
      -2 ^ 31 ≤ r ∧ r < 2 ^ 31 ∧ u32 r = u64 v / 2 ^ 32 := by
  obtain ⟨v, g1, hn, _⟩ := next_random_lint_index g hl hi
  refine ⟨v, i32 (u64 v >>> 32), g1, hn, ?_, (i32_bounds _).1, (i32_bounds _).2, ?_⟩
  · simp only [next_random_int, hn, Option.bind_eq_bind, Option.some_bind]
  · rw [u32_i32, Nat.shiftRight_eq_div_pow]
    apply Nat.mod_eq_of_lt
    have := u64_lt v
    omega

/-- Witness for C7: the all-zero state with index `5`. -/
theorem C7_next_random_int_high_bits_witness :
    (List.replicate 312 0).length = MTSTATESIZE ∧ (-1 : Int) ≤ 5 ∧
    ∃ v r g1, next_random_lint ⟨0, 5, List.replicate 312 0⟩ = some (v, g1) ∧
      next_random_int ⟨0, 5, List.replicate 312 0⟩ = some (r, g1) ∧
      -2 ^ 31 ≤ r ∧ r < 2 ^ 31 ∧ u32 r = u64 v / 2 ^ 32 :=
  ⟨List.length_replicate 312 _, by decide,
    C7_next_random_int_high_bits ⟨0, 5, List.replicate 312 0⟩ (List.length_replicate 312 _)
      (by decide)⟩

/-- C8 (determinism): for every seed and every `n`, two generators built by
`init_rng_int seed` in locals with arbitrary prior contents are the same
generator, and `n` calls of `next_random_lint` succeed on both with the same
list of `n` returned values and the same final state. -/
theorem C8_determinism (ga gb : rng_int_type) (seed : Int) (n : Nat)
    (ha : ga.mtstate.length = MTSTATESIZE) (hb : gb.mtstate.length = MTSTATESIZE) :
    ∃ g vs gn, init_rng_int ga seed = some g ∧ init_rng_int gb seed = some g ∧
      (init_rng_int ga seed).bind (drawList n) = some (vs, gn) ∧
      (init_rng_int gb seed).bind (drawList n) = some (vs, gn) ∧ vs.length = n := by
  obtain ⟨sa, hsa, hla, hwa⟩ := init_rng_int_spec ga seed ha
  obtain ⟨sb, hsb, hlb, hwb⟩ := init_rng_int_spec gb seed hb
  have hab : sa = sb := by
    apply List.ext_getElem?
    intro j
    by_cases hj : j < 312
    · rw [hwa j hj, hwb j hj]
    · rw [List.getElem?_eq_none (by omega), List.getElem?_eq_none (by omega)]
  subst hab
  obtain ⟨vs, gn, hd, hlen⟩ := drawList_some n
    { seed := seed, mtidx := 313, mtstate := sa } hla (by simp)
  exact ⟨_, vs, gn, hsa, hsb, by rw [hsa]; exact hd, by rw [hsb]; exact hd, hlen⟩

/-- Witness for C8: seed `42`, ten draws, a zero-filled and a one-filled
local. -/
theorem C8_determinism_witness :
    (List.replicate 312 0).length = MTSTATESIZE ∧ (List.replicate 312 1).length = MTSTATESIZE ∧
    ∃ g vs gn, init_rng_int ⟨0, 0, List.replicate 312 0⟩ 42 = some g ∧
      init_rng_int ⟨1, 1, List.replicate 312 1⟩ 42 = some g ∧
      (init_rng_int ⟨0, 0, List.replicate 312 0⟩ 42).bind (drawList 10) = some (vs, gn) ∧
      (init_rng_int ⟨1, 1, List.replicate 312 1⟩ 42).bind (drawList 10) = some (vs, gn) ∧
      vs.length = 10 :=
  ⟨List.length_replicate 312 _, List.length_replicate 312 _,
    C8_determinism ⟨0, 0, List.replicate 312 0⟩ ⟨1, 1, List.replicate 312 1⟩ 42 10
      (List.length_replicate 312 _) (List.length_replicate 312 _)⟩

set_option maxRecDepth 10000 in
theorem first_output_42 :
    i64 (temper (twistWord (seedWord 42 0) (seedWord 42 1) (seedWord 42 156)))
      = -4516583221451431210 := by
  decide

/-- C9 (concrete vector): `init_rng_int 42` followed by one call of
`next_random_lint` returns `-4516583221451431210`, which as an unsigned
64-bit value is `13930160852258120406`. -/
theorem C9_concrete_vector_seed_42 (g0 : rng_int_type)
    (hg0 : g0.mtstate.length = MTSTATESIZE) :
    ∃ g g1, init_rng_int g0 42 = some g ∧
      next_random_lint g = some (-4516583221451431210, g1) ∧
      u64 (-4516583221451431210) = 13930160852258120406 := by
  obtain ⟨st, hst, hlen, hw⟩ := init_rng_int_spec g0 42 hg0
  obtain ⟨st1, w, hn, hw0, _, hA, _⟩ := next_random_lint_refill
    { seed := 42, mtidx := 313, mtstate := st } hlen (by simp)
  have hD : ∀ j, j < 312 → st.getD j 0 = seedWord 42 j := by
    intro j hj
    simp [hw j hj]
  have h0 := hA 0 (by omega)
  rw [hw0] at h0
  simp only [Option.some.injEq] at h0
  have hv : i64 (temper w) = -4516583221451431210 := by
    rw [h0]
    show i64 (temper (twistWord (st.getD 0 0) (st.getD (0 + 1) 0) (st.getD (0 + 156) 0))) = _
    rw [hD 0 (by omega), hD (0 + 1) (by omega), hD (0 + 156) (by omega)]
    exact first_output_42
  rw [hv] at hn
  exact ⟨_, _, hst, hn, by decide⟩

/-- Witness for C9: a zero-filled local. -/
theorem C9_concrete_vector_seed_42_witness :
    (List.replicate 312 0).length = MTSTATESIZE ∧
    ∃ g g1, init_rng_int ⟨0, 0, List.replicate 312 0⟩ 42 = some g ∧
      next_random_lint g = some (-4516583221451431210, g1) ∧
      u64 (-4516583221451431210) = 13930160852258120406 :=
  ⟨List.length_replicate 312 _,
    C9_concrete_vector_seed_42 ⟨0, 0, List.replicate 312 0⟩ (List.length_replicate 312 _)⟩

/-- C10 (uniform-layer round trip): for every uniform-generator state `u`
(`lower` and `upper` arbitrary 64-bit patterns, any embedded integer-generator
state) and whatever the locals of the decoders held before,
`get_random_state_uniform u` succeeds, its result is a C string, and
`restore_rng_state_uniform` applied to that string returns `u` itself:
identical bit patterns of `lower` and `upper` and the same embedded integer
generator. -/
theorem C10_uniform_round_trip (u : rng_uniform_type) (frame : uniform_frame) (hu : u.WF)
    (hf : frame.callee.rng_int.mtstate.length = MTSTATESIZE) :
    ∃ block text, get_random_state_uniform u = some block ∧ cstr block = some text ∧
      restore_rng_state_uniform frame text = some u := by
  have hl : u.rng_int.mtstate.length = 312 := hu.2.2.2.2.2.2.1
  exact ⟨_, _, get_random_state_uniform_eq u hl, cstr_block_of _ 0 (uniform_text_no_NUL u),
    restore_rng_state_uniform_text frame u hu hf⟩

/-- Witness for C10: bounds `2.0` and `-5.0` as bit patterns. -/
theorem C10_uniform_round_trip_witness :
    rng_uniform_type.WF ⟨0x4000000000000000, 0xC014000000000000,
      ⟨-42, 313, List.replicate 312 7⟩⟩ ∧
    (List.replicate 312 0).length = MTSTATESIZE ∧
    ∃ block text, get_random_state_uniform ⟨0x4000000000000000, 0xC014000000000000,
        ⟨-42, 313, List.replicate 312 7⟩⟩ = some block ∧
      cstr block = some text ∧
      restore_rng_state_uniform
        ⟨⟨0, 0, ⟨0, 0, []⟩⟩, 'x', ⟨⟨0, 0, List.replicate 312 0⟩, 'x'⟩⟩ text
        = some ⟨0x4000000000000000, 0xC014000000000000, ⟨-42, 313, List.replicate 312 7⟩⟩ :=
  ⟨⟨by decide, by decide,
      WF_replicate _ _ _ (by decide) (by decide) (by decide) (by decide) (by decide)⟩,
    List.length_replicate 312 _,
    C10_uniform_round_trip
      ⟨0x4000000000000000, 0xC014000000000000, ⟨-42, 313, List.replicate 312 7⟩⟩
      ⟨⟨0, 0, ⟨0, 0, []⟩⟩, 'x', ⟨⟨0, 0, List.replicate 312 0⟩, 'x'⟩⟩
      ⟨by decide, by decide,
        WF_replicate _ _ _ (by decide) (by decide) (by decide) (by decide) (by decide)⟩
      (List.length_replicate 312 _)⟩

/-! ## The Gaussian layer: state text -/

theorem fmt_x_9_form (v : Nat) :
    ∃ m, fmt_x 9 v = ' ' :: (List.replicate m ' ' ++ toHex 8 (v % 2 ^ 32)) ∧
      (fmt_x 9 v).length = 9 := by
  have hv : v % 2 ^ 32 < 16 ^ 8 := Nat.mod_lt _ (by decide)
  obtain ⟨h1, h2⟩ := toHex_length 8 (v % 2 ^ 32) (by decide) hv
  refine ⟨8 - (toHex 8 (v % 2 ^ 32)).length, ?_, ?_⟩
  · unfold fmt_x padLeft
    have : 9 - (toHex 8 (v % 2 ^ 32)).length
        = (8 - (toHex 8 (v % 2 ^ 32)).length) + 1 := by omega
    rw [this, List.replicate_succ, List.cons_append]
  · unfold fmt_x padLeft
    rw [List.length_append, List.length_replicate]
    omega

theorem sscanf_lx_9_field (v x : Nat) (rest : List Char) (hstop : Stops rest) :
    sscanf_lx 9 (fmt_x 9 v ++ rest) x = v % 2 ^ 32 := by
  obtain ⟨m, hm, _⟩ := fmt_x_9_form v
  have h8 : v % 2 ^ 32 < 16 ^ 8 := Nat.mod_lt _ (by decide)
  have : fmt_x 9 v ++ rest
      = List.replicate (m + 1) ' ' ++ (toHex 8 (v % 2 ^ 32) ++ rest) := by
    rw [hm, List.replicate_succ]
    simp only [List.append_assoc, List.cons_append]
  unfold sscanf_lx
  rw [this, scan_lx_toHex 9 8 (m + 1) (v % 2 ^ 32) rest (by decide) h8 (by decide)
    (by decide) hstop]

theorem fmt_lx_17_length (v : Nat) : (fmt_lx 17 v).length = 17 :=
  (fmt_lx_17_form v).choose_spec.2

theorem fmt_x_8_length (v : Nat) : (fmt_x 8 v).length = 8 :=
  (fmt_x_8_form v).choose_spec.2

theorem fmt_x_9_length (v : Nat) : (fmt_x 9 v).length = 9 :=
  (fmt_x_9_form v).choose_spec.2

theorem fmt_lx_17_stops (v : Nat) (rest : List Char) : Stops (fmt_lx 17 v ++ rest) := by
  obtain ⟨m, hm, _⟩ := fmt_lx_17_form v
  right
  exact ⟨_, by rw [hm, List.cons_append]⟩

theorem fmt_x_9_stops (v : Nat) (rest : List Char) : Stops (fmt_x 9 v ++ rest) := by
  obtain ⟨m, hm, _⟩ := fmt_x_9_form v
  right
  exact ⟨_, by rw [hm, List.cons_append]⟩

theorem uniform_text_length (u : rng_uniform_type) :
    (uniform_text u).length = 36 + 19 + 17 * u.rng_int.mtstate.length := by
  simp only [uniform_text, List.length_append, List.length_cons, List.length_nil,
    fmt_lx_17_length, int_text_length]
  omega

theorem gaussian_text_length (g : rng_gaussian_type) :
    (gaussian_text g).length = 79 + 36 + 19 + 17 * g.rng_uniform.rng_int.mtstate.length := by
  simp only [gaussian_text, List.length_append, List.length_cons, List.length_nil,
    fmt_lx_17_length, fmt_x_9_length, uniform_text_length]
  omega

theorem gaussian_text_no_NUL (g : rng_gaussian_type) : ∀ c ∈ gaussian_text g, c ≠ NUL := by
  intro c hc
  simp only [gaussian_text, List.mem_append, List.mem_cons, List.mem_singleton,
    List.not_mem_nil, or_false] at hc
  rcases hc with (((((hc | hc) | hc) | hc) | hc) | (hc | hc)) | hc
  · rw [hc]; decide
  · exact fmt_lx_no_NUL 17 _ c hc
  · exact fmt_lx_no_NUL 17 _ c hc
  · exact fmt_lx_no_NUL 17 _ c hc
  · exact fmt_lx_no_NUL 17 _ c hc
  · exact fmt_x_no_NUL 9 _ c hc
  · rw [hc]; exact space_ne_NUL
  · exact uniform_text_no_NUL _ c hc

theorem store_str_at (t f : List Char) (m n : Nat) (hn : t.length = n) (h : f.length ≤ m) :
    store_str (block_of t m) n f = some (block_of (t ++ f) (m - f.length)) := by
  subst hn
  exact store_str_block_of t f m h

theorem get_random_state_gaussian_eq (g : rng_gaussian_type)
    (hl : g.rng_uniform.rng_int.mtstate.length = 312) :
    get_random_state_gaussian g = some (block_of (gaussian_text g) 0) := by
  have h1 : store_str (malloc GAUSS_STATELENGTH) 0 (['G'] ++ fmt_lx 17 g.mean)
      = some (block_of (['G'] ++ fmt_lx 17 g.mean) 5420) := by
    have hlen : (['G'] ++ fmt_lx 17 g.mean).length = 18 := by
      rw [List.length_append, fmt_lx_17_length]; rfl
    rw [store_str_malloc _ _ (by rw [hlen]; decide), hlen]
    rfl
  have h2 : store_str (block_of (['G'] ++ fmt_lx 17 g.mean) 5420) 18 (fmt_lx 17 g.stddev)
      = some (block_of (['G'] ++ fmt_lx 17 g.mean ++ fmt_lx 17 g.stddev) 5403) := by
    rw [store_str_at _ _ 5420 18 (by simp [fmt_lx_17_length])
      (by rw [fmt_lx_17_length]; decide), fmt_lx_17_length]
  have h3 : store_str (block_of (['G'] ++ fmt_lx 17 g.mean ++ fmt_lx 17 g.stddev) 5403) 35
      (fmt_lx 17 g.z1)
      = some (block_of (['G'] ++ fmt_lx 17 g.mean ++ fmt_lx 17 g.stddev
          ++ fmt_lx 17 g.z1) 5386) := by
    rw [store_str_at _ _ 5403 35 (by simp [fmt_lx_17_length])
      (by rw [fmt_lx_17_length]; decide), fmt_lx_17_length]
  have h4 : store_str (block_of (['G'] ++ fmt_lx 17 g.mean ++ fmt_lx 17 g.stddev
        ++ fmt_lx 17 g.z1) 5386) 52 (fmt_lx 17 g.z2)
      = some (block_of (['G'] ++ fmt_lx 17 g.mean ++ fmt_lx 17 g.stddev
          ++ fmt_lx 17 g.z1 ++ fmt_lx 17 g.z2) 5369) := by
    rw [store_str_at _ _ 5386 52 (by simp [fmt_lx_17_length])
      (by rw [fmt_lx_17_length]; decide), fmt_lx_17_length]
  have h5 : store_str (block_of (['G'] ++ fmt_lx 17 g.mean ++ fmt_lx 17 g.stddev
        ++ fmt_lx 17 g.z1 ++ fmt_lx 17 g.z2) 5369) 69
        (fmt_x 9 (flag_bytes g % 2 ^ 32) ++ [' '])
      = some (block_of (['G'] ++ fmt_lx 17 g.mean ++ fmt_lx 17 g.stddev
          ++ fmt_lx 17 g.z1 ++ fmt_lx 17 g.z2
          ++ (fmt_x 9 (flag_bytes g % 2 ^ 32) ++ [' '])) 5359) := by
    have hlen : (fmt_x 9 (flag_bytes g % 2 ^ 32) ++ [' ']).length = 10 := by
      rw [List.length_append, fmt_x_9_length]; rfl
    rw [store_str_at _ _ 5369 69 (by simp [fmt_lx_17_length])
      (by rw [hlen]; decide), hlen]
  have h6 : store_str (block_of (['G'] ++ fmt_lx 17 g.mean ++ fmt_lx 17 g.stddev
          ++ fmt_lx 17 g.z1 ++ fmt_lx 17 g.z2
          ++ (fmt_x 9 (flag_bytes g % 2 ^ 32) ++ [' '])) 5359) 79
        (uniform_text g.rng_uniform)
      = some (block_of (gaussian_text g) 0) := by
    have hlen : (uniform_text g.rng_uniform).length = 5359 := by
      rw [uniform_text_length, hl]
    rw [store_str_at _ _ 5359 79 (by simp [fmt_lx_17_length, fmt_x_9_length])
      (by rw [hlen]), hlen]
    rfl
  unfold get_random_state_gaussian
  simp only [h1, h2, h3, h4, h5, get_random_state_uniform_eq g.rng_uniform hl,
    cstr_block_of _ 0 (uniform_text_no_NUL g.rng_uniform), h6, Option.bind_eq_bind,
    Option.some_bind]

theorem sscanf_c_cons (c : Char) (s : List Char) (r : Char) : sscanf_c (c :: s) r = c := rfl

theorem restore_rng_state_gaussian_G (frame : gaussian_frame) (t : List Char) :
    restore_rng_state_gaussian frame ('G' :: t) =
      match restore_rng_state_uniform frame.callee
          ((((((t.drop 17).drop 17).drop 17).drop 17).drop 9).drop 1) with
      | none => none
      | some rng_uniform =>
        some { mean := sscanf_lx 17 t frame.rng_gaussian.mean,
               stddev := sscanf_lx 17 (t.drop 17) frame.rng_gaussian.stddev,
               z1 := sscanf_lx 17 ((t.drop 17).drop 17) frame.rng_gaussian.z1,
               z2 := sscanf_lx 17 (((t.drop 17).drop 17).drop 17) frame.rng_gaussian.z2,
               generated := decide (sscanf_lx 9 ((((t.drop 17).drop 17).drop 17).drop 17)
                 (flag_bytes frame.rng_gaussian) % 256 ≠ 0),
               pad := sscanf_lx 9 ((((t.drop 17).drop 17).drop 17).drop 17)
                 (flag_bytes frame.rng_gaussian) / 256,
               rng_uniform := rng_uniform } := by
  unfold restore_rng_state_gaussian
  rw [sscanf_c_cons, if_neg (by decide)]
  rfl

theorem restore_rng_state_gaussian_text (frame : gaussian_frame) (g : rng_gaussian_type)
    (hg : g.WF) (hf : frame.callee.callee.rng_int.mtstate.length = 312) :
    restore_rng_state_gaussian frame (gaussian_text g)
      = some { g with pad := flag_bytes g % 2 ^ 32 / 256 } := by
  obtain ⟨hmean, hstd, hz1, hz2, hu⟩ := hg
  have htext : gaussian_text g = 'G' ::
      (fmt_lx 17 g.mean ++ (fmt_lx 17 g.stddev ++ (fmt_lx 17 g.z1 ++ (fmt_lx 17 g.z2
        ++ (fmt_x 9 (flag_bytes g % 2 ^ 32) ++ ' ' :: uniform_text g.rng_uniform))))) := by
    simp only [gaussian_text, List.cons_append, List.nil_append, List.append_assoc]
  have hd1 : ∀ (v : Nat) (r : List Char), (fmt_lx 17 v ++ r).drop 17 = r :=
    fun v r => List.drop_left' (fmt_lx_17_length v)
  have hd2 : ∀ (v : Nat) (r : List Char), (fmt_x 9 v ++ r).drop 9 = r :=
    fun v r => List.drop_left' (fmt_x_9_length v)
  have hflag : decide ((flag_bytes g % 2 ^ 32) % 256 ≠ 0) = g.generated := by
    unfold flag_bytes
    cases g.generated
    · have : ((if false = true then 1 else 0) + 256 * g.pad) % 2 ^ 32 % 256 = 0 := by
        rw [if_neg (by decide)]
        omega
      rw [this]
      rfl
    · have : ((if true = true then 1 else 0) + 256 * g.pad) % 2 ^ 32 % 256 = 1 := by
        rw [if_pos rfl]
        omega
      rw [this]
      rfl
  have e1 := sscanf_lx_17_field g.mean frame.rng_gaussian.mean _ hmean
    (fmt_lx_17_stops g.stddev (fmt_lx 17 g.z1 ++ (fmt_lx 17 g.z2
        ++ (fmt_x 9 (flag_bytes g % 2 ^ 32) ++ ' ' :: uniform_text g.rng_uniform))))
  have e2 := sscanf_lx_17_field g.stddev frame.rng_gaussian.stddev _ hstd
    (fmt_lx_17_stops g.z1 (fmt_lx 17 g.z2
        ++ (fmt_x 9 (flag_bytes g % 2 ^ 32) ++ ' ' :: uniform_text g.rng_uniform)))
  have e3 := sscanf_lx_17_field g.z1 frame.rng_gaussian.z1 _ hz1
    (fmt_lx_17_stops g.z2 (fmt_x 9 (flag_bytes g % 2 ^ 32) ++ ' ' :: uniform_text g.rng_uniform))
  have e4 := sscanf_lx_17_field g.z2 frame.rng_gaussian.z2 _ hz2
    (fmt_x_9_stops (flag_bytes g % 2 ^ 32) (' ' :: uniform_text g.rng_uniform))
  have e5 := sscanf_lx_9_field (flag_bytes g % 2 ^ 32) (flag_bytes frame.rng_gaussian)
    (' ' :: uniform_text g.rng_uniform) (Or.inr ⟨_, rfl⟩)
  rw [Nat.mod_mod] at e5
  have e6 := restore_rng_state_uniform_text frame.callee g.rng_uniform hu hf
  rw [htext, restore_rng_state_gaussian_G, hd1, hd1, hd1, hd1, hd2, e1, e2, e3, e4, e5]
  simp only [List.drop_succ_cons, List.drop_zero, e6, hflag]

/-! ## When the restore functions abort -/

theorem restore_words_some (st : List Nat) (p : List Char) (hst : st.length = 312) :
    ∃ r, forRange 0 MTSTATESIZE restore_int_step (st, p) = some r := by
  obtain ⟨r, hr, _⟩ := forRange_inv restore_int_step (fun _ s => s.1.length = 312)
    0 MTSTATESIZE (by decide) (st, p) hst
    (by
      intro j t _ hj2 hP
      have hj : j < 312 := hj2
      have hl : t.1.length = 312 := hP
      have hr : rd t.1 (j : Int) = some (t.1.getD j 0) := by
        rw [rd_of_eq _ _ j rfl hj]
        exact getElem?_getD_of_lt _ _ (by omega)
      refine ⟨(t.1.set j (sscanf_lx 17 t.2 (t.1.getD j 0)), t.2.drop 17), ?_, ?_⟩
      · simp only [restore_int_step, hr, Option.bind_eq_bind, Option.some_bind]
        rw [wr_of_eq _ _ j _ rfl hj hl]
        rfl
      · simp [hl])
  exact ⟨r, hr⟩

theorem restore_rng_state_int_none_iff (frame : int_frame) (s : List Char)
    (hf : frame.rng_int.mtstate.length = 312) :
    restore_rng_state_int frame s = none ↔ sscanf_c s frame.rngt ≠ 'I' := by
  obtain ⟨r, hr⟩ := restore_words_some frame.rng_int.mtstate ((s.drop 2).drop 18) hf
  unfold restore_rng_state_int
  by_cases h : sscanf_c s frame.rngt = 'I'
  · simp only [h, ne_eq, not_true_eq_false, if_false, hr]
    simp
  · simp only [ne_eq, h, not_false_eq_true, if_true]

theorem restore_rng_state_uniform_none_iff (frame : uniform_frame) (s : List Char)
    (hf : frame.callee.rng_int.mtstate.length = 312) :
    restore_rng_state_uniform frame s = none ↔
      sscanf_c s frame.rngt ≠ 'U' ∨ sscanf_c (s.drop 36) frame.callee.rngt ≠ 'I' := by
  have hdrop : (((s.drop 1).drop 17).drop 17).drop 1 = s.drop 36 := by
    simp only [List.drop_drop]
  unfold restore_rng_state_uniform
  by_cases h : sscanf_c s frame.rngt = 'U'
  · simp only [h, ne_eq, not_true_eq_false, if_false, hdrop, false_or]
    have key := restore_rng_state_int_none_iff frame.callee (s.drop 36) hf
    simp only [ne_eq] at key
    rw [← key]
    cases restore_rng_state_int frame.callee (s.drop 36) <;> simp
  · simp only [ne_eq, h, not_false_eq_true, if_true, true_or]

theorem restore_rng_state_gaussian_none_iff (frame : gaussian_frame) (s : List Char)
    (hf : frame.callee.callee.rng_int.mtstate.length = 312) :
    restore_rng_state_gaussian frame s = none ↔
      sscanf_c s frame.rngt ≠ 'G' ∨ sscanf_c (s.drop 79) frame.callee.rngt ≠ 'U' ∨
        sscanf_c (s.drop 115) frame.callee.callee.rngt ≠ 'I' := by
  have hdrop : ((((((s.drop 1).drop 17).drop 17).drop 17).drop 17).drop 9).drop 1
      = s.drop 79 := by
    simp only [List.drop_drop]
  have hdrop2 : (s.drop 79).drop 36 = s.drop 115 := by
    simp only [List.drop_drop]
  unfold restore_rng_state_gaussian
  by_cases h : sscanf_c s frame.rngt = 'G'
  · simp only [h, ne_eq, not_true_eq_false, if_false, hdrop, false_or]
    have key := restore_rng_state_uniform_none_iff frame.callee (s.drop 79) hf
    rw [hdrop2] at key
    simp only [ne_eq] at key
    rw [← key]
    cases restore_rng_state_uniform frame.callee (s.drop 79) <;> simp
  · simp only [ne_eq, h, not_false_eq_true, if_true, true_or]

theorem sscanf_c_drop (s : List Char) (n : Nat) (r : Char) (h : n < s.length) :
    some (sscanf_c (s.drop n) r) = s[n]? := by
  rw [List.drop_eq_getElem_cons h, sscanf_c_cons, List.getElem?_eq_getElem h]

theorem sscanf_c_ne_iff (s : List Char) (n : Nat) (r c : Char) (h : n < s.length) :
    sscanf_c (s.drop n) r ≠ c ↔ s[n]? ≠ some c := by
  rw [← sscanf_c_drop s n r h]
  simp

/-! ## More on draws -/

theorem refill_seed (g : rng_int_type) (s : Int) :
    refill { g with seed := s } = (refill g).map (fun r => { r with seed := s }) := by
  rw [refill_eq, refill_eq]
  cases (forRange 0 (NN - MM) twist_lo g.mtstate).bind
    (fun t => (forRange (NN - MM) (NN - 1) twist_hi t).bind twist_last) <;> rfl

theorem next_random_lint_seed (g : rng_int_type) (s : Int) :
    next_random_lint { g with seed := s }
      = (next_random_lint g).map (fun p => (p.1, { p.2 with seed := s })) := by
  unfold next_random_lint
  by_cases h : g.mtidx > (NN : Int) - 2
  · simp only [h, if_true, refill_seed]
    cases refill g with
    | none => rfl
    | some r =>
      simp only [Option.map_some', Option.bind_eq_bind, Option.some_bind]
      cases rd r.mtstate (r.mtidx + 1) <;> rfl
  · simp only [h, if_false, Option.bind_eq_bind, Option.some_bind]
    cases rd g.mtstate (g.mtidx + 1) <;> rfl

/-- A draw that refills, in terms of `refill`. -/
theorem next_random_lint_refill_eq (g : rng_int_type) (hl : g.mtstate.length = 312)
    (h1 : 310 < g.mtidx) :
    ∃ r w, refill g = some r ∧ r.mtstate.length = 312 ∧ r.seed = g.seed ∧
      next_random_lint g = some (i64 (temper w), { r with mtidx := 0 }) := by
  obtain ⟨st, hst, hlen, _⟩ := refill_words g.mtstate hl
  have hw : st[0]? = some (st.getD 0 0) := getElem?_getD_of_lt _ _ (by omega)
  have hr : refill g = some { g with mtstate := st, mtidx := -1 } := by
    rw [refill_eq, hst]
    rfl
  refine ⟨{ g with mtstate := st, mtidx := -1 }, st.getD 0 0, hr, hlen, rfl, ?_⟩
  have hc : (if g.mtidx > (NN : Int) - 2 then refill g else some g)
      = some { g with mtstate := st, mtidx := -1 } := by
    have : g.mtidx > (NN : Int) - 2 := by simp only [NN, MTSTATESIZE]; omega
    rw [if_pos this, hr]
  have := next_random_lint_of_rd g _ (st.getD 0 0) hc
    (by
      show rd st (-1 + 1) = _
      rw [rd_of_eq st _ 0 (by simp) (by omega)]
      exact hw)
  rw [this]
  rfl

theorem draws_succ (n : Nat) : ∀ g : rng_int_type,
    draws (n + 1) g = (draws n g).bind (fun g1 => (next_random_lint g1).map Prod.snd) := by
  induction n with
  | zero =>
    intro g
    simp only [draws, Option.some_bind]
    cases h : next_random_lint g with
    | none => rfl
    | some p => rfl
  | succ n ih =>
    intro g
    rw [draws]
    cases h : next_random_lint g with
    | none => simp only [draws, h]; rfl
    | some p =>
      obtain ⟨v, g1⟩ := p
      simp only
      rw [ih g1]
      conv_rhs => rw [draws, h]

/-- The index after `n` draws from a freshly seeded state. -/
theorem draws_seeded_index (n : Nat) : ∀ (g : rng_int_type), g.mtstate.length = 312 →
    g.mtidx = 313 →
    ∃ gn, draws n g = some gn ∧ gn.mtstate.length = 312 ∧
      (n = 0 → gn.mtidx = 313) ∧ (1 ≤ n → gn.mtidx = (((n - 1) % 312 : Nat) : Int)) := by
  induction n with
  | zero =>
    intro g hl hi
    exact ⟨g, rfl, hl, fun _ => hi, fun h => absurd h (by decide)⟩
  | succ n ih =>
    intro g hl hi
    obtain ⟨gn, hd, hln, h0, h1⟩ := ih g hl hi
    have hidx : -1 ≤ gn.mtidx := by
      rcases Nat.eq_zero_or_pos n with hn | hn
      · rw [h0 hn]; decide
      · rw [h1 hn]; omega
    by_cases hc : gn.mtidx ≤ 310
    · obtain ⟨w, _, hnx⟩ := next_random_lint_plain gn hln hidx hc
      refine ⟨{ gn with mtidx := gn.mtidx + 1 }, ?_, hln, fun h => absurd h (by omega), ?_⟩
      · rw [draws_succ, hd]
        simp only [Option.some_bind, hnx, Option.map_some']
      · intro _
        have hn : 1 ≤ n := by
          rcases Nat.eq_zero_or_pos n with hn | hn
          · rw [h0 hn] at hc; omega
          · exact hn
        have := h1 hn
        simp only [Nat.add_sub_cancel]
        rw [this] at hc ⊢
        omega
    · obtain ⟨r, w, hr, hlr, _, hnx⟩ := next_random_lint_refill_eq gn hln (by omega)
      refine ⟨{ r with mtidx := 0 }, ?_, hlr, fun h => absurd h (by omega), ?_⟩
      · rw [draws_succ, hd]
        simp only [Option.some_bind, hnx, Option.map_some']
      · intro _
        simp only [Nat.add_sub_cancel]
        rcases Nat.eq_zero_or_pos n with hn | hn
        · subst hn; rfl
        · have := h1 hn
          rw [this] at hc
          have : n % 312 = 0 := by omega
          rw [this]
          rfl

/-! ## Uniform and Gaussian draws -/

/-- The value computed by `next_random_uniform` from the integer draw `r`. -/
theorem next_random_uniform_eq {D : Type} (F : FloatOps D) (u : rng_uniform_type) :
    next_random_uniform F u = (next_random_lint u.rng_int).map (fun p =>
      (F.add (F.mul (F.mul (INV2POW53MIN1 F) (F.of_nat (u64 p.1 >>> 11)))
          (F.sub (F.of_bits u.upper) (F.of_bits u.lower))) (F.of_bits u.lower),
        { u with rng_int := p.2 })) := by
  unfold next_random_uniform
  cases next_random_lint u.rng_int with
  | none => rfl
  | some p => rfl

theorem next_random_uniform_some {D : Type} (F : FloatOps D) (u : rng_uniform_type)
    (hl : u.rng_int.mtstate.length = 312) (hi : -1 ≤ u.rng_int.mtidx) :
    ∃ r g1 x, next_random_lint u.rng_int = some (r, g1) ∧
      next_random_uniform F u = some (x, { u with rng_int := g1 }) ∧
      g1.mtstate.length = 312 ∧ 0 ≤ g1.mtidx ∧ g1.mtidx ≤ 311 := by
  obtain ⟨v, g1, hn, hl1, ha, hb, _⟩ := next_random_lint_index u.rng_int hl hi
  refine ⟨v, g1, F.add (F.mul (F.mul (INV2POW53MIN1 F) (F.of_nat (u64 v >>> 11)))
    (F.sub (F.of_bits u.upper) (F.of_bits u.lower))) (F.of_bits u.lower), hn, ?_, hl1, ha, hb⟩
  rw [next_random_uniform_eq, hn]
  rfl

theorem double_val_one : double_val 0x3FF0000000000000 = 1 := by
  norm_num [double_val]

theorem double_val_zero : double_val 0 = 0 := by
  norm_num [double_val]

theorem double_val_two : double_val 0x4000000000000000 = 2 := by
  norm_num [double_val]

theorem double_val_five : double_val 0x4014000000000000 = 5 := by
  norm_num [double_val]

theorem double_val_epsilon : double_val DBL_EPSILON = 1 / 2 ^ 52 := by
  norm_num [double_val, DBL_EPSILON]

/-- With exact arithmetic `next_random_uniform` computes `uniform_exact`. -/
theorem next_random_uniform_exact (u : rng_uniform_type) :
    next_random_uniform exactOps u = (next_random_lint u.rng_int).map (fun p =>
      (uniform_exact (double_val u.lower) (double_val u.upper) (u64 p.1),
        { u with rng_int := p.2 })) := by
  rw [next_random_uniform_eq]
  cases next_random_lint u.rng_int with
  | none => rfl
  | some p =>
    simp only [Option.map_some', Option.some.injEq, Prod.mk.injEq, and_true]
    simp only [exactOps, INV2POW53MIN1, uniform_exact, double_val_one,
      Nat.shiftRight_eq_div_pow]
    push_cast
    ring

theorem shift11_bound (raw : Nat) (h : raw < 2 ^ 64) : raw / 2 ^ 11 ≤ 2 ^ 53 - 1 := by
  omega

theorem uniform_exact_bounds (lower upper : ℚ) (raw : Nat) (hraw : raw < 2 ^ 64)
    (hlu : lower ≤ upper) :
    lower ≤ uniform_exact lower upper raw ∧ uniform_exact lower upper raw ≤ upper := by
  have hk : ((raw / 2 ^ 11 : Nat) : ℚ) ≤ 2 ^ 53 - 1 := by
    have := shift11_bound raw hraw
    have h2 : ((raw / 2 ^ 11 : Nat) : ℚ) ≤ ((2 ^ 53 - 1 : Nat) : ℚ) := by exact_mod_cast this
    have h3 : ((2 ^ 53 - 1 : Nat) : ℚ) = 2 ^ 53 - 1 := by norm_num
    rw [h3] at h2
    exact h2
  have hk0 : (0 : ℚ) ≤ ((raw / 2 ^ 11 : Nat) : ℚ) := Nat.cast_nonneg _
  have hpos : (0 : ℚ) < 2 ^ 53 - 1 := by norm_num
  have hf0 : (0 : ℚ) ≤ ((raw / 2 ^ 11 : Nat) : ℚ) / (2 ^ 53 - 1) := div_nonneg hk0 hpos.le
  have hf1 : ((raw / 2 ^ 11 : Nat) : ℚ) / (2 ^ 53 - 1) ≤ 1 := by
    rw [div_le_one hpos]
    exact hk
  have hd : (0 : ℚ) ≤ upper - lower := by linarith
  unfold uniform_exact
  constructor
  · nlinarith [mul_nonneg hf0 hd]
  · nlinarith [mul_le_mul_of_nonneg_right hf1 hd]

theorem uniform_draws_eq {D : Type} (F : FloatOps D) (n : Nat) : ∀ u : rng_uniform_type,
    uniform_draws F n u = (draws n u.rng_int).map (fun g => { u with rng_int := g }) := by
  induction n with
  | zero => intro u; rfl
  | succ n ih =>
    intro u
    rw [uniform_draws, draws, next_random_uniform_eq]
    cases next_random_lint u.rng_int with
    | none => rfl
    | some p =>
      obtain ⟨v, g1⟩ := p
      simp only [Option.map_some']
      rw [ih]

theorem gaussian_reject_accept {D : Type} (F : FloatOps D) (fuel : Nat) (u1 u2 : D)
    (st : rng_uniform_type) (h : F.le u1 (F.of_bits DBL_EPSILON) = false) :
    gaussian_reject F fuel u1 u2 st = some (u1, u2, st) := by
  cases fuel with
  | zero => simp [gaussian_reject, h]
  | succ f => simp [gaussian_reject, h]

/-- The rejection loop consumes an even number of uniform draws. -/
theorem gaussian_reject_draws {D : Type} (F : FloatOps D) (fuel : Nat) :
    ∀ (u1 u2 : D) (st : rng_uniform_type) (a b : D) (st1 : rng_uniform_type),
      gaussian_reject F fuel u1 u2 st = some (a, b, st1) →
      F.le a (F.of_bits DBL_EPSILON) = false ∧
        ∃ r, r ≤ fuel ∧ uniform_draws F (2 * r) st = some st1 := by
  induction fuel with
  | zero =>
    intro u1 u2 st a b st1 h
    by_cases hc : F.le u1 (F.of_bits DBL_EPSILON) = true
    · simp [gaussian_reject, hc] at h
    · simp only [gaussian_reject, hc, if_false, Option.some.injEq, Prod.mk.injEq] at h
      obtain ⟨rfl, rfl, rfl⟩ := h
      exact ⟨by simpa using hc, 0, Nat.le_refl 0, rfl⟩
  | succ f ih =>
    intro u1 u2 st a b st1 h
    by_cases hc : F.le u1 (F.of_bits DBL_EPSILON) = true
    · simp only [gaussian_reject, hc, if_true] at h
      cases h1 : next_random_uniform F st with
      | none => simp [h1] at h
      | some p1 =>
        obtain ⟨v1, s1⟩ := p1
        simp only [h1] at h
        cases h2 : next_random_uniform F s1 with
        | none => simp [h2] at h
        | some p2 =>
          obtain ⟨v2, s2⟩ := p2
          simp only [h2] at h
          obtain ⟨hacc, r, hr, hd⟩ := ih v1 v2 s2 a b st1 h
          refine ⟨hacc, r + 1, by omega, ?_⟩
          have : 2 * (r + 1) = 2 * r + 1 + 1 := by ring
          rw [this, uniform_draws, h1]
          simp only
          rw [uniform_draws, h2]
          exact hd
    · simp only [gaussian_reject, hc, if_false, Option.some.injEq, Prod.mk.injEq] at h
      obtain ⟨rfl, rfl, rfl⟩ := h
      exact ⟨by simpa using hc, 0, Nat.zero_le _, rfl⟩

theorem next_random_gaussian_hit {D : Type} (F : FloatOps D) (L : Libm D) (fuel : Nat)
    (g : rng_gaussian_type) (h : g.generated = true) :
    next_random_gaussian F L fuel g
      = some (F.add (F.mul (F.of_bits g.z2) (F.of_bits g.stddev)) (F.of_bits g.mean),
          { g with generated := false }) := by
  unfold next_random_gaussian
  rw [if_pos h]

/-- A call with the flag clear, in terms of the two first draws and the
rejection loop. -/
theorem next_random_gaussian_miss {D : Type} (F : FloatOps D) (L : Libm D) (fuel : Nat)
    (g : rng_gaussian_type) (h : g.generated = false) (u1 u2 a b : D)
    (st1 st2 st : rng_uniform_type)
    (h1 : next_random_uniform F g.rng_uniform = some (u1, st1))
    (h2 : next_random_uniform F st1 = some (u2, st2))
    (h3 : gaussian_reject F fuel u1 u2 st2 = some (a, b, st)) :
    ∃ v z1 z2, next_random_gaussian F L fuel g
      = some (v, { g with rng_uniform := st, z1 := z1, z2 := z2, generated := true }) := by
  unfold next_random_gaussian
  rw [if_neg (by rw [h]; decide)]
  simp only [h1, h2, h3]
  exact ⟨_, _, _, rfl⟩

theorem temper_all_ones_word : temper all_ones_word = 2 ^ 64 - 1 := by decide

theorem temper_zero : temper 0 = 0 := by decide

theorem uniform_draws_add {D : Type} (F : FloatOps D) (m n : Nat) : ∀ u : rng_uniform_type,
    uniform_draws F (m + n) u = (uniform_draws F m u).bind (uniform_draws F n) := by
  induction m with
  | zero => intro u; simp [uniform_draws]
  | succ m ih =>
    intro u
    have : m + 1 + n = (m + n) + 1 := by omega
    rw [this, uniform_draws, uniform_draws]
    cases next_random_uniform F u with
    | none => rfl
    | some p => exact ih p.2

/-- An exact uniform draw that does not refill. -/
theorem next_random_uniform_exact_plain (u : rng_uniform_type) (w : Nat)
    (hl : u.rng_int.mtstate.length = 312) (h1 : -1 ≤ u.rng_int.mtidx)
    (h2 : u.rng_int.mtidx ≤ 310)
    (hw : u.rng_int.mtstate[(u.rng_int.mtidx + 1).toNat]? = some w) :
    next_random_uniform exactOps u
      = some (uniform_exact (double_val u.lower) (double_val u.upper) (u64 (i64 (temper w))),
          { u with rng_int := { u.rng_int with mtidx := u.rng_int.mtidx + 1 } }) := by
  obtain ⟨w1, hw1, hn⟩ := next_random_lint_plain u.rng_int hl h1 h2
  rw [hw] at hw1
  simp only [Option.some.injEq] at hw1
  subst hw1
  rw [next_random_uniform_exact, hn]
  rfl

theorem uniform_exact_zero_one_top :
    uniform_exact 0 1 (u64 (i64 (temper all_ones_word))) = 1 := by
  rw [temper_all_ones_word, u64_i64 _ (by decide)]
  norm_num [uniform_exact]

theorem uniform_exact_zero_one_zero : uniform_exact 0 1 (u64 (i64 (temper 0))) = 0 := by
  rw [temper_zero, u64_i64 _ (by decide)]
  norm_num [uniform_exact]

theorem uniform_exact_two_five_top :
    uniform_exact 2 5 (u64 (i64 (temper all_ones_word))) = 5 := by
  rw [temper_all_ones_word, u64_i64 _ (by decide)]
  norm_num [uniform_exact]

theorem exact_le_epsilon_zero : exactOps.le 0 (exactOps.of_bits DBL_EPSILON) = true := by
  show decide ((0 : ℚ) ≤ double_val DBL_EPSILON) = true
  rw [double_val_epsilon]
  norm_num

theorem exact_le_epsilon_one : exactOps.le 1 (exactOps.of_bits DBL_EPSILON) = false := by
  show decide ((1 : ℚ) ≤ double_val DBL_EPSILON) = false
  rw [double_val_epsilon]
  norm_num

/-! ## The claims, continued -/

/-- C11 (Gaussian-layer round trip): for every Gaussian-generator state `G`
(`mean`, `stddev`, `z1`, `z2` arbitrary 64-bit patterns, flag true or false,
arbitrary padding after the flag, any embedded uniform-generator state) and
whatever the locals of the decoders held before, `get_random_state_gaussian G`
succeeds, its result is a C string, and `restore_rng_state_gaussian` applied
to that string returns a state with identical patterns of `mean`, `stddev`,
`z1` and `z2`, the same flag and the same embedded uniform generator. -/
theorem C11_gaussian_round_trip (g : rng_gaussian_type) (frame : gaussian_frame) (hg : g.WF)
    (hf : frame.callee.callee.rng_int.mtstate.length = MTSTATESIZE) :
    ∃ block text g1, get_random_state_gaussian g = some block ∧ cstr block = some text ∧
      restore_rng_state_gaussian frame text = some g1 ∧
      g1.mean = g.mean ∧ g1.stddev = g.stddev ∧ g1.z1 = g.z1 ∧ g1.z2 = g.z2 ∧
      g1.generated = g.generated ∧ g1.rng_uniform = g.rng_uniform := by
  have hl : g.rng_uniform.rng_int.mtstate.length = 312 := hg.2.2.2.2.2.2.2.2.2.2.1
  exact ⟨_, _, _, get_random_state_gaussian_eq g hl,
    cstr_block_of _ 0 (gaussian_text_no_NUL g),
    restore_rng_state_gaussian_text frame g hg hf, rfl, rfl, rfl, rfl, rfl, rfl⟩

/-- Witness for C11: flag set, non-zero padding after the flag. -/
theorem C11_gaussian_round_trip_witness :
    rng_gaussian_type.WF ⟨0x4000000000000000, 0x3FF0000000000000, 7, 9, true, 0xABABAB,
      ⟨0, 0x3FF0000000000000, ⟨-42, 313, List.replicate 312 7⟩⟩⟩ ∧
    (List.replicate 312 0).length = MTSTATESIZE ∧
    ∃ block text g1,
      get_random_state_gaussian ⟨0x4000000000000000, 0x3FF0000000000000, 7, 9, true, 0xABABAB,
        ⟨0, 0x3FF0000000000000, ⟨-42, 313, List.replicate 312 7⟩⟩⟩ = some block ∧
      cstr block = some text ∧
      restore_rng_state_gaussian
        ⟨⟨0, 0, 0, 0, false, 0, ⟨0, 0, ⟨0, 0, []⟩⟩⟩, 'x',
          ⟨⟨0, 0, ⟨0, 0, []⟩⟩, 'x', ⟨⟨0, 0, List.replicate 312 0⟩, 'x'⟩⟩⟩ text = some g1 ∧
      g1.mean = 0x4000000000000000 ∧ g1.stddev = 0x3FF0000000000000 ∧ g1.z1 = 7 ∧ g1.z2 = 9 ∧
      g1.generated = true ∧
      g1.rng_uniform = ⟨0, 0x3FF0000000000000, ⟨-42, 313, List.replicate 312 7⟩⟩ :=
  ⟨⟨by decide, by decide, by decide, by decide, by decide, by decide,
      WF_replicate _ _ _ (by decide) (by decide) (by decide) (by decide) (by decide)⟩,
    List.length_replicate 312 _,
    C11_gaussian_round_trip
      ⟨0x4000000000000000, 0x3FF0000000000000, 7, 9, true, 0xABABAB,
        ⟨0, 0x3FF0000000000000, ⟨-42, 313, List.replicate 312 7⟩⟩⟩
      ⟨⟨0, 0, 0, 0, false, 0, ⟨0, 0, ⟨0, 0, []⟩⟩⟩, 'x',
        ⟨⟨0, 0, ⟨0, 0, []⟩⟩, 'x', ⟨⟨0, 0, List.replicate 312 0⟩, 'x'⟩⟩⟩
      ⟨by decide, by decide, by decide, by decide, by decide, by decide,
        WF_replicate _ _ _ (by decide) (by decide) (by decide) (by decide) (by decide)⟩
      (List.length_replicate 312 _)⟩

/-- C12 (tag mismatch is fatal): a text whose first character is not `I`
(respectively `U`, `G`) makes `restore_rng_state_int` (respectively
`restore_rng_state_uniform`, `restore_rng_state_gaussian`) call `abort()`,
whatever follows and whatever the locals held; in particular every text that
begins with `G` makes `restore_rng_state_uniform` abort. -/
theorem C12_tag_mismatch_aborts (fi : int_frame) (fu : uniform_frame) (fg : gaussian_frame)
    (ci cu cg : Char) (rest : List Char) (hi : ci ≠ 'I') (hu : cu ≠ 'U') (hg : cg ≠ 'G') :
    restore_rng_state_int fi (ci :: rest) = none ∧
    restore_rng_state_uniform fu (cu :: rest) = none ∧
    restore_rng_state_gaussian fg (cg :: rest) = none ∧
    restore_rng_state_uniform fu ('G' :: rest) = none := by
  refine ⟨?_, ?_, ?_, ?_⟩
  · unfold restore_rng_state_int
    rw [sscanf_c_cons, if_pos hi]
  · unfold restore_rng_state_uniform
    rw [sscanf_c_cons, if_pos hu]
  · unfold restore_rng_state_gaussian
    rw [sscanf_c_cons, if_pos hg]
  · unfold restore_rng_state_uniform
    rw [sscanf_c_cons, if_pos (by decide)]

/-- Witness for C12: texts that begin with `U`, `G` and `I`. -/
theorem C12_tag_mismatch_aborts_witness :
    'U' ≠ 'I' ∧ 'G' ≠ 'U' ∧ 'I' ≠ 'G' ∧
    restore_rng_state_int ⟨⟨0, 0, []⟩, 'I'⟩ ('U' :: [' ', '1']) = none ∧
    restore_rng_state_uniform ⟨⟨0, 0, ⟨0, 0, []⟩⟩, 'U', ⟨⟨0, 0, []⟩, 'I'⟩⟩
      ('G' :: [' ', '1']) = none ∧
    restore_rng_state_gaussian
      ⟨⟨0, 0, 0, 0, false, 0, ⟨0, 0, ⟨0, 0, []⟩⟩⟩, 'G',
        ⟨⟨0, 0, ⟨0, 0, []⟩⟩, 'U', ⟨⟨0, 0, []⟩, 'I'⟩⟩⟩ ('I' :: [' ', '1']) = none ∧
    restore_rng_state_uniform ⟨⟨0, 0, ⟨0, 0, []⟩⟩, 'U', ⟨⟨0, 0, []⟩, 'I'⟩⟩
      ('G' :: [' ', '1']) = none :=
  ⟨by decide, by decide, by decide,
    C12_tag_mismatch_aborts ⟨⟨0, 0, []⟩, 'I'⟩
      ⟨⟨0, 0, ⟨0, 0, []⟩⟩, 'U', ⟨⟨0, 0, []⟩, 'I'⟩⟩
      ⟨⟨0, 0, 0, 0, false, 0, ⟨0, 0, ⟨0, 0, []⟩⟩⟩, 'G',
        ⟨⟨0, 0, ⟨0, 0, []⟩⟩, 'U', ⟨⟨0, 0, []⟩, 'I'⟩⟩⟩
      'U' 'G' 'I' [' ', '1'] (by decide) (by decide) (by decide)⟩

theorem top_uniform_draw :
    next_random_uniform exactOps top_uniform
      = some (5, { top_uniform with rng_int := { top_uniform.rng_int with mtidx := 1 } }) := by
  have h := next_random_uniform_exact_plain top_uniform all_ones_word
    (List.length_replicate 312 _) (by decide) (by decide)
    (List.getElem?_replicate_of_lt (by decide))
  rw [h]
  have hv : uniform_exact (double_val top_uniform.lower) (double_val top_uniform.upper)
      (u64 (i64 (temper all_ones_word))) = 5 := by
    show uniform_exact (double_val 0x4000000000000000) (double_val 0x4014000000000000) _ = 5
    rw [double_val_two, double_val_five]
    exact uniform_exact_two_five_top
  rw [hv]
  rfl

/-- C13 as stated fails: with `lower = 2.0`, `upper = 5.0`, index `0` and all
state words equal to `0x03A9803FEAA40155` the integer draw is `2^64 - 1` and
the exact value returned by `next_random_uniform` is `5`, which is not below
`5`. -/
theorem C13_upper_bound_is_attained :
    ∃ x u1, next_random_uniform exactOps top_uniform = some (x, u1) ∧ ¬ x < 5 :=
  ⟨5, _, top_uniform_draw, by norm_num⟩

/-- C13 (amended): for every uniform-generator state with `lower = 2.0`,
`upper = 5.0` and embedded index in `[-1, 311]` (arbitrary state words), the
value `x` returned by `next_random_uniform`, computed exactly over the
rationals as `frac = (raw >> 11) / (2^53 - 1)`,
`x = frac * (upper - lower) + lower`, satisfies `2 ≤ x ≤ 5`. -/
theorem C13_uniform_range_closed (u : rng_uniform_type)
    (hlo : u.lower = 0x4000000000000000) (hup : u.upper = 0x4014000000000000)
    (hl : u.rng_int.mtstate.length = MTSTATESIZE)
    (h1 : -1 ≤ u.rng_int.mtidx) (_h2 : u.rng_int.mtidx ≤ 311) :
    ∃ x v g1, next_random_lint u.rng_int = some (v, g1) ∧
      next_random_uniform exactOps u = some (x, { u with rng_int := g1 }) ∧
      x = ((u64 v >>> 11 : Nat) : ℚ) / (2 ^ 53 - 1) * (5 - 2) + 2 ∧ 2 ≤ x ∧ x ≤ 5 := by
  obtain ⟨v, g1, hn, _⟩ := next_random_lint_index u.rng_int hl h1
  have hb := uniform_exact_bounds 2 5 (u64 v) (u64_lt v) (by norm_num)
  refine ⟨uniform_exact 2 5 (u64 v), v, g1, hn, ?_, ?_, hb.1, hb.2⟩
  · rw [next_random_uniform_exact, hn, hlo, hup, double_val_two, double_val_five]
    rfl
  · simp only [uniform_exact, Nat.shiftRight_eq_div_pow]

/-- Witness for C13 (amended): the state `top_uniform`. -/
theorem C13_uniform_range_closed_witness :
    top_uniform.lower = 0x4000000000000000 ∧ top_uniform.upper = 0x4014000000000000 ∧
    top_uniform.rng_int.mtstate.length = MTSTATESIZE ∧
    -1 ≤ top_uniform.rng_int.mtidx ∧ top_uniform.rng_int.mtidx ≤ 311 ∧
    ∃ x v g1, next_random_lint top_uniform.rng_int = some (v, g1) ∧
      next_random_uniform exactOps top_uniform = some (x, { top_uniform with rng_int := g1 }) ∧
      x = ((u64 v >>> 11 : Nat) : ℚ) / (2 ^ 53 - 1) * (5 - 2) + 2 ∧ 2 ≤ x ∧ x ≤ 5 :=
  ⟨rfl, rfl, List.length_replicate 312 _, by decide, by decide,
    C13_uniform_range_closed top_uniform rfl rfl (List.length_replicate 312 _)
      (by decide) (by decide)⟩

theorem rejecting_words_length :
    ([0, 0, 0, all_ones_word] ++ List.replicate 308 0).length = 312 := by
  rw [List.length_append, List.length_replicate]
  rfl

theorem rejecting_words_at (j : Nat) (hj : j < 4) :
    ([0, 0, 0, all_ones_word] ++ List.replicate 308 0)[j]?
      = [0, 0, 0, all_ones_word][j]? :=
  List.getElem?_append_left (by simpa using hj)

/-- The first call on `rejecting_gaussian` consumes four uniform draws. -/
theorem rejecting_gaussian_first_call :
    ∃ v z1 z2, next_random_gaussian exactOps sampleLibm 1 rejecting_gaussian
      = some (v, { rejecting_gaussian with
          rng_uniform := { rejecting_gaussian.rng_uniform with
            rng_int := { rejecting_gaussian.rng_uniform.rng_int with mtidx := 4 } },
          z1 := z1, z2 := z2, generated := true }) := by
  have d1 := next_random_uniform_exact_plain rejecting_gaussian.rng_uniform 0
    rejecting_words_length (by decide) (by decide)
    (by
      show ([0, 0, 0, all_ones_word] ++ List.replicate 308 0)[1]? = some 0
      rw [rejecting_words_at 1 (by decide)]
      rfl)
  have d2 := next_random_uniform_exact_plain
    { rejecting_gaussian.rng_uniform with
      rng_int := { rejecting_gaussian.rng_uniform.rng_int with mtidx := 1 } } 0
    rejecting_words_length (by decide) (by decide)
    (by
      show ([0, 0, 0, all_ones_word] ++ List.replicate 308 0)[2]? = some 0
      rw [rejecting_words_at 2 (by decide)]
      rfl)
  have d3 := next_random_uniform_exact_plain
    { rejecting_gaussian.rng_uniform with
      rng_int := { rejecting_gaussian.rng_uniform.rng_int with mtidx := 2 } } all_ones_word
    rejecting_words_length (by decide) (by decide)
    (by
      show ([0, 0, 0, all_ones_word] ++ List.replicate 308 0)[3]? = some all_ones_word
      rw [rejecting_words_at 3 (by decide)]
      rfl)
  have d4 := next_random_uniform_exact_plain
    { rejecting_gaussian.rng_uniform with
      rng_int := { rejecting_gaussian.rng_uniform.rng_int with mtidx := 3 } } 0
    rejecting_words_length (by decide) (by decide)
    (by
      show ([0, 0, 0, all_ones_word] ++ List.replicate 308 0)[4]? = some 0
      rw [List.getElem?_append_right (by decide)]
      exact List.getElem?_replicate_of_lt (by decide))
  have e0 : double_val rejecting_gaussian.rng_uniform.lower = 0 := double_val_zero
  have e1 : double_val rejecting_gaussian.rng_uniform.upper = 1 := double_val_one
  simp only [e0, e1, uniform_exact_zero_one_zero, uniform_exact_zero_one_top] at d1 d2 d3 d4
  have hrej : gaussian_reject exactOps 1 0 0
      { rejecting_gaussian.rng_uniform with
        rng_int := { rejecting_gaussian.rng_uniform.rng_int with mtidx := 2 } }
      = some (1, 0, { rejecting_gaussian.rng_uniform with
          rng_int := { rejecting_gaussian.rng_uniform.rng_int with mtidx := 4 } }) := by
    rw [gaussian_reject, if_pos exact_le_epsilon_zero]
    have d3' : next_random_uniform exactOps
        { rejecting_gaussian.rng_uniform with
          rng_int := { rejecting_gaussian.rng_uniform.rng_int with mtidx := 2 } }
        = some (1, { rejecting_gaussian.rng_uniform with
            rng_int := { rejecting_gaussian.rng_uniform.rng_int with mtidx := 3 } }) := d3
    have d4' : next_random_uniform exactOps
        { rejecting_gaussian.rng_uniform with
          rng_int := { rejecting_gaussian.rng_uniform.rng_int with mtidx := 3 } }
        = some (0, { rejecting_gaussian.rng_uniform with
            rng_int := { rejecting_gaussian.rng_uniform.rng_int with mtidx := 4 } }) := d4
    simp only [d3', d4']
    exact gaussian_reject_accept exactOps 0 1 0 _ exact_le_epsilon_one
  exact next_random_gaussian_miss exactOps sampleLibm 1 rejecting_gaussian rfl 0 0 1 0
    _ _ _ d1 d2 hrej

/-- C14 as stated fails: on `rejecting_gaussian` (flag clear, first `u1`
exactly `0.0`) the first call of `next_random_gaussian` performs four calls of
`next_random_uniform`, not two, and leaves the integer generator four draws
further, not two. -/
theorem C14_first_call_can_draw_four :
    ∃ v g1, next_random_gaussian exactOps sampleLibm 1 rejecting_gaussian = some (v, g1) ∧
      g1.generated = true ∧
      uniform_draws exactOps 4 rejecting_gaussian.rng_uniform = some g1.rng_uniform ∧
      uniform_draws exactOps 2 rejecting_gaussian.rng_uniform ≠ some g1.rng_uniform ∧
      draws 4 rejecting_gaussian.rng_uniform.rng_int = some g1.rng_uniform.rng_int ∧
      draws 2 rejecting_gaussian.rng_uniform.rng_int ≠ some g1.rng_uniform.rng_int := by
  obtain ⟨v, z1, z2, h⟩ := rejecting_gaussian_first_call
  have p1 := next_random_lint_plain rejecting_gaussian.rng_uniform.rng_int
    rejecting_words_length (by decide) (by decide)
  have p2 := next_random_lint_plain
    { rejecting_gaussian.rng_uniform.rng_int with mtidx := 1 }
    rejecting_words_length (by decide) (by decide)
  have p3 := next_random_lint_plain
    { rejecting_gaussian.rng_uniform.rng_int with mtidx := 2 }
    rejecting_words_length (by decide) (by decide)
  have p4 := next_random_lint_plain
    { rejecting_gaussian.rng_uniform.rng_int with mtidx := 3 }
    rejecting_words_length (by decide) (by decide)
  obtain ⟨w1, _, q1⟩ := p1
  obtain ⟨w2, _, q2⟩ := p2
  obtain ⟨w3, _, q3⟩ := p3
  obtain ⟨w4, _, q4⟩ := p4
  have q1' : next_random_lint rejecting_gaussian.rng_uniform.rng_int
      = some (i64 (temper w1), { rejecting_gaussian.rng_uniform.rng_int with mtidx := 1 }) := q1
  have q2' : next_random_lint { rejecting_gaussian.rng_uniform.rng_int with mtidx := 1 }
      = some (i64 (temper w2), { rejecting_gaussian.rng_uniform.rng_int with mtidx := 2 }) := q2
  have q3' : next_random_lint { rejecting_gaussian.rng_uniform.rng_int with mtidx := 2 }
      = some (i64 (temper w3), { rejecting_gaussian.rng_uniform.rng_int with mtidx := 3 }) := q3
  have q4' : next_random_lint { rejecting_gaussian.rng_uniform.rng_int with mtidx := 3 }
      = some (i64 (temper w4), { rejecting_gaussian.rng_uniform.rng_int with mtidx := 4 }) := q4
  have hd2 : draws 2 rejecting_gaussian.rng_uniform.rng_int
      = some { rejecting_gaussian.rng_uniform.rng_int with mtidx := 2 } := by
    simp only [draws, q1', q2']
  have hd4 : draws 4 rejecting_gaussian.rng_uniform.rng_int
      = some { rejecting_gaussian.rng_uniform.rng_int with mtidx := 4 } := by
    simp only [draws, q1', q2', q3', q4']
  refine ⟨v, _, h, rfl, ?_, ?_, hd4, ?_⟩
  · rw [uniform_draws_eq, hd4]
    rfl
  · rw [uniform_draws_eq, hd2]
    intro hc
    simp only [Option.map_some', Option.some.injEq] at hc
    have := congrArg (fun u => u.rng_int.mtidx) hc
    revert this
    decide
  · rw [hd2]
    intro hc
    simp only [Option.some.injEq] at hc
    have := congrArg (fun g => g.mtidx) hc
    revert this
    decide

theorem uniform_draws_two {D : Type} (F : FloatOps D) (n : Nat) (u0 st s1 s2 : rng_uniform_type)
    (v1 v2 : D) (h0 : uniform_draws F n u0 = some st)
    (h1 : next_random_uniform F st = some (v1, s1))
    (h2 : next_random_uniform F s1 = some (v2, s2)) :
    uniform_draws F (n + 2) u0 = some s2 := by
  rw [uniform_draws_add, h0, Option.some_bind]
  simp only [uniform_draws, h1, h2]

theorem pair_u1_of_draws {D : Type} (F : FloatOps D) (j : Nat) (u0 st s1 : rng_uniform_type)
    (v1 : D) (h0 : uniform_draws F (2 * j) u0 = some st)
    (h1 : next_random_uniform F st = some (v1, s1)) :
    pair_u1 F j u0 = some v1 := by
  unfold pair_u1
  rw [h0]
  simp only [h1, Option.map_some']

theorem draws_of_uniform_draws {D : Type} (F : FloatOps D) (n : Nat)
    (u st : rng_uniform_type) (h : uniform_draws F n u = some st) :
    draws n u.rng_int = some st.rng_int := by
  rw [uniform_draws_eq] at h
  cases hd : draws n u.rng_int with
  | none => rw [hd] at h; simp at h
  | some gd =>
    rw [hd] at h
    simp only [Option.map_some', Option.some.injEq] at h
    rw [← h]

/-- The rejection loop, entered after pair `k` of the draws made from `u0`:
when it ends, after pair `r`, every pair from `k` to `r - 1` had its first
value rejected and pair `r` has its first value accepted. -/
theorem gaussian_reject_count {D : Type} (F : FloatOps D) (u0 : rng_uniform_type)
    (fuel : Nat) :
    ∀ (k : Nat) (u1 u2 : D) (st : rng_uniform_type) (a b : D) (st1 : rng_uniform_type),
      uniform_draws F (2 * k + 2) u0 = some st → pair_u1 F k u0 = some u1 →
      gaussian_reject F fuel u1 u2 st = some (a, b, st1) →
      ∃ r, k ≤ r ∧ r ≤ k + fuel ∧ uniform_draws F (2 * r + 2) u0 = some st1 ∧
        (∀ j, k ≤ j → j < r →
          ∃ x, pair_u1 F j u0 = some x ∧ F.le x (F.of_bits DBL_EPSILON) = true) ∧
        pair_u1 F r u0 = some a ∧ F.le a (F.of_bits DBL_EPSILON) = false := by
  induction fuel with
  | zero =>
    intro k u1 u2 st a b st1 hst hp h
    by_cases hc : F.le u1 (F.of_bits DBL_EPSILON) = true
    · simp [gaussian_reject, hc] at h
    · simp only [gaussian_reject, hc, if_false, Option.some.injEq, Prod.mk.injEq] at h
      obtain ⟨rfl, rfl, rfl⟩ := h
      exact ⟨k, Nat.le_refl k, Nat.le_refl k, hst, fun j h1 h2 => absurd h1 (by omega), hp,
        by simpa using hc⟩
  | succ f ih =>
    intro k u1 u2 st a b st1 hst hp h
    by_cases hc : F.le u1 (F.of_bits DBL_EPSILON) = true
    · simp only [gaussian_reject, hc, if_true] at h
      cases h1 : next_random_uniform F st with
      | none => simp [h1] at h
      | some p1 =>
        obtain ⟨v1, s1⟩ := p1
        simp only [h1] at h
        cases h2 : next_random_uniform F s1 with
        | none => simp [h2] at h
        | some p2 =>
          obtain ⟨v2, s2⟩ := p2
          simp only [h2] at h
          have hst2 : uniform_draws F (2 * (k + 1) + 2) u0 = some s2 :=
            uniform_draws_two F (2 * k + 2) u0 st s1 s2 v1 v2 hst h1 h2
          have hp2 : pair_u1 F (k + 1) u0 = some v1 :=
            pair_u1_of_draws F (k + 1) u0 st s1 v1 hst h1
          obtain ⟨r, hkr, hrf, hdr, hrej, hpr, hacc⟩ := ih (k + 1) v1 v2 s2 a b st1 hst2 hp2 h
          refine ⟨r, by omega, by omega, hdr, ?_, hpr, hacc⟩
          intro j hj1 hj2
          by_cases hjk : j = k
          · rw [hjk]
            exact ⟨u1, hp, hc⟩
          · exact hrej j (by omega) hj2
    · simp only [gaussian_reject, hc, if_false, Option.some.injEq, Prod.mk.injEq] at h
      obtain ⟨rfl, rfl, rfl⟩ := h
      exact ⟨k, Nat.le_refl k, by omega, hst, fun j h1 h2 => absurd h1 (by omega), hp,
        by simpa using hc⟩

/-- With fuel for `r - k` more rounds the rejection loop ends after pair `r`,
when that is the first pair from `k` on whose first value is accepted. -/
theorem gaussian_reject_enough {D : Type} (F : FloatOps D) (u0 : rng_uniform_type)
    (fuel : Nat) :
    ∀ (k : Nat) (u1 u2 : D) (st : rng_uniform_type) (r : Nat),
      uniform_draws F (2 * k + 2) u0 = some st → pair_u1 F k u0 = some u1 →
      st.rng_int.mtstate.length = 312 → -1 ≤ st.rng_int.mtidx →
      k ≤ r → r ≤ k + fuel →
      (∀ j, k ≤ j → j < r →
        ∃ x, pair_u1 F j u0 = some x ∧ F.le x (F.of_bits DBL_EPSILON) = true) →
      (∃ x, pair_u1 F r u0 = some x ∧ F.le x (F.of_bits DBL_EPSILON) = false) →
      ∃ a b st1, gaussian_reject F fuel u1 u2 st = some (a, b, st1) ∧
        uniform_draws F (2 * r + 2) u0 = some st1 := by
  induction fuel with
  | zero =>
    intro k u1 u2 st r hst hp _ _ hkr hrf _ hacc
    have hk : r = k := by omega
    subst hk
    obtain ⟨x, hx, hxa⟩ := hacc
    rw [hp] at hx
    simp only [Option.some.injEq] at hx
    subst hx
    exact ⟨u1, u2, st, gaussian_reject_accept F 0 u1 u2 st hxa, hst⟩
  | succ f ih =>
    intro k u1 u2 st r hst hp hl hi hkr hrf hrej hacc
    by_cases hk : r = k
    · subst hk
      obtain ⟨x, hx, hxa⟩ := hacc
      rw [hp] at hx
      simp only [Option.some.injEq] at hx
      subst hx
      exact ⟨u1, u2, st, gaussian_reject_accept F (f + 1) u1 u2 st hxa, hst⟩
    · obtain ⟨x, hx, hxr⟩ := hrej k (Nat.le_refl k) (by omega)
      rw [hp] at hx
      simp only [Option.some.injEq] at hx
      subst hx
      obtain ⟨r1, i1, v1, _, h1, hl1, ha1, _⟩ := next_random_uniform_some F st hl hi
      obtain ⟨r2, i2, v2, _, h2, hl2, ha2, _⟩ := next_random_uniform_some F
        { st with rng_int := i1 } hl1 (by show -1 ≤ i1.mtidx; omega)
      have hst2 : uniform_draws F (2 * (k + 1) + 2) u0
          = some { st with rng_int := i2 } :=
        uniform_draws_two F (2 * k + 2) u0 st _ _ v1 v2 hst h1 h2
      have hp2 : pair_u1 F (k + 1) u0 = some v1 :=
        pair_u1_of_draws F (k + 1) u0 st _ v1 hst h1
      obtain ⟨a, b, st1, hg, hd⟩ := ih (k + 1) v1 v2 { st with rng_int := i2 } r hst2 hp2
        hl2 (by show -1 ≤ i2.mtidx; omega) (by omega) (by omega)
        (fun j hj1 hj2 => hrej j (by omega) hj2) hacc
      refine ⟨a, b, st1, ?_, hd⟩
      simp only [gaussian_reject, hxr, if_true, h1, h2]
      exact hg

/-- C14 (amended): for every Gaussian-generator state whose cache flag is
clear and whose first uniform draw `u1` exceeds `__DBL_EPSILON__`, two
consecutive calls of `next_random_gaussian` advance the embedded integer
generator by exactly two draws in total: the first call performs exactly two
`next_random_uniform` calls and sets the flag, the second performs none and
clears it.  In general, for every state whose flag is clear, a first call that
returns has performed `2 + 2 r` calls of `next_random_uniform`, where `r` is
the number of rejected pairs: the first values of pairs `0 .. r - 1` are at
most `__DBL_EPSILON__` and that of pair `r` exceeds it; it sets the flag and
the second call performs no draw and clears it.  Conversely, when pair `r` is
the first accepted one and the loop is given at least `r` rounds, the first
call returns. -/
theorem C14_gaussian_cache_pairing {D : Type} (F : FloatOps D) (L : Libm D) (fuel : Nat)
    (g : rng_gaussian_type) (hgen : g.generated = false)
    (hl : g.rng_uniform.rng_int.mtstate.length = MTSTATESIZE)
    (hi : -1 ≤ g.rng_uniform.rng_int.mtidx) :
    ((∀ u1 s1, next_random_uniform F g.rng_uniform = some (u1, s1) →
        F.le u1 (F.of_bits DBL_EPSILON) = false) →
      ∃ v1 g1 v2 g2, next_random_gaussian F L fuel g = some (v1, g1) ∧ g1.generated = true ∧
        uniform_draws F 2 g.rng_uniform = some g1.rng_uniform ∧
        draws 2 g.rng_uniform.rng_int = some g1.rng_uniform.rng_int ∧
        next_random_gaussian F L fuel g1 = some (v2, g2) ∧ g2.generated = false ∧
        g2.rng_uniform = g1.rng_uniform) ∧
    (∀ v g1, next_random_gaussian F L fuel g = some (v, g1) →
      ∃ r, r ≤ fuel ∧ g1.generated = true ∧
        uniform_draws F (2 + 2 * r) g.rng_uniform = some g1.rng_uniform ∧
        draws (2 + 2 * r) g.rng_uniform.rng_int = some g1.rng_uniform.rng_int ∧
        (∀ j, j < r →
          ∃ x, pair_u1 F j g.rng_uniform = some x ∧ F.le x (F.of_bits DBL_EPSILON) = true) ∧
        (∃ x, pair_u1 F r g.rng_uniform = some x ∧ F.le x (F.of_bits DBL_EPSILON) = false) ∧
        ∃ v2 g2, next_random_gaussian F L fuel g1 = some (v2, g2) ∧ g2.generated = false ∧
          g2.rng_uniform = g1.rng_uniform) ∧
    (∀ r, r ≤ fuel →
      (∀ j, j < r →
        ∃ x, pair_u1 F j g.rng_uniform = some x ∧ F.le x (F.of_bits DBL_EPSILON) = true) →
      (∃ x, pair_u1 F r g.rng_uniform = some x ∧ F.le x (F.of_bits DBL_EPSILON) = false) →
      ∃ v g1, next_random_gaussian F L fuel g = some (v, g1) ∧ g1.generated = true ∧
        uniform_draws F (2 + 2 * r) g.rng_uniform = some g1.rng_uniform) := by
  obtain ⟨r1, i1, u1, hn1, hu1, hl1, ha1, _⟩ := next_random_uniform_some F g.rng_uniform hl hi
  obtain ⟨r2, i2, u2, hn2, hu2, hl2, ha2, _⟩ := next_random_uniform_some F
    { g.rng_uniform with rng_int := i1 } hl1 (by show -1 ≤ i1.mtidx; omega)
  have hd2 : uniform_draws F 2 g.rng_uniform
      = some { g.rng_uniform with rng_int := i2 } := by
    simp only [uniform_draws, hu1, hu2]
  have hd2k : uniform_draws F (2 * 0 + 2) g.rng_uniform
      = some { g.rng_uniform with rng_int := i2 } := hd2
  have hp0 : pair_u1 F 0 g.rng_uniform = some u1 :=
    pair_u1_of_draws F 0 g.rng_uniform g.rng_uniform _ u1 rfl hu1
  refine ⟨?_, ?_, ?_⟩
  · intro hacc
    have hrej := gaussian_reject_accept F fuel u1 u2 { g.rng_uniform with rng_int := i2 }
      (hacc u1 _ hu1)
    obtain ⟨v, z1, z2, hg1⟩ := next_random_gaussian_miss F L fuel g hgen u1 u2 u1 u2 _ _ _
      hu1 hu2 hrej
    exact ⟨v, _, _, _, hg1, rfl, hd2, draws_of_uniform_draws F 2 _ _ hd2,
      next_random_gaussian_hit F L fuel _ rfl, rfl, rfl⟩
  · intro v g1 hres
    unfold next_random_gaussian at hres
    rw [if_neg (by rw [hgen]; decide)] at hres
    simp only [hu1, hu2] at hres
    cases hrej : gaussian_reject F fuel u1 u2 { g.rng_uniform with rng_int := i2 } with
    | none => rw [hrej] at hres; simp at hres
    | some t =>
      obtain ⟨a, b, st⟩ := t
      rw [hrej] at hres
      simp only [Option.some.injEq, Prod.mk.injEq] at hres
      obtain ⟨r, _, hr, hdr, hrj, hpr, hac⟩ :=
        gaussian_reject_count F g.rng_uniform fuel 0 u1 u2 _ a b st hd2k hp0 hrej
      have hdr2 : uniform_draws F (2 + 2 * r) g.rng_uniform = some g1.rng_uniform := by
        rw [Nat.add_comm 2 (2 * r), hdr, ← hres.2]
      refine ⟨r, by omega, by rw [← hres.2], hdr2, draws_of_uniform_draws F _ _ _ hdr2,
        fun j hj => hrj j (Nat.zero_le j) hj, ⟨a, hpr, hac⟩, ?_⟩
      have hflag : g1.generated = true := by rw [← hres.2]
      exact ⟨_, _, next_random_gaussian_hit F L fuel g1 hflag, rfl, rfl⟩
  · intro r hr hrj hac
    obtain ⟨a, b, st, hg, hd⟩ := gaussian_reject_enough F g.rng_uniform fuel 0 u1 u2
      { g.rng_uniform with rng_int := i2 } r hd2k hp0 hl2 (by show -1 ≤ i2.mtidx; omega)
      (Nat.zero_le r) (by omega) (fun j _ hj => hrj j hj) hac
    obtain ⟨v, z1, z2, hg1⟩ := next_random_gaussian_miss F L fuel g hgen u1 u2 a b _ _ st
      hu1 hu2 hg
    refine ⟨v, _, hg1, rfl, ?_⟩
    rw [Nat.add_comm 2 (2 * r), hd]

theorem accepting_gaussian_first_draw :
    next_random_uniform exactOps accepting_gaussian.rng_uniform
      = some (1, { accepting_gaussian.rng_uniform with
          rng_int := { accepting_gaussian.rng_uniform.rng_int with mtidx := 1 } }) := by
  have h := next_random_uniform_exact_plain accepting_gaussian.rng_uniform all_ones_word
    (List.length_replicate 312 _) (by decide) (by decide)
    (List.getElem?_replicate_of_lt (by decide))
  have e0 : double_val accepting_gaussian.rng_uniform.lower = 0 := double_val_zero
  have e1 : double_val accepting_gaussian.rng_uniform.upper = 1 := double_val_one
  simp only [e0, e1, uniform_exact_zero_one_top] at h
  exact h

theorem accepting_gaussian_accepts :
    ∀ u1 s1, next_random_uniform exactOps accepting_gaussian.rng_uniform = some (u1, s1) →
      exactOps.le u1 (exactOps.of_bits DBL_EPSILON) = false := by
  intro u1 s1 h
  rw [accepting_gaussian_first_draw] at h
  simp only [Option.some.injEq, Prod.mk.injEq] at h
  rw [← h.1]
  exact exact_le_epsilon_one

theorem rejecting_gaussian_first_draw :
    next_random_uniform exactOps rejecting_gaussian.rng_uniform
      = some (0, { rejecting_gaussian.rng_uniform with
          rng_int := { rejecting_gaussian.rng_uniform.rng_int with mtidx := 1 } }) := by
  have h := next_random_uniform_exact_plain rejecting_gaussian.rng_uniform 0
    rejecting_words_length (by decide) (by decide)
    (by
      show ([0, 0, 0, all_ones_word] ++ List.replicate 308 0)[1]? = some 0
      rw [rejecting_words_at 1 (by decide)]
      rfl)
  have e0 : double_val rejecting_gaussian.rng_uniform.lower = 0 := double_val_zero
  have e1 : double_val rejecting_gaussian.rng_uniform.upper = 1 := double_val_one
  simp only [e0, e1, uniform_exact_zero_one_zero] at h
  exact h

/-- The first pair drawn from `rejecting_gaussian` is rejected. -/
theorem rejecting_gaussian_pair_zero :
    pair_u1 exactOps 0 rejecting_gaussian.rng_uniform = some 0 :=
  pair_u1_of_draws exactOps 0 _ _ _ 0 rfl rejecting_gaussian_first_draw

/-- Witness for C14 (amended): `accepting_gaussian` (first `u1` is `1.0`, two
draws), and `rejecting_gaussian` (first `u1` is `0.0`), whose first call
returns after exactly one rejected pair, that is after four draws. -/
theorem C14_gaussian_cache_pairing_witness :
    (accepting_gaussian.generated = false ∧
      accepting_gaussian.rng_uniform.rng_int.mtstate.length = MTSTATESIZE ∧
      -1 ≤ accepting_gaussian.rng_uniform.rng_int.mtidx ∧
      (∀ u1 s1, next_random_uniform exactOps accepting_gaussian.rng_uniform = some (u1, s1) →
        exactOps.le u1 (exactOps.of_bits DBL_EPSILON) = false) ∧
      ∃ v1 g1 v2 g2, next_random_gaussian exactOps sampleLibm 0 accepting_gaussian
          = some (v1, g1) ∧ g1.generated = true ∧
        uniform_draws exactOps 2 accepting_gaussian.rng_uniform = some g1.rng_uniform ∧
        draws 2 accepting_gaussian.rng_uniform.rng_int = some g1.rng_uniform.rng_int ∧
        next_random_gaussian exactOps sampleLibm 0 g1 = some (v2, g2) ∧ g2.generated = false ∧
        g2.rng_uniform = g1.rng_uniform) ∧
    (rejecting_gaussian.generated = false ∧
      rejecting_gaussian.rng_uniform.rng_int.mtstate.length = MTSTATESIZE ∧
      -1 ≤ rejecting_gaussian.rng_uniform.rng_int.mtidx ∧
      ∃ v g1 r, next_random_gaussian exactOps sampleLibm 1 rejecting_gaussian = some (v, g1) ∧
        r = 1 ∧ g1.generated = true ∧
        uniform_draws exactOps (2 + 2 * r) rejecting_gaussian.rng_uniform
          = some g1.rng_uniform ∧
        (∀ j, j < r → ∃ x, pair_u1 exactOps j rejecting_gaussian.rng_uniform = some x ∧
          exactOps.le x (exactOps.of_bits DBL_EPSILON) = true) ∧
        (∃ x, pair_u1 exactOps r rejecting_gaussian.rng_uniform = some x ∧
          exactOps.le x (exactOps.of_bits DBL_EPSILON) = false)) :=
  ⟨⟨rfl, List.length_replicate 312 _, by decide, accepting_gaussian_accepts,
      (C14_gaussian_cache_pairing exactOps sampleLibm 0 accepting_gaussian rfl
        (List.length_replicate 312 _) (by decide)).1 accepting_gaussian_accepts⟩,
    ⟨rfl, rejecting_words_length, by decide, by
      obtain ⟨v, z1, z2, h⟩ := rejecting_gaussian_first_call
      obtain ⟨r, hr, hflag, hd, _, hrj, hac, _⟩ :=
        (C14_gaussian_cache_pairing exactOps sampleLibm 1 rejecting_gaussian rfl
          rejecting_words_length (by decide)).2.1 v _ h
      have hr1 : r = 1 := by
        by_contra hne
        have h0 : r = 0 := by omega
        obtain ⟨x, hx, hxa⟩ := hac
        rw [h0, rejecting_gaussian_pair_zero] at hx
        simp only [Option.some.injEq] at hx
        rw [← hx, exact_le_epsilon_zero] at hxa
        exact Bool.noConfusion hxa
      exact ⟨v, _, r, h, hr1, hflag, hd, hrj, hac⟩⟩⟩

/-- C15 (cache hit is pure): for every Gaussian-generator state whose cache
flag is set, whatever the floating-point operations are,
`next_random_gaussian` clears the flag, returns `z2 * stddev + mean` computed
from the stored fields, and leaves `mean`, `stddev`, `z1`, `z2` and the whole
embedded uniform generator unchanged. -/
theorem C15_cache_hit_is_pure {D : Type} (F : FloatOps D) (L : Libm D) (fuel : Nat)
    (g : rng_gaussian_type) (hgen : g.generated = true) :
    ∃ g1, next_random_gaussian F L fuel g
        = some (F.add (F.mul (F.of_bits g.z2) (F.of_bits g.stddev)) (F.of_bits g.mean), g1) ∧
      g1.generated = false ∧ g1.mean = g.mean ∧ g1.stddev = g.stddev ∧ g1.z1 = g.z1 ∧
      g1.z2 = g.z2 ∧ g1.rng_uniform = g.rng_uniform ∧
      g1.rng_uniform.lower = g.rng_uniform.lower ∧ g1.rng_uniform.upper = g.rng_uniform.upper ∧
      g1.rng_uniform.rng_int.seed = g.rng_uniform.rng_int.seed ∧
      g1.rng_uniform.rng_int.mtidx = g.rng_uniform.rng_int.mtidx ∧
      g1.rng_uniform.rng_int.mtstate = g.rng_uniform.rng_int.mtstate :=
  ⟨{ g with generated := false }, next_random_gaussian_hit F L fuel g hgen,
    rfl, rfl, rfl, rfl, rfl, rfl, rfl, rfl, rfl, rfl, rfl⟩

/-- Witness for C15: exact arithmetic, `z2 = 2.0`, `stddev = 5.0`,
`mean = 1.0`. -/
theorem C15_cache_hit_is_pure_witness :
    (true = true) ∧
    ∃ g1, next_random_gaussian exactOps sampleLibm 0
        ⟨0x3FF0000000000000, 0x4014000000000000, 0, 0x4000000000000000, true, 0,
          ⟨0, 0x3FF0000000000000, ⟨0, 5, List.replicate 312 0⟩⟩⟩
        = some (exactOps.add (exactOps.mul (exactOps.of_bits 0x4000000000000000)
            (exactOps.of_bits 0x4014000000000000)) (exactOps.of_bits 0x3FF0000000000000), g1) ∧
      g1.generated = false ∧ g1.mean = 0x3FF0000000000000 ∧ g1.stddev = 0x4014000000000000 ∧
      g1.z1 = 0 ∧ g1.z2 = 0x4000000000000000 ∧
      g1.rng_uniform = ⟨0, 0x3FF0000000000000, ⟨0, 5, List.replicate 312 0⟩⟩ ∧
      g1.rng_uniform.lower = 0 ∧ g1.rng_uniform.upper = 0x3FF0000000000000 ∧
      g1.rng_uniform.rng_int.seed = 0 ∧ g1.rng_uniform.rng_int.mtidx = 5 ∧
      g1.rng_uniform.rng_int.mtstate = List.replicate 312 0 :=
  ⟨rfl, C15_cache_hit_is_pure exactOps sampleLibm 0
    ⟨0x3FF0000000000000, 0x4014000000000000, 0, 0x4000000000000000, true, 0,
      ⟨0, 0x3FF0000000000000, ⟨0, 5, List.replicate 312 0⟩⟩⟩ rfl⟩

/-- C16 (refill boundary): for every seed and every `k ≥ 1`, on the generator
from `init_rng_int seed` the first `k` calls of `next_random_lint` succeed and
the index after the `k`-th call is `(k-1) mod 312`; the `k`-th call runs the
refill (its state words are those `refill` computes from the words before
the call) exactly when `k mod 312 = 1`, so at calls `1`, `313`, ...; every
other call starts with an index of at most `310` and leaves the 312 state
words exactly as they were before it. -/
theorem C16_refill_boundary (g0 : rng_int_type) (seed : Int) (k : Nat)
    (hg0 : g0.mtstate.length = MTSTATESIZE) (hk : 1 ≤ k) :
    ∃ g gprev gk, init_rng_int g0 seed = some g ∧ draws (k - 1) g = some gprev ∧
      draws k g = some gk ∧ gk.mtidx = (((k - 1) % 312 : Nat) : Int) ∧
      (k % 312 = 1 → 310 < gprev.mtidx ∧
        ∃ r, refill gprev = some r ∧ gk.mtstate = r.mtstate) ∧
      (k % 312 ≠ 1 → gprev.mtidx ≤ 310 ∧ gk.mtstate = gprev.mtstate) := by
  obtain ⟨st, hst, hlen, _⟩ := init_rng_int_spec g0 seed hg0
  obtain ⟨n, rfl⟩ : ∃ n, k = n + 1 := ⟨k - 1, by omega⟩
  obtain ⟨gp, hdp, hlp, hp0, hp1⟩ := draws_seeded_index n
    { seed := seed, mtidx := 313, mtstate := st } hlen rfl
  obtain ⟨gk, hdk, _, _, hk1⟩ := draws_seeded_index (n + 1)
    { seed := seed, mtidx := 313, mtstate := st } hlen rfl
  have hstep := draws_succ n { seed := seed, mtidx := 313, mtstate := st }
  rw [hdp, hdk, Option.some_bind] at hstep
  have hidx : -1 ≤ gp.mtidx := by
    rcases Nat.eq_zero_or_pos n with hn | hn
    · rw [hp0 hn]; decide
    · rw [hp1 hn]; omega
  refine ⟨_, gp, gk, hst, by simpa using hdp, hdk, hk1 (by omega), ?_, ?_⟩
  · intro hmod
    have hbig : 310 < gp.mtidx := by
      rcases Nat.eq_zero_or_pos n with hn | hn
      · rw [hp0 hn]; decide
      · rw [hp1 hn]; omega
    obtain ⟨r, w, hr, _, _, hnx⟩ := next_random_lint_refill_eq gp hlp hbig
    rw [hnx] at hstep
    simp only [Option.map_some', Option.some.injEq] at hstep
    exact ⟨hbig, r, hr, by rw [hstep]⟩
  · intro hmod
    have hsmall : gp.mtidx ≤ 310 := by
      rcases Nat.eq_zero_or_pos n with hn | hn
      · subst hn; exact absurd rfl hmod
      · rw [hp1 hn]; omega
    obtain ⟨w, _, hnx⟩ := next_random_lint_plain gp hlp hidx hsmall
    rw [hnx] at hstep
    simp only [Option.map_some', Option.some.injEq] at hstep
    exact ⟨hsmall, by rw [hstep]⟩

/-- Witness for C16: seed `42`, call `313`. -/
theorem C16_refill_boundary_witness :
    (List.replicate 312 0).length = MTSTATESIZE ∧ 1 ≤ 313 ∧
    ∃ g gprev gk, init_rng_int ⟨0, 0, List.replicate 312 0⟩ 42 = some g ∧
      draws (313 - 1) g = some gprev ∧
      draws 313 g = some gk ∧ gk.mtidx = (((313 - 1) % 312 : Nat) : Int) ∧
      (313 % 312 = 1 → 310 < gprev.mtidx ∧
        ∃ r, refill gprev = some r ∧ gk.mtstate = r.mtstate) ∧
      (313 % 312 ≠ 1 → gprev.mtidx ≤ 310 ∧ gk.mtstate = gprev.mtstate) :=
  ⟨List.length_replicate 312 _, by decide,
    C16_refill_boundary ⟨0, 0, List.replicate 312 0⟩ 42 313 (List.length_replicate 312 _)
      (by decide)⟩

theorem next_random_lint_keeps_seed (g : rng_int_type) (v : Int) (g1 : rng_int_type)
    (h : next_random_lint g = some (v, g1)) : g1.seed = g.seed := by
  unfold next_random_lint at h
  by_cases hc : g.mtidx > (NN : Int) - 2
  · rw [if_pos hc, refill_eq] at h
    cases hr : (forRange 0 (NN - MM) twist_lo g.mtstate).bind
        (fun t => (forRange (NN - MM) (NN - 1) twist_hi t).bind twist_last) with
    | none => rw [hr] at h; simp at h
    | some st =>
      rw [hr] at h
      simp only [Option.map_some', Option.bind_eq_bind, Option.some_bind] at h
      cases hrd : rd st (-1 + 1) with
      | none => rw [hrd] at h; simp at h
      | some w =>
        rw [hrd] at h
        simp only [Option.some_bind, Option.some.injEq, Prod.mk.injEq] at h
        rw [← h.2]
  · rw [if_neg hc] at h
    simp only [Option.bind_eq_bind, Option.some_bind] at h
    cases hrd : rd g.mtstate (g.mtidx + 1) with
    | none => rw [hrd] at h; simp at h
    | some w =>
      rw [hrd] at h
      simp only [Option.some_bind, Option.some.injEq, Prod.mk.injEq] at h
      rw [← h.2]

theorem next_random_lint_object_of_rd (g g1 : rng_int_type) (w : Nat)
    (hg : (if g.mtidx > (NN : Int) - 2 then refill g else some g) = some g1)
    (hw : rd_object { g1 with mtidx := g1.mtidx + 1 } (g1.mtidx + 1) = some w) :
    next_random_lint_object g = some (i64 (temper w), { g1 with mtidx := g1.mtidx + 1 }) := by
  unfold next_random_lint_object
  rw [hg]
  simp only [Option.bind_eq_bind, Option.some_bind, hw]
  rw [← temper_code_eq w]

/-- Inside the array the object representation gives the array entry. -/
theorem rd_object_of_rd (g : rng_int_type) (i : Int) (w : Nat)
    (h : rd g.mtstate i = some w) : rd_object g i = some w := by
  unfold rd_object
  have hb := rd_some_bounds _ _ _ h
  rw [if_neg (by omega)]
  exact h

/-- Where `next_random_lint` has a result, `next_random_lint_object` has the
same result. -/
theorem next_random_lint_object_of_some (g : rng_int_type) (p : Int × rng_int_type)
    (h : next_random_lint g = some p) : next_random_lint_object g = some p := by
  cases hg : (if g.mtidx > (NN : Int) - 2 then refill g else some g) with
  | none =>
    unfold next_random_lint at h
    rw [hg] at h
    simp at h
  | some g1 =>
    cases hw : rd g1.mtstate (g1.mtidx + 1) with
    | none =>
      unfold next_random_lint at h
      rw [hg] at h
      simp [hw] at h
    | some w =>
      rw [next_random_lint_of_rd g g1 w hg hw] at h
      rw [← h]
      exact next_random_lint_object_of_rd g g1 w hg
        (rd_object_of_rd { g1 with mtidx := g1.mtidx + 1 } _ w hw)

theorem next_random_lint_object_keeps_seed (g : rng_int_type) (v : Int) (g1 : rng_int_type)
    (h : next_random_lint_object g = some (v, g1)) : g1.seed = g.seed := by
  unfold next_random_lint_object at h
  by_cases hc : g.mtidx > (NN : Int) - 2
  · rw [if_pos hc, refill_eq] at h
    cases hr : (forRange 0 (NN - MM) twist_lo g.mtstate).bind
        (fun t => (forRange (NN - MM) (NN - 1) twist_hi t).bind twist_last) with
    | none => rw [hr] at h; simp at h
    | some st =>
      rw [hr] at h
      simp only [Option.map_some', Option.bind_eq_bind, Option.some_bind] at h
      cases hrd : rd_object { g with mtstate := st, mtidx := -1 + 1 } (-1 + 1) with
      | none => rw [hrd] at h; simp at h
      | some w =>
        rw [hrd] at h
        simp only [Option.some_bind, Option.some.injEq, Prod.mk.injEq] at h
        rw [← h.2]
  · rw [if_neg hc] at h
    simp only [Option.bind_eq_bind, Option.some_bind] at h
    cases hrd : rd_object { g with mtidx := g.mtidx + 1 } (g.mtidx + 1) with
    | none => rw [hrd] at h; simp at h
    | some w =>
      rw [hrd] at h
      simp only [Option.some_bind, Option.some.injEq, Prod.mk.injEq] at h
      rw [← h.2]

/-- At index `-2` the draw tempers the word made of the seed and the new
index `-1`. -/
theorem next_random_lint_object_minus_two (g : rng_int_type) (h : g.mtidx = -2) :
    next_random_lint_object g
      = some (i64 (temper (u32 g.seed + 2 ^ 32 * u32 (-1))), { g with mtidx := -1 }) := by
  have hc : ¬ g.mtidx > (NN : Int) - 2 := by rw [h]; decide
  have hg : (if g.mtidx > (NN : Int) - 2 then refill g else some g) = some g := if_neg hc
  have hidx : g.mtidx + 1 = -1 := by rw [h]; rfl
  have hw : rd_object { g with mtidx := g.mtidx + 1 } (g.mtidx + 1)
      = some (u32 g.seed + 2 ^ 32 * u32 (-1)) := by
    unfold rd_object
    rw [if_pos hidx]
    simp only [hidx]
  rw [next_random_lint_object_of_rd g g _ hg hw, hidx]

theorem WF_seven_minus_two : rng_int_type.WF ⟨7, -2, List.replicate 312 0⟩ :=
  WF_replicate 7 (-2) 0 (by decide) (by decide) (by decide) (by decide) (by decide)

/-- C17 as stated fails: the state with seed `7`, index `-2` and all words
zero is one that `restore_rng_state_int` produces from a text, and on it the
draw increments the index to `-1` and reads `mtstate[-1]`, which in the object
representation is the word `0xFFFFFFFF00000007` made of the index and the
seed.  The value returned is `3479452585272106104`; with the seed field `0`
instead it is `3497466571464590463`.  The return value depends on the seed
field. -/
theorem C17_return_value_depends_on_seed :
    next_random_lint_object ⟨7, -2, List.replicate 312 0⟩
      = some (3479452585272106104, ⟨7, -1, List.replicate 312 0⟩) ∧
    next_random_lint_object { (⟨7, -2, List.replicate 312 0⟩ : rng_int_type) with seed := 0 }
      = some (3497466571464590463, ⟨0, -1, List.replicate 312 0⟩) ∧
    (next_random_lint_object ⟨7, -2, List.replicate 312 0⟩).map Prod.fst
      ≠ (next_random_lint_object
          { (⟨7, -2, List.replicate 312 0⟩ : rng_int_type) with seed := 0 }).map Prod.fst ∧
    restore_rng_state_int ⟨⟨0, 0, List.replicate 312 0⟩, 'I'⟩
        (int_text ⟨7, -2, List.replicate 312 0⟩)
      = some ⟨7, -2, List.replicate 312 0⟩ := by
  have e7 : i64 (temper (u32 7 + 2 ^ 32 * u32 (-1))) = 3479452585272106104 := by decide
  have e0 : i64 (temper (u32 0 + 2 ^ 32 * u32 (-1))) = 3497466571464590463 := by decide
  have h7 : next_random_lint_object ⟨7, -2, List.replicate 312 0⟩
      = some (3479452585272106104, ⟨7, -1, List.replicate 312 0⟩) := by
    rw [next_random_lint_object_minus_two _ rfl]
    show some (i64 (temper (u32 7 + 2 ^ 32 * u32 (-1))), _) = _
    rw [e7]
  have h0 : next_random_lint_object
      { (⟨7, -2, List.replicate 312 0⟩ : rng_int_type) with seed := 0 }
      = some (3497466571464590463, ⟨0, -1, List.replicate 312 0⟩) := by
    rw [next_random_lint_object_minus_two _ rfl]
    show some (i64 (temper (u32 0 + 2 ^ 32 * u32 (-1))), _) = _
    rw [e0]
  refine ⟨h7, h0, ?_, restore_rng_state_int_text _ _ WF_seven_minus_two
    (List.length_replicate 312 _)⟩
  rw [h7, h0]
  decide

/-- C17 (amended): `next_random_lint` never changes the seed field, whatever
the index is and also when the subscript is resolved over the object
representation; when the index before the draw is at least `-1` the call
succeeds and its return value and resulting state do not depend on the seed
field (with any other seed `s` it returns the same value and the same state
but for the seed), in both readings of the subscript; and when the index
before the draw is in `[-1, 310]` it leaves all 312 state words unchanged and
changes only the index, from `i` to `i + 1`. -/
theorem C17_draw_frame (g : rng_int_type) (s : Int)
    (hl : g.mtstate.length = MTSTATESIZE) (h1 : -1 ≤ g.mtidx) :
    (∀ (a : rng_int_type) (v : Int) (a1 : rng_int_type),
      next_random_lint a = some (v, a1) → a1.seed = a.seed) ∧
    (∀ (a : rng_int_type) (v : Int) (a1 : rng_int_type),
      next_random_lint_object a = some (v, a1) → a1.seed = a.seed) ∧
    (∃ v g1, next_random_lint g = some (v, g1) ∧
      next_random_lint { g with seed := s } = some (v, { g1 with seed := s }) ∧
      next_random_lint_object g = some (v, g1) ∧
      next_random_lint_object { g with seed := s } = some (v, { g1 with seed := s }) ∧
      (g.mtidx ≤ 310 → g1 = { g with mtidx := g.mtidx + 1 })) := by
  refine ⟨next_random_lint_keeps_seed, next_random_lint_object_keeps_seed, ?_⟩
  obtain ⟨v, g1, hn, _⟩ := next_random_lint_index g hl h1
  have hs : next_random_lint { g with seed := s } = some (v, { g1 with seed := s }) := by
    rw [next_random_lint_seed, hn]
    rfl
  refine ⟨v, g1, hn, hs, next_random_lint_object_of_some g _ hn,
    next_random_lint_object_of_some _ _ hs, ?_⟩
  intro h2
  obtain ⟨w, _, hp⟩ := next_random_lint_plain g hl h1 h2
  rw [hn] at hp
  simp only [Option.some.injEq, Prod.mk.injEq] at hp
  exact hp.2

/-- Witness for C17 (amended): the all-zero state with seed `5` and index
`7`, other seed `99`. -/
theorem C17_draw_frame_witness :
    (List.replicate 312 0).length = MTSTATESIZE ∧ (-1 : Int) ≤ 7 ∧
    ∃ v, next_random_lint ⟨5, 7, List.replicate 312 0⟩
        = some (v, ⟨5, 8, List.replicate 312 0⟩) ∧
      next_random_lint ⟨99, 7, List.replicate 312 0⟩
        = some (v, ⟨99, 8, List.replicate 312 0⟩) ∧
      next_random_lint_object ⟨5, 7, List.replicate 312 0⟩
        = some (v, ⟨5, 8, List.replicate 312 0⟩) ∧
      next_random_lint_object ⟨99, 7, List.replicate 312 0⟩
        = some (v, ⟨99, 8, List.replicate 312 0⟩) :=
  ⟨List.length_replicate 312 _, by decide, by
    obtain ⟨v, g1, ha, hb, hc, hd, he⟩ :=
      (C17_draw_frame ⟨5, 7, List.replicate 312 0⟩ 99 (List.length_replicate 312 _)
        (by decide)).2.2
    have hg : g1 = ⟨5, 8, List.replicate 312 0⟩ := he (by decide)
    subst hg
    exact ⟨v, ha, hb, hc, hd⟩⟩

/-- C18 (unit fraction bounds): for every 64-bit `raw`, `k = raw >> 11`
satisfies `0 ≤ k ≤ 2^53 - 1`, the exact fraction `k / (2^53 - 1)` lies in
`[0, 1]`, is `0` exactly when `raw < 2^11` and is `1` exactly when
`raw ≥ 2^64 - 2^11`; and `next_random_uniform`, whatever the floating-point
operations are, advances the embedded integer generator by exactly one
`next_random_lint` step and leaves `lower` and `upper` unchanged (with exact
arithmetic its value is `frac * (upper - lower) + lower`). -/
theorem C18_unit_fraction {D : Type} (F : FloatOps D) (raw : Nat) (u : rng_uniform_type)
    (hraw : raw < 2 ^ 64) (hl : u.rng_int.mtstate.length = MTSTATESIZE)
    (hi : -1 ≤ u.rng_int.mtidx) :
    raw >>> 11 ≤ 2 ^ 53 - 1 ∧
    (0 : ℚ) ≤ ((raw >>> 11 : Nat) : ℚ) / (2 ^ 53 - 1) ∧
    ((raw >>> 11 : Nat) : ℚ) / (2 ^ 53 - 1) ≤ 1 ∧
    (((raw >>> 11 : Nat) : ℚ) / (2 ^ 53 - 1) = 0 ↔ raw < 2 ^ 11) ∧
    (((raw >>> 11 : Nat) : ℚ) / (2 ^ 53 - 1) = 1 ↔ 2 ^ 64 - 2 ^ 11 ≤ raw) ∧
    ∃ r g1 x, next_random_lint u.rng_int = some (r, g1) ∧
      next_random_uniform F u = some (x, { lower := u.lower, upper := u.upper, rng_int := g1 }) ∧
      next_random_uniform exactOps u
        = some (((u64 r >>> 11 : Nat) : ℚ) / (2 ^ 53 - 1)
              * (double_val u.upper - double_val u.lower) + double_val u.lower,
            { lower := u.lower, upper := u.upper, rng_int := g1 }) := by
  have hk : raw >>> 11 ≤ 2 ^ 53 - 1 := by
    rw [Nat.shiftRight_eq_div_pow]
    exact shift11_bound raw hraw
  have hpos : (0 : ℚ) < 2 ^ 53 - 1 := by norm_num
  have hkq : ((raw >>> 11 : Nat) : ℚ) ≤ 2 ^ 53 - 1 := by
    have h2 : ((raw >>> 11 : Nat) : ℚ) ≤ ((2 ^ 53 - 1 : Nat) : ℚ) := by exact_mod_cast hk
    have h3 : ((2 ^ 53 - 1 : Nat) : ℚ) = 2 ^ 53 - 1 := by norm_num
    rw [h3] at h2
    exact h2
  refine ⟨hk, div_nonneg (Nat.cast_nonneg _) hpos.le, (div_le_one hpos).mpr hkq, ?_, ?_, ?_⟩
  · rw [div_eq_zero_iff]
    constructor
    · rintro (h | h)
      · have h0 : raw >>> 11 = 0 := by exact_mod_cast h
        rw [Nat.shiftRight_eq_div_pow] at h0
        omega
      · exact absurd h hpos.ne'
    · intro h
      left
      have h0 : raw >>> 11 = 0 := by
        rw [Nat.shiftRight_eq_div_pow]
        omega
      rw [h0]
      rfl
  · rw [div_eq_one_iff_eq hpos.ne']
    have h3 : ((2 ^ 53 - 1 : Nat) : ℚ) = 2 ^ 53 - 1 := by norm_num
    rw [← h3]
    constructor
    · intro h
      have h0 : raw >>> 11 = 2 ^ 53 - 1 := by exact_mod_cast h
      rw [Nat.shiftRight_eq_div_pow] at h0
      omega
    · intro h
      have h0 : raw >>> 11 = 2 ^ 53 - 1 := by
        rw [Nat.shiftRight_eq_div_pow]
        omega
      rw [h0]
  · obtain ⟨r, g1, x, hn, hu, _⟩ := next_random_uniform_some F u hl hi
    refine ⟨r, g1, x, hn, hu, ?_⟩
    rw [next_random_uniform_exact, hn]
    simp only [Option.map_some', uniform_exact, Nat.shiftRight_eq_div_pow]

/-- Witness for C18: `raw = 2^64 - 1` and the state `top_uniform`. -/
theorem C18_unit_fraction_witness :
    (2 ^ 64 - 1 : Nat) < 2 ^ 64 ∧ top_uniform.rng_int.mtstate.length = MTSTATESIZE ∧
    -1 ≤ top_uniform.rng_int.mtidx ∧
    ((2 ^ 64 - 1 : Nat) >>> 11 ≤ 2 ^ 53 - 1 ∧
    (0 : ℚ) ≤ (((2 ^ 64 - 1 : Nat) >>> 11 : Nat) : ℚ) / (2 ^ 53 - 1) ∧
    (((2 ^ 64 - 1 : Nat) >>> 11 : Nat) : ℚ) / (2 ^ 53 - 1) ≤ 1 ∧
    ((((2 ^ 64 - 1 : Nat) >>> 11 : Nat) : ℚ) / (2 ^ 53 - 1) = 0 ↔ (2 ^ 64 - 1 : Nat) < 2 ^ 11) ∧
    ((((2 ^ 64 - 1 : Nat) >>> 11 : Nat) : ℚ) / (2 ^ 53 - 1) = 1
      ↔ 2 ^ 64 - 2 ^ 11 ≤ (2 ^ 64 - 1 : Nat)) ∧
    ∃ r g1 x, next_random_lint top_uniform.rng_int = some (r, g1) ∧
      next_random_uniform exactOps top_uniform
        = some (x, { lower := top_uniform.lower, upper := top_uniform.upper, rng_int := g1 }) ∧
      next_random_uniform exactOps top_uniform
        = some (((u64 r >>> 11 : Nat) : ℚ) / (2 ^ 53 - 1)
              * (double_val top_uniform.upper - double_val top_uniform.lower)
              + double_val top_uniform.lower,
            { lower := top_uniform.lower, upper := top_uniform.upper, rng_int := g1 })) :=
  ⟨by decide, List.length_replicate 312 _, by decide,
    C18_unit_fraction exactOps (2 ^ 64 - 1) top_uniform (by decide)
      (List.length_replicate 312 _) (by decide)⟩

/-- C19 (fixed width and buffer fit): for every generator state, whatever
the field values, `get_random_state_int`, `get_random_state_uniform` and
`get_random_state_gaussian` succeed (every write, terminating NUL included,
stays inside the allocated block) and produce texts of exactly 5323, 5359 and
5438 characters, one less than the allocated sizes `INT_STATELENGTH = 5324`,
`UNIFORM_STATELENGTH = 5360` and `GAUSS_STATELENGTH = 5439`; and every field
has exactly its width: 8 for seed and index, 17 for 64-bit words, 9 for the
flag. -/
theorem C19_fixed_width_and_fit (g : rng_gaussian_type)
    (hl : g.rng_uniform.rng_int.mtstate.length = MTSTATESIZE) :
    (∃ b t, get_random_state_int g.rng_uniform.rng_int = some b ∧ cstr b = some t ∧
      t.length = 5323 ∧ b.length = INT_STATELENGTH ∧ INT_STATELENGTH = 5324) ∧
    (∃ b t, get_random_state_uniform g.rng_uniform = some b ∧ cstr b = some t ∧
      t.length = 5359 ∧ b.length = UNIFORM_STATELENGTH ∧ UNIFORM_STATELENGTH = 5360) ∧
    (∃ b t, get_random_state_gaussian g = some b ∧ cstr b = some t ∧
      t.length = 5438 ∧ b.length = GAUSS_STATELENGTH ∧ GAUSS_STATELENGTH = 5439) ∧
    (∀ v, (fmt_x 8 v).length = 8) ∧ (∀ v, (fmt_lx 17 v).length = 17) ∧
    (∀ v, (fmt_x 9 v).length = 9) := by
  have hl312 : g.rng_uniform.rng_int.mtstate.length = 312 := hl
  have h1 : (int_text g.rng_uniform.rng_int).length = 5323 := by
    rw [int_text_length, hl312]
  have h2 : (uniform_text g.rng_uniform).length = 5359 := by
    rw [uniform_text_length, hl312]
  have h3 : (gaussian_text g).length = 5438 := by
    rw [gaussian_text_length, hl312]
  refine ⟨⟨_, _, get_random_state_int_eq _ hl312, cstr_block_of _ 0 (int_text_no_NUL _), h1,
      ?_, rfl⟩,
    ⟨_, _, get_random_state_uniform_eq _ hl312, cstr_block_of _ 0 (uniform_text_no_NUL _), h2,
      ?_, rfl⟩,
    ⟨_, _, get_random_state_gaussian_eq _ hl312, cstr_block_of _ 0 (gaussian_text_no_NUL _), h3,
      ?_, rfl⟩,
    fmt_x_8_length, fmt_lx_17_length, fmt_x_9_length⟩
  · rw [block_of_length, h1]; rfl
  · rw [block_of_length, h2]; rfl
  · rw [block_of_length, h3]; rfl

/-- Witness for C19: a state with large field values. -/
theorem C19_fixed_width_and_fit_witness :
    (List.replicate 312 (2 ^ 64 - 1)).length = MTSTATESIZE ∧
    ((∃ b t, get_random_state_int ⟨-1, -1, List.replicate 312 (2 ^ 64 - 1)⟩ = some b ∧
      cstr b = some t ∧
      t.length = 5323 ∧ b.length = INT_STATELENGTH ∧ INT_STATELENGTH = 5324) ∧
    (∃ b t, get_random_state_uniform
        ⟨2 ^ 64 - 1, 0, ⟨-1, -1, List.replicate 312 (2 ^ 64 - 1)⟩⟩ = some b ∧
      cstr b = some t ∧
      t.length = 5359 ∧ b.length = UNIFORM_STATELENGTH ∧ UNIFORM_STATELENGTH = 5360) ∧
    (∃ b t, get_random_state_gaussian
        ⟨2 ^ 64 - 1, 0, 1, 2, true, 2 ^ 56 - 1,
          ⟨2 ^ 64 - 1, 0, ⟨-1, -1, List.replicate 312 (2 ^ 64 - 1)⟩⟩⟩ = some b ∧
      cstr b = some t ∧
      t.length = 5438 ∧ b.length = GAUSS_STATELENGTH ∧ GAUSS_STATELENGTH = 5439) ∧
    (∀ v, (fmt_x 8 v).length = 8) ∧ (∀ v, (fmt_lx 17 v).length = 17) ∧
    (∀ v, (fmt_x 9 v).length = 9)) :=
  ⟨List.length_replicate 312 _,
    C19_fixed_width_and_fit
      ⟨2 ^ 64 - 1, 0, 1, 2, true, 2 ^ 56 - 1,
        ⟨2 ^ 64 - 1, 0, ⟨-1, -1, List.replicate 312 (2 ^ 64 - 1)⟩⟩⟩
      (List.length_replicate 312 _)⟩

/-- C20 (exact failure condition of the nested decoders): for every text of
at least the encoded length (and frames whose arrays have 312 entries),
`restore_rng_state_uniform` aborts if and only if the character at offset 0
is not `U` or the character at offset 36 is not `I`, and
`restore_rng_state_gaussian` aborts if and only if the character at offset 0
is not `G`, or at offset 79 is not `U`, or at offset 115 is not `I`; nothing
else in the text makes them fail. -/
theorem C20_nested_abort_condition (fu : uniform_frame) (fg : gaussian_frame)
    (tu tg : List Char)
    (hfu : fu.callee.rng_int.mtstate.length = MTSTATESIZE)
    (hfg : fg.callee.callee.rng_int.mtstate.length = MTSTATESIZE)
    (htu : 5359 ≤ tu.length) (htg : 5438 ≤ tg.length) :
    (restore_rng_state_uniform fu tu = none ↔ tu[0]? ≠ some 'U' ∨ tu[36]? ≠ some 'I') ∧
    (restore_rng_state_gaussian fg tg = none ↔
      tg[0]? ≠ some 'G' ∨ tg[79]? ≠ some 'U' ∨ tg[115]? ≠ some 'I') := by
  constructor
  · rw [restore_rng_state_uniform_none_iff fu tu hfu,
      ← sscanf_c_ne_iff tu 0 fu.rngt 'U' (by omega),
      ← sscanf_c_ne_iff tu 36 fu.callee.rngt 'I' (by omega), List.drop_zero]
  · rw [restore_rng_state_gaussian_none_iff fg tg hfg,
      ← sscanf_c_ne_iff tg 0 fg.rngt 'G' (by omega),
      ← sscanf_c_ne_iff tg 79 fg.callee.rngt 'U' (by omega),
      ← sscanf_c_ne_iff tg 115 fg.callee.callee.rngt 'I' (by omega), List.drop_zero]

/-- Witness for C20: texts made of the letter `z` only. -/
theorem C20_nested_abort_condition_witness :
    (List.replicate 312 0).length = MTSTATESIZE ∧ (List.replicate 312 0).length = MTSTATESIZE ∧
    5359 ≤ (List.replicate 5359 'z').length ∧ 5438 ≤ (List.replicate 5438 'z').length ∧
    ((restore_rng_state_uniform
        ⟨⟨0, 0, ⟨0, 0, []⟩⟩, 'U', ⟨⟨0, 0, List.replicate 312 0⟩, 'I'⟩⟩
        (List.replicate 5359 'z') = none ↔
      (List.replicate 5359 'z')[0]? ≠ some 'U' ∨ (List.replicate 5359 'z')[36]? ≠ some 'I') ∧
    (restore_rng_state_gaussian
        ⟨⟨0, 0, 0, 0, false, 0, ⟨0, 0, ⟨0, 0, []⟩⟩⟩, 'G',
          ⟨⟨0, 0, ⟨0, 0, []⟩⟩, 'U', ⟨⟨0, 0, List.replicate 312 0⟩, 'I'⟩⟩⟩
        (List.replicate 5438 'z') = none ↔
      (List.replicate 5438 'z')[0]? ≠ some 'G' ∨ (List.replicate 5438 'z')[79]? ≠ some 'U' ∨
        (List.replicate 5438 'z')[115]? ≠ some 'I')) :=
  ⟨List.length_replicate 312 _, List.length_replicate 312 _,
    Nat.le_of_eq (List.length_replicate 5359 _).symm,
    Nat.le_of_eq (List.length_replicate 5438 _).symm,
    C20_nested_abort_condition
      ⟨⟨0, 0, ⟨0, 0, []⟩⟩, 'U', ⟨⟨0, 0, List.replicate 312 0⟩, 'I'⟩⟩
      ⟨⟨0, 0, 0, 0, false, 0, ⟨0, 0, ⟨0, 0, []⟩⟩⟩, 'G',
        ⟨⟨0, 0, ⟨0, 0, []⟩⟩, 'U', ⟨⟨0, 0, List.replicate 312 0⟩, 'I'⟩⟩⟩
      (List.replicate 5359 'z') (List.replicate 5438 'z')
      (List.length_replicate 312 _) (List.length_replicate 312 _)
      (Nat.le_of_eq (List.length_replicate 5359 _).symm)
      (Nat.le_of_eq (List.length_replicate 5438 _).symm)⟩

/-! ## The subscript of a draw -/

/-- A draw is the first part of the function, then the subscript at the new
index, then the tempering of the word found there. -/
theorem next_random_lint_eq_advance (g : rng_int_type) :
    next_random_lint g = (next_random_lint_advance g).bind
      (fun g1 => (rd g1.mtstate g1.mtidx).map (fun w => (i64 (temper w), g1))) := by
  cases hg : (if g.mtidx > (NN : Int) - 2 then refill g else some g) with
  | none =>
    have h1 : next_random_lint g = none := by
      unfold next_random_lint
      rw [hg]
      simp only [Option.bind_eq_bind, Option.none_bind]
    have h2 : next_random_lint_advance g = none := by
      unfold next_random_lint_advance
      rw [hg]
      simp only [Option.bind_eq_bind, Option.none_bind]
    rw [h1, h2, Option.none_bind]
  | some g1 =>
    have h2 : next_random_lint_advance g = some { g1 with mtidx := g1.mtidx + 1 } := by
      unfold next_random_lint_advance
      rw [hg]
      simp only [Option.bind_eq_bind, Option.some_bind]
    rw [h2, Option.some_bind]
    cases hw : rd g1.mtstate (g1.mtidx + 1) with
    | none =>
      unfold next_random_lint
      rw [hg]
      simp only [Option.bind_eq_bind, Option.some_bind, hw, Option.none_bind, Option.map_none']
    | some w =>
      rw [next_random_lint_of_rd g g1 w hg hw]
      simp only [hw, Option.map_some']

/-- Below `-1` there is no refill: the first part only increments the index. -/
theorem next_random_lint_advance_low (g : rng_int_type) (h : g.mtidx < -1) :
    next_random_lint_advance g = some { g with mtidx := g.mtidx + 1 } := by
  unfold next_random_lint_advance
  have hc : ¬ g.mtidx > (NN : Int) - 2 := by simp only [NN, MTSTATESIZE]; omega
  rw [if_neg hc]
  rfl

theorem rd_neg (a : List Nat) (i : Int) (h : i < 0) : rd a i = none := by
  unfold rd
  rw [if_neg (by omega)]

/-- Below `-1` the subscript is negative and the draw has no defined result. -/
theorem next_random_lint_low (g : rng_int_type) (h : g.mtidx < -1) :
    next_random_lint g = none := by
  rw [next_random_lint_eq_advance, next_random_lint_advance_low g h]
  simp only [Option.some_bind]
  rw [rd_neg _ _ (by omega)]
  rfl

/-- The state a draw returns is the one its first part produced. -/
theorem next_random_lint_advance_of_some (g g1 : rng_int_type) (v : Int)
    (h : next_random_lint g = some (v, g1)) : next_random_lint_advance g = some g1 := by
  rw [next_random_lint_eq_advance] at h
  cases ha : next_random_lint_advance g with
  | none => rw [ha] at h; simp at h
  | some g2 =>
    rw [ha, Option.some_bind] at h
    cases hr : rd g2.mtstate g2.mtidx with
    | none => rw [hr] at h; simp at h
    | some w =>
      rw [hr] at h
      simp only [Option.map_some', Option.some.injEq, Prod.mk.injEq] at h
      rw [h.2]

/-- A state whose index is `-2`. -/
theorem WF_index_minus_two : rng_int_type.WF ⟨0, -2, List.replicate 312 0⟩ :=
  WF_replicate 0 (-2) 0 (by decide) (by decide) (by decide) (by decide) (by decide)

theorem int_text_head (g : rng_int_type) : (int_text g).head? = some 'I' := rfl

/-- C21: a draw keeps every subscript inside `0..311` and leaves the index in
`[0, 311]` exactly when the index before the draw is at least `-1`.  For an
index `i < -1` the function only increments the index, to `i + 1 < 0`, and
then subscripts the state array at that negative position, which is outside
the array.  `restore_rng_state_int` stores whatever index the text holds: the
text written for a state with index `-2` starts with the tag `I` and is
restored, into any frame, to a state with index `-2`, on which a draw has no
defined result. -/
theorem C21_safe_draw_precondition (g : rng_int_type)
    (hl : g.mtstate.length = MTSTATESIZE) :
    ((∃ v g1, next_random_lint g = some (v, g1) ∧ next_random_lint_advance g = some g1 ∧
        (∃ w, rd g1.mtstate g1.mtidx = some w) ∧ 0 ≤ g1.mtidx ∧ g1.mtidx ≤ 311)
      ↔ -1 ≤ g.mtidx) ∧
    (g.mtidx < -1 →
      next_random_lint_advance g = some { g with mtidx := g.mtidx + 1 } ∧
      g.mtidx + 1 < 0 ∧ rd g.mtstate (g.mtidx + 1) = none ∧ next_random_lint g = none) ∧
    (∃ t : List Char, t.head? = some 'I' ∧
      ∀ frame : int_frame, frame.rng_int.mtstate.length = MTSTATESIZE →
        ∃ r, restore_rng_state_int frame t = some r ∧ r.mtidx = -2 ∧ r.mtidx < -1 ∧
          r.mtstate.length = MTSTATESIZE ∧ next_random_lint r = none) := by
  refine ⟨⟨?_, ?_⟩, ?_, ?_⟩
  · rintro ⟨v, g1, hn, _⟩
    by_contra hlow
    rw [next_random_lint_low g (by omega)] at hn
    simp at hn
  · intro h1
    obtain ⟨v, g1, hn, _, h0, h311, _⟩ := next_random_lint_index g hl h1
    have ha := next_random_lint_advance_of_some g g1 v hn
    refine ⟨v, g1, hn, ha, ?_, h0, h311⟩
    rw [next_random_lint_eq_advance, ha, Option.some_bind] at hn
    cases hr : rd g1.mtstate g1.mtidx with
    | none => rw [hr] at hn; simp at hn
    | some w => exact ⟨w, rfl⟩
  · intro h
    exact ⟨next_random_lint_advance_low g h, by omega, rd_neg _ _ (by omega),
      next_random_lint_low g h⟩
  · refine ⟨int_text ⟨0, -2, List.replicate 312 0⟩, int_text_head _, ?_⟩
    intro frame hf
    exact ⟨⟨0, -2, List.replicate 312 0⟩,
      restore_rng_state_int_text frame _ WF_index_minus_two hf, rfl, by decide,
      List.length_replicate 312 _, next_random_lint_low _ (by decide)⟩

/-- Witness for C21: the state with index `-2` and all words zero. -/
theorem C21_safe_draw_precondition_witness :
    (List.replicate 312 0).length = MTSTATESIZE ∧
    ¬ (∃ v g1, next_random_lint ⟨0, -2, List.replicate 312 0⟩ = some (v, g1)) ∧
    next_random_lint_advance ⟨0, -2, List.replicate 312 0⟩
      = some ⟨0, -1, List.replicate 312 0⟩ ∧
    rd (List.replicate 312 0) (-1) = none :=
  have h := C21_safe_draw_precondition ⟨0, -2, List.replicate 312 0⟩
    (List.length_replicate 312 _)
  ⟨List.length_replicate 312 _,
    fun ⟨v, g1, hn⟩ => by
      have h2 := (h.2.1 (by decide)).2.2.2
      rw [h2] at hn
      simp at hn,
    (h.2.1 (by decide)).1, (h.2.1 (by decide)).2.2.1⟩

/-! ## The tempering is invertible -/

theorem testBit_shl_masked (x m s i : Nat) :
    ((x * 2 ^ s % 2 ^ 64) &&& m).testBit i
      = ((decide (i < 64) && (decide (s ≤ i) && x.testBit (i - s))) && m.testBit i) := by
  rw [Nat.testBit_and, Nat.testBit_mod_two_pow, ← Nat.shiftLeft_eq, Nat.testBit_shiftLeft]

theorem testBit_shr_masked (x m s i : Nat) :
    ((x / 2 ^ s) &&& m).testBit i = (x.testBit (s + i) && m.testBit i) := by
  rw [Nat.testBit_and, ← Nat.shiftRight_eq_div_pow, Nat.testBit_shiftRight]

theorem testBit_shr (x s i : Nat) : (x / 2 ^ s).testBit i = x.testBit (s + i) := by
  rw [← Nat.shiftRight_eq_div_pow, Nat.testBit_shiftRight]

theorem testBit_high (x i : Nat) (hx : x < 2 ^ 64) (hi : 64 ≤ i) : x.testBit i = false :=
  Nat.testBit_lt_two_pow (Nat.lt_of_lt_of_le hx (Nat.pow_le_pow_right (by decide) hi))

theorem eq_of_low_bits (x w : Nat) (hx : x < 2 ^ 64) (hw : w < 2 ^ 64)
    (h : ∀ i, i < 64 → x.testBit i = w.testBit i) : x = w := by
  apply Nat.eq_of_testBit_eq
  intro i
  by_cases hi : i < 64
  · exact h i hi
  · rw [testBit_high x i hx (by omega), testBit_high w i hw (by omega)]

/-- The low `s` bits pass through a masked left shift unchanged. -/
theorem shl_base (w m s : Nat) :
    ∀ i, i < s → (w ^^^ ((w * 2 ^ s % 2 ^ 64) &&& m)).testBit i = w.testBit i := by
  intro i hi
  rw [Nat.testBit_xor, testBit_shl_masked]
  have : decide (s ≤ i) = false := by simp; omega
  rw [this]
  simp

/-- One round of undoing a masked left shift: a guess right in its low `k`
bits gives a guess right in its low `k + s` bits. -/
theorem shl_undo_step (w x m s k : Nat)
    (hag : ∀ i, i < k → x.testBit i = w.testBit i) :
    ∀ i, i < k + s →
      ((w ^^^ ((w * 2 ^ s % 2 ^ 64) &&& m)) ^^^ ((x * 2 ^ s % 2 ^ 64) &&& m)).testBit i
        = w.testBit i := by
  intro i hi
  rw [Nat.testBit_xor, Nat.testBit_xor, testBit_shl_masked, testBit_shl_masked]
  by_cases hs : s ≤ i
  · rw [hag (i - s) (by omega)]
    rw [Bool.xor_assoc, Bool.xor_self, Bool.xor_false]
  · have : decide (s ≤ i) = false := by simp; omega
    rw [this]
    simp

/-- The top `s` bits of a 64-bit word pass through a masked right shift
unchanged. -/
theorem shr_base (w m s : Nat) (hw : w < 2 ^ 64) :
    ∀ i, 64 ≤ i + s → (w ^^^ ((w / 2 ^ s) &&& m)).testBit i = w.testBit i := by
  intro i hi
  rw [Nat.testBit_xor, testBit_shr_masked, testBit_high w (s + i) hw (by omega)]
  simp

/-- One round of undoing a masked right shift: a guess right from bit `k`
upwards gives a guess right from bit `k - s` upwards. -/
theorem shr_undo_step (w x m s k : Nat)
    (hag : ∀ i, k ≤ i → x.testBit i = w.testBit i) :
    ∀ i, k ≤ i + s →
      ((w ^^^ ((w / 2 ^ s) &&& m)) ^^^ ((x / 2 ^ s) &&& m)).testBit i = w.testBit i := by
  intro i hi
  rw [Nat.testBit_xor, Nat.testBit_xor, testBit_shr_masked, testBit_shr_masked,
    hag (s + i) (by omega), Bool.xor_assoc, Bool.xor_self, Bool.xor_false]

theorem xor_shl_lt (w x m s : Nat) (hw : w < 2 ^ 64) :
    w ^^^ ((x * 2 ^ s % 2 ^ 64) &&& m) < 2 ^ 64 :=
  Nat.xor_lt_two_pow hw
    (Nat.lt_of_le_of_lt Nat.and_le_left (Nat.mod_lt _ (Nat.two_pow_pos 64)))

theorem xor_shr_lt (w x m s : Nat) (hw : w < 2 ^ 64) (hx : x < 2 ^ 64) :
    w ^^^ ((x / 2 ^ s) &&& m) < 2 ^ 64 :=
  Nat.xor_lt_two_pow hw
    (Nat.lt_of_le_of_lt Nat.and_le_left (Nat.lt_of_le_of_lt (Nat.div_le_self _ _) hx))

theorem temper1_lt (w : Nat) (hw : w < 2 ^ 64) : temper1 w < 2 ^ 64 :=
  xor_shr_lt w w _ 29 hw hw

theorem temper2_lt (w : Nat) (hw : w < 2 ^ 64) : temper2 w < 2 ^ 64 :=
  xor_shl_lt w w _ 17 hw

theorem temper3_lt (w : Nat) (hw : w < 2 ^ 64) : temper3 w < 2 ^ 64 :=
  xor_shl_lt w w _ 37 hw

theorem temper4_lt (w : Nat) (hw : w < 2 ^ 64) : temper4 w < 2 ^ 64 := by
  unfold temper4
  exact Nat.xor_lt_two_pow hw (Nat.lt_of_le_of_lt (Nat.div_le_self _ _) hw)

theorem untemper1_temper1 (w : Nat) (hw : w < 2 ^ 64) : untemper1 (temper1 w) = w := by
  apply Nat.eq_of_testBit_eq
  intro i
  have h0 := shr_base w 0x5555555555555555 29 hw
  have h1 := shr_undo_step w (temper1 w) 0x5555555555555555 29 35
    (fun i hi => h0 i (by omega))
  exact shr_undo_step w _ 0x5555555555555555 29 6 (fun i hi => h1 i (by omega)) i (by omega)

theorem untemper2_temper2 (w : Nat) (hw : w < 2 ^ 64) : untemper2 (temper2 w) = w := by
  apply eq_of_low_bits _ _ (xor_shl_lt _ _ _ 17 (temper2_lt w hw)) hw
  intro i hi
  have h0 := shl_base w 0x71D67FFFEDA60000 17
  have h1 := shl_undo_step w (temper2 w) 0x71D67FFFEDA60000 17 17 h0
  have h2 := shl_undo_step w _ 0x71D67FFFEDA60000 17 34 h1
  exact shl_undo_step w _ 0x71D67FFFEDA60000 17 51 h2 i (by omega)

theorem untemper3_temper3 (w : Nat) (hw : w < 2 ^ 64) : untemper3 (temper3 w) = w := by
  apply eq_of_low_bits _ _ (xor_shl_lt _ _ _ 37 (temper3_lt w hw)) hw
  intro i hi
  exact shl_undo_step w (temper3 w) 0xFFF7EEE000000000 37 37
    (shl_base w 0xFFF7EEE000000000 37) i (by omega)

theorem untemper4_temper4 (w : Nat) (hw : w < 2 ^ 64) : untemper4 (temper4 w) = w := by
  apply Nat.eq_of_testBit_eq
  intro i
  unfold untemper4 temper4
  rw [Nat.testBit_xor, Nat.testBit_xor, testBit_shr, testBit_shr, Nat.testBit_xor,
    testBit_shr, testBit_high w (43 + (43 + i)) hw (by omega)]
  simp

theorem temper_steps (w : Nat) : temper w = temper4 (temper3 (temper2 (temper1 w))) := rfl

theorem temper_lt (w : Nat) (hw : w < 2 ^ 64) : temper w < 2 ^ 64 := by
  rw [temper_steps]
  exact temper4_lt _ (temper3_lt _ (temper2_lt _ (temper1_lt w hw)))

theorem untemper_lt (y : Nat) (hy : y < 2 ^ 64) : untemper y < 2 ^ 64 := by
  have h4 : untemper4 y < 2 ^ 64 := temper4_lt y hy
  have h3 : untemper3 (untemper4 y) < 2 ^ 64 := temper3_lt _ h4
  have h2 : untemper2 (untemper3 (untemper4 y)) < 2 ^ 64 := xor_shl_lt _ _ _ 17 h3
  exact xor_shr_lt _ _ _ 29 h2 (xor_shr_lt _ _ _ 29 h2 h2)

/-- The inverse undoes the tempering. -/
theorem untemper_temper (w : Nat) (hw : w < 2 ^ 64) : untemper (temper w) = w := by
  have h1 := temper1_lt w hw
  have h2 := temper2_lt _ h1
  have h3 := temper3_lt _ h2
  rw [temper_steps]
  unfold untemper
  rw [untemper4_temper4 _ h3, untemper3_temper3 _ h2, untemper2_temper2 _ h1,
    untemper1_temper1 w hw]

/-- An injective map of the 64-bit words to themselves reaches every word, so
the left inverse is a right inverse as well. -/
theorem temper_untemper (y : Nat) (hy : y < 2 ^ 64) : temper (untemper y) = y := by
  let f : Fin (2 ^ 64) → Fin (2 ^ 64) := fun w => ⟨temper w.1, temper_lt w.1 w.2⟩
  have hinj : Function.Injective f := by
    intro a b hab
    have hv : temper a.1 = temper b.1 := congrArg Fin.val hab
    apply Fin.ext
    rw [← untemper_temper a.1 a.2, ← untemper_temper b.1 b.2, hv]
  obtain ⟨w, hw⟩ := Finite.surjective_of_injective hinj ⟨y, hy⟩
  have hv : temper w.1 = y := congrArg Fin.val hw
  rw [← hv, untemper_temper w.1 w.2]

theorem i64_inj (a b : Nat) (ha : a < 2 ^ 64) (hb : b < 2 ^ 64) (h : i64 a = i64 b) :
    a = b := by
  rw [← u64_i64 a ha, ← u64_i64 b hb, h]

/-- C22: the tempering `T` that `next_random_lint` applies to the selected
state word is a bijection of the 64-bit words.  `untemper` is its inverse:
both map 64-bit words to 64-bit words, `untemper (T w) = w` and
`T (untemper w) = w` for every 64-bit `w`.  So the value `w`, returned as the
`long int` `i64 w`, is the output for exactly one state word, `untemper w`; and
a draw that selects the word `w` returns `i64 (T w)`. -/
theorem C22_tempering_bijection (w : Nat) (hw : w < 2 ^ 64) :
    temper w < 2 ^ 64 ∧ untemper w < 2 ^ 64 ∧
    untemper (temper w) = w ∧ temper (untemper w) = w ∧
    (∀ x, x < 2 ^ 64 → temper x = temper w → x = w) ∧
    (∃ x, x < 2 ^ 64 ∧ i64 (temper x) = i64 w ∧
      ∀ y, y < 2 ^ 64 → i64 (temper y) = i64 w → y = x) ∧
    (∀ g : rng_int_type, g.mtstate.length = MTSTATESIZE → -1 ≤ g.mtidx → g.mtidx ≤ 310 →
      g.mtstate[(g.mtidx + 1).toNat]? = some w →
      next_random_lint g = some (i64 (temper w), { g with mtidx := g.mtidx + 1 })) := by
  refine ⟨temper_lt w hw, untemper_lt w hw, untemper_temper w hw, temper_untemper w hw,
    ?_, ⟨untemper w, untemper_lt w hw, by rw [temper_untemper w hw], ?_⟩, ?_⟩
  · intro x hx h
    rw [← untemper_temper x hx, h, untemper_temper w hw]
  · intro y hy h
    have ht : temper y = w := i64_inj _ _ (temper_lt y hy) hw h
    rw [← ht, untemper_temper y hy]
  · intro g hl h1 h2 hword
    obtain ⟨w0, hw0, hn⟩ := next_random_lint_plain g hl h1 h2
    rw [hword] at hw0
    rw [hn, Option.some.inj hw0]

/-- Witness for C22: the word `0xDEADBEEF12345678`. -/
theorem C22_tempering_bijection_witness :
    0xDEADBEEF12345678 < 2 ^ 64 ∧
    untemper (temper 0xDEADBEEF12345678) = 0xDEADBEEF12345678 ∧
    temper (untemper 0xDEADBEEF12345678) = 0xDEADBEEF12345678 :=
  ⟨by decide, (C22_tempering_bijection 0xDEADBEEF12345678 (by decide)).2.2.1,
    (C22_tempering_bijection 0xDEADBEEF12345678 (by decide)).2.2.2.1⟩

end MT
